import Mathlib

/-!
# darkhttpd 0.1: URI sanitiser, media type list, request processing,
per-connection steps and dispatcher

A shallow embedding of `trunk/darkhttpd.c`.

Conventions of the embedding.

* A byte is a `Char`; a region of memory reached through a `char *` is a
  `List Char` holding the bytes from the pointer onwards.  Bytes past the end
  of the list read as NUL.  The C string stored in a region is the run of
  bytes before its first NUL (`cstr`), and whatever follows that NUL in the
  list is the memory that lies behind the string's terminator.
* A `char *` field that only ever holds a string the program built itself
  carries that string's bytes (`Option` when the field may be `NULL`).
* Calls that leave the process (`err`, `errx`, a failing `assert`) are the
  `Except.error` outcomes of the step functions.
* Results of system calls (`recv`, `send`, `fopen`, `fstat`, the clock) are
  parameters.
* A read outside the bytes the program owns (behind a terminator, in front
  of a buffer, in a block it has freed) gives a value that is a parameter.
-/

namespace Darkhttpd

/-! ## C strings -/

/-- The NUL byte. -/
def NUL : Char := Char.ofNat 0

/-- Carriage return. -/
def CR : Char := Char.ofNat 13

/-- Line feed. -/
def LF : Char := Char.ofNat 10

/-- The read `p[k]` of the memory `m` that starts at the pointer `p`. -/
def rd (m : List Char) (k : Nat) : Char := m.getD k NUL

/-- The C string stored in `m`: the bytes before the first NUL. -/
def cstr : List Char → List Char
  | [] => []
  | c :: m => if c = NUL then [] else c :: cstr m

/-- The value of `strlen(p)` for the memory `m` at `p`. -/
def strlen (m : List Char) : Nat := (cstr m).length

/-- The string returned by `split_string(src, left, right)`: the bytes
`src[left .. right-1]` are copied and a NUL is put behind them; the result
is used as a C string by every caller, so it is given as one. -/
def split_string (src : List Char) (left right : Nat) : List Char :=
  cstr ((src.drop left).take (right - left))

/-! ## make_safe_uri -/

/-- The loop `for (; uri[i] == '/'; i++);`, returning the final `i`. -/
def skip_slashes (uri : List Char) : Nat → Nat → Nat
  | 0, i => i
  | fuel + 1, i => if rd uri i = '/' then skip_slashes uri fuel (i + 1) else i

/-- The loop `for (j = i+1; uri[j] != '/' && uri[j] != '\0'; j++);` entered
with `j` already set, returning the final `j`. -/
def next_slash (uri : List Char) : Nat → Nat → Nat
  | 0, j => j
  | fuel + 1, j =>
    if rd uri j ≠ '/' ∧ rd uri j ≠ NUL then next_slash uri fuel (j + 1) else j

/-- The loop `while (i < urilen)` that splits by slash; the result is the
array `elements[0 .. elem-1]`. -/
def split_elements (uri : List Char) (urilen : Nat) : Nat → Nat → List (List Char)
  | 0, _ => []
  | fuel + 1, i =>
    if i < urilen then
      let i1 := skip_slashes uri (uri.length + 1) i
      let j := next_slash uri (uri.length + 1) (i1 + 1)
      split_string uri i1 j :: split_elements uri urilen fuel j
    else []

/-- The loop `for (i=0; i<elem; i++)` over the elements.  The second argument
is `reassembly[0 .. reasm-1]`; `none` is the `return NULL` taken when a `..`
finds `reasm == 0`. -/
def process_elements : List (List Char) → List (List Char) → Option (List (List Char))
  | [], reassembly => some reassembly
  | e :: rest, reassembly =>
    if e = ['.'] then process_elements rest reassembly
    else if e = ['.', '.'] then
      if reassembly.length = 0 then none
      else process_elements rest reassembly.dropLast
    else process_elements rest (reassembly ++ [e])

/-- The loop that reassembles: `strcat(out, "/"); strcat(out, reassembly[i]);`
for each entry, starting from the empty string. -/
def reassemble (reassembly : List (List Char)) : List Char :=
  reassembly.foldl (fun out e => out ++ '/' :: e) []

/-- The function `make_safe_uri(uri)`, where `uri` is the memory at the
pointer; `none` is `NULL`.  The iteration bounds given to the loops are never
reached (`skip_slashes_eq`, `next_slash_eq`, `split_elements_eq`,
`elements_of_rest_eq`).  The arrays `elements` and `reassembly` are the two
lists; their allocated size, the number of slashes counted, plays no part in
the result. -/
def make_safe_uri (uri : List Char) : Option (List Char) :=
  if rd uri 0 ≠ '/' then none
  else
    let urilen := strlen uri
    let elements := split_elements uri urilen (urilen + 1) 0
    match process_elements elements [] with
    | none => none
    | some reassembly => some (reassemble reassembly)

/-! ## urldecode -/

/-- The C library's `isxdigit` on the characters it accepts. -/
def isxdigit (c : Char) : Bool :=
  ('0' ≤ c ∧ c ≤ '9') ∨ ('a' ≤ c ∧ c ≤ 'f') ∨ ('A' ≤ c ∧ c ≤ 'F')

/-- The source's `HEX_TO_DIGIT(hex)`. -/
def HEX_TO_DIGIT (hex : Char) : Nat :=
  if 'A' ≤ hex ∧ hex ≤ 'F' then hex.toNat - 'A'.toNat + 10
  else if 'a' ≤ hex ∧ hex ≤ 'f' then hex.toNat - 'a'.toNat + 10
  else hex.toNat - '0'.toNat

/-- The loop `for (i=0, pos=0; i<len; i++)` of `urldecode`, from index `i`
on; the result is the bytes stored to `out[pos], out[pos+1], ...`. -/
def urldecode_loop (url : List Char) (len : Nat) : Nat → Nat → List Char
  | 0, _ => []
  | fuel + 1, i =>
    if i < len then
      if rd url i = '%' ∧ i + 2 < len ∧
          isxdigit (rd url (i + 1)) = true ∧ isxdigit (rd url (i + 2)) = true then
        Char.ofNat ((HEX_TO_DIGIT (rd url (i + 1)) * 16 + HEX_TO_DIGIT (rd url (i + 2))) % 256)
          :: urldecode_loop url len fuel (i + 3)
      else rd url i :: urldecode_loop url len fuel (i + 1)
    else []

/-- The function `urldecode(url)`: the string left in `out` after the loop, a
NUL stored behind the decoded bytes and the buffer cut to `strlen(out)+1`.
Every iteration advances `i`, so `len` iterations are enough. -/
def urldecode (url : List Char) : List Char :=
  cstr (urldecode_loop url (strlen url) (strlen url) 0)

/-! ## uri_content_type -/

/-- The source's `struct mime_mapping` (without the list links). -/
structure mime_mapping where
  extension : List Char
  mimetype : List Char
deriving DecidableEq

/-- The source's `default_mimetype`. -/
def default_mimetype : List Char := "application/octet-stream".toList

/-- The function `uri_content_type(uri)`, with the list `mime_map` walked from
its head. -/
def uri_content_type : List mime_mapping → List Char → List Char
  | [], _ => default_mimetype
  | mapping :: rest, uri =>
    let urilen := strlen uri
    let extlen := strlen mapping.extension
    if urilen ≥ extlen + 3 ∧ rd uri (urilen - 1 - extlen) = '.' ∧
        cstr (uri.drop (urilen - extlen)) = cstr mapping.extension then
      mapping.mimetype
    else uri_content_type rest uri

/-! ## The connection record -/

/-- The states of a connection. -/
inductive conn_state where
  | RECV_REQUEST
  | SEND_HEADER
  | SEND_REPLY
  | DONE
deriving DecidableEq

/-- The tag of the reply body. -/
inductive reply_kind where
  | REPLY_GENERATED
  | REPLY_FROMFILE
deriving DecidableEq

/-- An open `FILE *`, named by a number. -/
abbrev FILE := Nat

/-- The source's `struct connection` (without the list links).  `request`
holds the `request_length` bytes received so far (the NUL the code keeps
behind them is the end of the list). -/
structure connection where
  socket : Int
  client : Nat
  last_active : Nat
  state : conn_state
  request : Option (List Char)
  request_length : Nat
  method : Option (List Char)
  uri : Option (List Char)
  referer : Option (List Char)
  user_agent : Option (List Char)
  header : Option (List Char)
  header_sent : Nat
  header_length : Nat
  header_dont_free : Int
  header_only : Int
  http_code : Int
  reply_type : reply_kind
  reply : Option (List Char)
  lastmod : Option (List Char)
  reply_dont_free : Int
  reply_file : Option FILE
  reply_sent : Nat
  reply_length : Nat
  total_sent : Nat
deriving DecidableEq

/-- The ways a step leaves the process instead of returning. -/
inductive fatal where
  | recv_failed
  | fseek_failed
  | fread_failed
  | assertion_failed
  | null_pointer
  | accept_failed
  | invalid_state
  | select_failed
  | select_timed_out
deriving DecidableEq

deriving instance DecidableEq for Except

/-- The result of `fopen(target, "rb")`: a handle, or `NULL` with `errno`
equal to `ENOENT`, or `NULL` with another `errno` whose `strerror` text is
carried. -/
inductive fopen_result where
  | opened (f : FILE)
  | ENOENT
  | failed (strerror : List Char)
deriving DecidableEq

/-- The fields of `struct stat` the code reads. -/
structure file_stat where
  st_size : Nat
  st_mtime : Nat
deriving DecidableEq

/-- What a step finds outside the connection: the globals set at startup,
the clock and date formatter, the file system, and the foreign memory that
`make_safe_uri` and `process_get` can reach: the bytes that lie behind the
terminator of `decoded_url` and the byte stored in front of `safe_url`. -/
structure environment where
  wwwroot : List Char
  index_name : List Char
  mime_map : List mime_mapping
  time : Nat
  rfc1123_date : Nat → List Char
  fopen : List Char → fopen_result
  fstat : FILE → Except (List Char) file_stat
  behind_decoded_url : List Char
  before_safe_url : Char

/-- The source's `pkgname`. -/
def pkgname : List Char := "darkhttpd/0.1".toList

/-- The source's `MAX_REQUEST_LENGTH`. -/
def MAX_REQUEST_LENGTH : Nat := 4000

/-- What `printf` writes for `%d` given an `int`. -/
def fmt_d (n : Int) : List Char :=
  if n < 0 then '-' :: Nat.toDigits 10 n.natAbs else Nat.toDigits 10 n.toNat

/-- The `int` that `%d` sees when it is handed an `unsigned int`. -/
def as_int (u : Nat) : Int :=
  if u % 2 ^ 32 < 2 ^ 31 then (u % 2 ^ 32 : Nat) else ((u % 2 ^ 32 : Nat) : Int) - 2 ^ 32

/-- The function `new_connection()`; `reply_type` stands for the field the
code leaves unset. -/
def new_connection (now : Nat) (reply_type : reply_kind) : connection :=
  { socket := -1, client := 0, last_active := now, state := conn_state.DONE,
    request := none, request_length := 0, method := none, uri := none,
    referer := none, user_agent := none, header := none, header_sent := 0,
    header_length := 0, header_dont_free := 0, header_only := 0, http_code := 0,
    reply_type := reply_type, reply := none, lastmod := none, reply_dont_free := 0,
    reply_file := none, reply_sent := 0, reply_length := 0, total_sent := 0 }

/-! ## default_reply -/

/-- The body `default_reply` generates for `errcode`, `errname` and the
already formatted `reason`, dated `date`. -/
def reply_body (date : List Char) (errcode : Int) (errname reason : List Char) : List Char :=
  "<html><head><title>".toList ++ fmt_d errcode ++ " ".toList ++ cstr errname ++
  "</title></head><body>\n<h1>".toList ++ cstr errname ++ "</h1>\n".toList ++
  cstr reason ++ "\n<hr>\nGenerated by ".toList ++ pkgname ++ " on ".toList ++ cstr date ++
  "\n</body></html>\n".toList

/-- The header `default_reply` generates. -/
def reply_header (date : List Char) (errcode : Int) (errname : List Char)
    (reply_length : Nat) : List Char :=
  "HTTP/1.1 ".toList ++ fmt_d errcode ++ " ".toList ++ cstr errname ++
  "\r\nDate: ".toList ++ cstr date ++ "\r\nServer: ".toList ++ pkgname ++
  "\r\nConnection: close\r\nContent-Length: ".toList ++ fmt_d (as_int reply_length) ++
  "\r\nContent-Type: text/html\r\n\r\n".toList

/-- The function `default_reply(conn, errcode, errname, format, ...)`; the
caller passes `reason`, the text its format and arguments produce. -/
def default_reply (env : environment) (conn : connection) (errcode : Int)
    (errname reason : List Char) : connection :=
  let date := env.rfc1123_date env.time
  let reply := reply_body date errcode errname reason
  let reply_length := reply.length % 2 ^ 32
  let header := reply_header date errcode errname reply_length
  { conn with
    reply := some reply, reply_length := reply_length,
    header := some header, header_length := header.length % 2 ^ 32,
    reply_type := reply_kind.REPLY_GENERATED, http_code := errcode }

/-! ## parse_field and parse_request -/

/-- The search of `strstr` on two strings without NUL: the offset of the
first place where `needle` starts in `hay`. -/
def strstr_from : List Char → List Char → Option Nat
  | [], needle => if needle = [] then some 0 else none
  | c :: hay, needle =>
    if needle.isPrefixOf (c :: hay) = true then some 0
    else (strstr_from hay needle).map (fun k => k + 1)

/-- The result of `strstr(hay, needle)` as an offset from `hay`; `none` is
`NULL`. -/
def strstr (hay needle : List Char) : Option Nat :=
  strstr_from (cstr hay) (cstr needle)

/-- The loop `for (bound2 = bound1; request[bound2] != '\r' && bound2 <
request_length; bound2++);` of `parse_field`, returning the final `bound2`. -/
def field_end (request : List Char) (request_length : Nat) : Nat → Nat → Nat
  | 0, bound2 => bound2
  | fuel + 1, bound2 =>
    if rd request bound2 ≠ CR ∧ bound2 < request_length then
      field_end request request_length fuel (bound2 + 1)
    else bound2

/-- The function `parse_field(conn, field)`; `none` is `NULL`.  The loop
stops at `request_length` at the latest, so `request_length` iterations are
enough. -/
def parse_field (conn : connection) (field : List Char) : Option (List Char) :=
  let request := conn.request.getD []
  match strstr request field with
  | none => none
  | some pos =>
    let bound1 := pos + strlen field
    let bound2 := field_end request conn.request_length conn.request_length bound1
    some (split_string request bound1 bound2)

/-- The C library's `toupper` in the C locale. -/
def toupper (c : Char) : Char :=
  if 'a' ≤ c ∧ c ≤ 'z' then Char.ofNat (c.toNat - 32) else c

/-- The loop `for (bound1 = 0; bound1 < request_length && request[bound1] !=
' '; bound1++);` of `parse_request`, returning the final `bound1`. -/
def method_end (request : List Char) (request_length : Nat) : Nat → Nat → Nat
  | 0, bound1 => bound1
  | fuel + 1, bound1 =>
    if bound1 < request_length ∧ rd request bound1 ≠ ' ' then
      method_end request request_length fuel (bound1 + 1)
    else bound1

/-- The loop `for (bound2 = bound1+1; bound2 < request_length &&
request[bound2] != ' ' && request[bound2] != '\r'; bound2++);` of
`parse_request`, returning the final `bound2`. -/
def uri_end (request : List Char) (request_length : Nat) : Nat → Nat → Nat
  | 0, bound2 => bound2
  | fuel + 1, bound2 =>
    if bound2 < request_length ∧ rd request bound2 ≠ ' ' ∧ rd request bound2 ≠ CR then
      uri_end request request_length fuel (bound2 + 1)
    else bound2

/-- The function `parse_request(conn)`.  Its opening assertion is the
`assertion_failed` outcome; both loops stop at `request_length` at the
latest. -/
def parse_request (conn : connection) : Except fatal connection :=
  match conn.request with
  | none => Except.error fatal.null_pointer
  | some request =>
    if conn.request_length ≠ strlen request then Except.error fatal.assertion_failed
    else
      let bound1 := method_end request conn.request_length conn.request_length 0
      let method := (split_string request 0 bound1).map toupper
      let bound2 := uri_end request conn.request_length conn.request_length (bound1 + 1)
      let uri := split_string request (bound1 + 1) bound2
      let conn := { conn with method := some method, uri := some uri }
      let conn := { conn with referer := parse_field conn "Referer: ".toList }
      Except.ok { conn with user_agent := parse_field conn "User-Agent: ".toList }

/-! ## process_get and process_request -/

/-- What `process_get` leaves behind: the connection, and the path it handed
to `fopen` when it called it. -/
structure get_outcome where
  conn : connection
  fopen_arg : Option (List Char)
deriving DecidableEq

/-- The byte `safe_url[strlen(safe_url)-1]` that `process_get` tests: the last
byte of the string, or, for the empty string, the byte stored in front of
it. -/
def last_byte (env : environment) (safe_url : List Char) : Char :=
  if strlen safe_url = 0 then env.before_safe_url else rd safe_url (strlen safe_url - 1)

/-- The path `process_get` builds in `target`. -/
def get_target (env : environment) (safe_url : List Char) : List Char :=
  if last_byte env safe_url = '/' then cstr env.wwwroot ++ cstr safe_url ++ cstr env.index_name
  else cstr env.wwwroot ++ cstr safe_url

/-- The media type `process_get` keeps in `mimetype`. -/
def get_mimetype (env : environment) (safe_url : List Char) : List Char :=
  if last_byte env safe_url = '/' then uri_content_type env.mime_map env.index_name
  else uri_content_type env.mime_map safe_url

/-- The header of a 200 reply. -/
def ok_header (date : List Char) (reply_length : Nat) (mimetype lastmod : List Char) :
    List Char :=
  "HTTP/1.1 200 OK\r\nDate: ".toList ++ cstr date ++ "\r\nServer: ".toList ++ pkgname ++
  "\r\nConnection: close\r\nContent-Length: ".toList ++ fmt_d (as_int reply_length) ++
  "\r\nContent-Type: ".toList ++ cstr mimetype ++ "\r\nLast-Modified: ".toList ++
  cstr lastmod ++ "\r\n\r\n".toList

/-- The part of `process_get(conn)` that follows a successful `fopen`: the
`fstat` call, the `If-Modified-Since` test and the 200 header.  `conn`
already has `reply_file` set. -/
def process_get_opened (env : environment) (conn : connection) (mimetype : List Char)
    (f : FILE) : connection :=
  match env.fstat f with
  | Except.error strerror =>
    default_reply env conn 500 "Internal Server Error".toList
      ("fstat() failed: ".toList ++ cstr strerror ++ ".".toList)
  | Except.ok filestat =>
    let lastmod := cstr (env.rfc1123_date filestat.st_mtime)
    let conn := { conn with
      reply_type := reply_kind.REPLY_FROMFILE,
      reply_length := filestat.st_size % 2 ^ 32,
      lastmod := some lastmod }
    if parse_field conn "If-Modified-Since: ".toList = some lastmod then
      { default_reply env conn 304 "Not Modified".toList [] with header_only := 1 }
    else
      let header := ok_header (env.rfc1123_date env.time) conn.reply_length mimetype lastmod
      { conn with
        header := some header, header_length := header.length % 2 ^ 32,
        http_code := 200 }

/-- The part of `process_get(conn)` from the `fopen` call on, for the request
target `uri` and the `target` and `mimetype` worked out from it. -/
def process_get_target (env : environment) (conn : connection)
    (uri target mimetype : List Char) : connection :=
  match env.fopen target with
  | fopen_result.ENOENT =>
    default_reply env { conn with reply_file := none } 404 "Not Found".toList
      ("The URI you requested (".toList ++ cstr uri ++ ") was not found.".toList)
  | fopen_result.failed strerror =>
    default_reply env { conn with reply_file := none } 403 "Forbidden".toList
      ("The URI you requested (".toList ++ cstr uri ++
        ") cannot be returned.<br>\n".toList ++ cstr strerror ++ ".".toList)
  | fopen_result.opened f =>
    process_get_opened env { conn with reply_file := some f } mimetype f

/-- The function `process_get(conn)`.  It is called by `process_request` only,
after `parse_request` has set `conn->uri` and while `conn->request` is still
allocated; where one of them is `NULL` the embedding reads the empty
string. -/
def process_get (env : environment) (conn : connection) : get_outcome :=
  let uri := conn.uri.getD []
  let decoded_url := urldecode uri
  match make_safe_uri (decoded_url ++ NUL :: env.behind_decoded_url) with
  | none =>
    { conn := default_reply env conn 400 "Bad Request".toList
        ("You requested an invalid URI: ".toList ++ cstr uri),
      fopen_arg := none }
  | some safe_url =>
    { conn := process_get_target env conn uri (get_target env safe_url)
        (get_mimetype env safe_url),
      fopen_arg := some (get_target env safe_url) }

/-- The methods `process_request` answers with 501. -/
def unimplemented_methods : List (List Char) :=
  ["OPTIONS".toList, "POST".toList, "PUT".toList, "DELETE".toList, "TRACE".toList,
   "CONNECT".toList]

/-- The reply `process_request` builds once the request is parsed (the chain
of `strcmp` tests on `conn->method`, which `parse_request` has set). -/
def dispatch_method (env : environment) (conn : connection) : connection :=
  let method := conn.method.getD []
  if method = "GET".toList then (process_get env conn).conn
  else if method = "HEAD".toList then { (process_get env conn).conn with header_only := 1 }
  else if method ∈ unimplemented_methods then
    default_reply env conn 501 "Not Implemented".toList
      ("The method you specified (".toList ++ cstr method ++ ") is not implemented.".toList)
  else
    default_reply env conn 400 "Bad Request".toList
      (cstr method ++ " is not a valid HTTP/1.1 method.".toList)

/-- The function `process_request(conn)`. -/
def process_request (env : environment) (conn : connection) : Except fatal connection :=
  match parse_request conn with
  | Except.error e => Except.error e
  | Except.ok conn =>
    Except.ok { dispatch_method env conn with state := conn_state.SEND_HEADER, request := none }

/-! ## The per-connection steps -/

/-- The four bytes `"\r\n\r\n"`. -/
def CRLFCRLF : List Char := [CR, LF, CR, LF]

/-- The function `poll_recv_request(conn)`.  `recv` is what `recv()` did:
`none` for the return value -1, otherwise the bytes it stored (none of them
for the return value 0). -/
def poll_recv_request (env : environment) (conn : connection) (recv : Option (List Char)) :
    Except fatal connection :=
  match recv with
  | none => Except.error fatal.recv_failed
  | some [] => Except.ok { conn with state := conn_state.DONE }
  | some (b :: buf) =>
    let request := (conn.request.getD []).take conn.request_length ++ b :: buf
    let conn := { conn with
      last_active := env.time,
      request := some request,
      request_length := (conn.request_length + (b :: buf).length) % 2 ^ 32 }
    let processed :=
      if conn.request_length > 4 ∧
          (request.drop (conn.request_length - 4)).take 4 = CRLFCRLF then
        process_request env conn
      else Except.ok conn
    match processed with
    | Except.error e => Except.error e
    | Except.ok conn =>
      if conn.request_length > MAX_REQUEST_LENGTH then
        Except.ok { default_reply env conn 413 "Request Entity Too Large".toList
            "Your request was dropped because it was too long.".toList with
          state := conn_state.SEND_HEADER }
      else Except.ok conn

/-- The function `poll_send_header(conn)`; `sent` is the return value of
`send()` and `now` the clock. -/
def poll_send_header (conn : connection) (now : Nat) (sent : Int) : Except fatal connection :=
  match conn.header with
  | none => Except.error fatal.null_pointer
  | some header =>
    if conn.header_length ≠ strlen header then Except.error fatal.assertion_failed
    else
      let conn := { conn with last_active := now }
      if sent < 1 then Except.ok { conn with state := conn_state.DONE }
      else
        let conn := { conn with
          header_sent := (conn.header_sent + sent.toNat) % 2 ^ 32,
          total_sent := (conn.total_sent + sent.toNat) % 2 ^ 32 }
        if conn.header_sent = conn.header_length then
          Except.ok { conn with
            header := none,
            state := if conn.header_only ≠ 0 then conn_state.DONE else conn_state.SEND_REPLY }
        else Except.ok conn

/-- The `amount` that `poll_send_reply` reads from the file and offers to
`send()`: `min(65000, reply_length - reply_sent)` in unsigned arithmetic. -/
def file_amount (conn : connection) : Nat :=
  min 65000 ((conn.reply_length + 2 ^ 32 - conn.reply_sent % 2 ^ 32) % 2 ^ 32)

/-- The tail of `poll_send_reply`, from the test of `sent` on. -/
def after_send (conn : connection) (now : Nat) (sent : Int) : connection :=
  let conn := { conn with last_active := now }
  if sent < 1 then { conn with state := conn_state.DONE }
  else
    let conn := { conn with
      reply_sent := (conn.reply_sent + sent.toNat) % 2 ^ 32,
      total_sent := (conn.total_sent + sent.toNat) % 2 ^ 32 }
    if conn.reply_sent = conn.reply_length then
      { conn with
        reply := if conn.reply_dont_free = 0 then none else conn.reply,
        state := conn_state.DONE }
    else conn

/-- The function `poll_send_reply(conn)`; `fseek` is the return value of
`fseek()`, `fread` that of `fread()` (the number of items read), `sent` that
of `send()` and `now` the clock. -/
def poll_send_reply (conn : connection) (now : Nat) (fseek : Int) (fread : Nat) (sent : Int) :
    Except fatal connection :=
  match conn.reply_type with
  | reply_kind.REPLY_GENERATED =>
    match conn.reply with
    | none => Except.error fatal.null_pointer
    | some reply =>
      if conn.reply_length ≠ strlen reply then Except.error fatal.assertion_failed
      else Except.ok (after_send conn now sent)
  | reply_kind.REPLY_FROMFILE =>
    match conn.reply_file with
    | none => Except.error fatal.null_pointer
    | some _ =>
      if fseek = -1 then Except.error fatal.fseek_failed
      else if fread ≠ 1 then Except.error fatal.fread_failed
      else Except.ok (after_send conn now sent)


/-! ## The specification of the sanitiser -/

/-- The non-empty segments of `s` split on `/`. -/
def spec_segments (s : List Char) : List (List Char) :=
  (s.splitOn '/').filter (fun seg => decide (seg ≠ []))

/-- The segments, followed by one empty element when `s` ends in `/`. -/
def spec_elements (s : List Char) : List (List Char) :=
  spec_segments s ++ (if s.getLast? = some '/' then [[]] else [])

/-- The splitting loop seen on the rest `r` of the string that lies at the
loop index. -/
def elements_of_rest : Nat → List Char → List (List Char)
  | 0, _ => []
  | fuel + 1, r =>
    if r = [] then []
    else
      match r.dropWhile (fun c => decide (c = '/')) with
      | [] => [[]]
      | c :: r1 =>
        (c :: r1).takeWhile (fun c => decide (c ≠ '/')) ::
          elements_of_rest fuel ((c :: r1).dropWhile (fun c => decide (c ≠ '/')))

/-- The walk over the segments from left to right, with `depth` the number of
normal segments met so far that no `..` has popped: `true` when a `..` is met
while that number is zero. -/
def spec_escapes : Nat → List (List Char) → Bool
  | _, [] => false
  | depth, seg :: rest =>
    if seg = ['.'] then spec_escapes depth rest
    else if seg = ['.', '.'] then
      if depth = 0 then true else spec_escapes (depth - 1) rest
    else spec_escapes (depth + 1) rest

/-- The segments that survive the walk, in their original order: `stack`
holds the normal segments met so far that no `..` has popped, the latest
first. -/
def spec_survivors : List (List Char) → List (List Char) → List (List Char)
  | stack, [] => stack.reverse
  | stack, seg :: rest =>
    if seg = ['.'] then spec_survivors stack rest
    else if seg = ['.', '.'] then spec_survivors stack.tail rest
    else spec_survivors (seg :: stack) rest

/-- The sanitiser as the specification describes it, on the string `s`. -/
def spec_safe_uri (s : List Char) : Option (List Char) :=
  if s.head? ≠ some '/' then none
  else if spec_escapes 0 (spec_segments s) = true then none
  else
    some (((spec_survivors [] (spec_segments s)).map (fun seg => '/' :: seg)).flatten ++
      (if s.getLast? = some '/' then ['/'] else []))

/-! ## A sample environment -/

/-- The date of the specification's end-to-end scenarios. -/
def scenario_date : List Char := "Fri, 28 Feb 2003 00:02:08 GMT".toList

/-- The environment of the specification's end-to-end scenarios: a document
root `/var/www` that holds only `index.html`, 3 bytes long. -/
def scenario_env : environment :=
  { wwwroot := "/var/www".toList,
    index_name := "index.html".toList,
    mime_map := [⟨"txt".toList, "text/plain".toList⟩, ⟨"html".toList, "text/html".toList⟩],
    time := 1046390528,
    rfc1123_date := fun _ => scenario_date,
    fopen := fun target =>
      if target = "/var/www/index.html".toList then fopen_result.opened 3
      else fopen_result.ENOENT,
    fstat := fun _ => Except.ok ⟨3, 1046390528⟩,
    behind_decoded_url := [],
    before_safe_url := NUL }

/-- A connection as `accept_connection` leaves it, with `request` received. -/
def connection_with_request (request : List Char) : connection :=
  { new_connection 1046390528 reply_kind.REPLY_GENERATED with
    socket := 4, state := conn_state.RECV_REQUEST,
    request := some request, request_length := request.length }

/-- A connection on which `parse_request` has stored the method `GET` and the
request target `uri`. -/
def get_connection (request uri : List Char) : connection :=
  { connection_with_request request with method := some "GET".toList, uri := some uri }

/-! ## The specification of the decoder, and an encoder -/

/-- A hexadecimal digit, of either case. -/
def spec_is_hex (c : Char) : Bool :=
  c.isDigit || (decide ('a' ≤ c) && decide (c ≤ 'f')) || (decide ('A' ≤ c) && decide (c ≤ 'F'))

/-- The value of a hexadecimal digit. -/
def spec_hex_value (c : Char) : Nat :=
  if c.isDigit = true then c.toNat - 48
  else if 'a' ≤ c then c.toNat - 87
  else c.toNat - 55

/-- The left-to-right reference decoder: a `%` followed by two hexadecimal
digits becomes the single byte with that value, every other byte is copied,
a `%` not followed by two hexadecimal digits included. -/
def spec_urldecode : List Char → List Char
  | [] => []
  | [c] => [c]
  | [c, a] => c :: spec_urldecode [a]
  | c :: a :: b :: rest =>
    if c = '%' ∧ spec_is_hex a = true ∧ spec_is_hex b = true then
      Char.ofNat (16 * spec_hex_value a + spec_hex_value b) :: spec_urldecode rest
    else c :: spec_urldecode (a :: b :: rest)

/-- The hexadecimal digit of value `n`, in upper case when `upper` is set. -/
def hex_digit (upper : Bool) (n : Nat) : Char :=
  if n < 10 then Char.ofNat (48 + n)
  else if upper = true then Char.ofNat (55 + n) else Char.ofNat (87 + n)

/-- Modelled from the spec: the percent-encoder `url_encode`, which the source
does not have.  A byte of the set `literal` is left unchanged, every other
byte becomes `%` followed by its two hexadecimal digits. -/
def url_encode (literal : Char → Bool) (upper : Bool) : List Char → List Char
  | [] => []
  | c :: s =>
    if literal c = true then c :: url_encode literal upper s
    else '%' :: hex_digit upper (c.toNat / 16) :: hex_digit upper (c.toNat % 16) ::
      url_encode literal upper s

/-! ## The specification of the media type lookup -/

/-- The URI `uri` ends in `.` followed by `ext` and is at least three
characters longer than `ext`. -/
def spec_ext_matches (uri ext : List Char) : Bool :=
  decide (('.' :: ext) <:+ uri) && decide (ext.length + 3 ≤ uri.length)

/-- The media type of the first entry of the list, in list order, whose
extension matches; `application/octet-stream` when there is none. -/
def spec_content_type (mime_map : List mime_mapping) (uri : List Char) : List Char :=
  match mime_map.find? (fun mapping => spec_ext_matches uri (cstr mapping.extension)) with
  | some mapping => mapping.mimetype
  | none => "application/octet-stream".toList

/-! ## The specification of the request parser -/

/-- The bytes before the first space, every ASCII lowercase letter
uppercased. -/
def spec_method (request : List Char) : List Char :=
  (request.takeWhile (fun c => decide (c ≠ ' '))).map toupper

/-- The bytes after the first space up to the next space, CR or end of
buffer. -/
def spec_uri (request : List Char) : List Char :=
  ((request.dropWhile (fun c => decide (c ≠ ' '))).drop 1).takeWhile
    (fun c => decide (c ≠ ' ' ∧ c ≠ CR))

/-- The text that follows the first occurrence of `field` in the buffer, up
to the next CR or the end of the buffer; `none` when `field` does not
occur. -/
def spec_field_value : List Char → List Char → Option (List Char)
  | [], field => if field = [] then some [] else none
  | c :: rest, field =>
    if field.isPrefixOf (c :: rest) = true then
      some (((c :: rest).drop field.length).takeWhile (fun c => decide (c ≠ CR)))
    else spec_field_value rest field

/-- The sample environment with `fstat` reporting the size `n` for every
file. -/
def scenario_env_size (n : Nat) : environment :=
  { scenario_env with fstat := fun _ => Except.ok ⟨n, 1046390528⟩ }

/-! ## The life of a connection -/

/-- The source's `IDLETIME`. -/
def IDLETIME : Int := 60

/-- The function `accept_connection()`; `socket` is the return value of
`accept()`, `client` the peer address it stored and `now` the clock. -/
def accept_connection (now : Nat) (reply_type : reply_kind) (socket : Int) (client : Nat) :
    Except fatal connection :=
  if socket = -1 then Except.error fatal.accept_failed
  else Except.ok { new_connection now reply_type with
    socket := socket, state := conn_state.RECV_REQUEST, client := client }

/-- The function `poll_check_timeout(conn)`; `now` is the clock. -/
def poll_check_timeout (conn : connection) (now : Nat) : connection :=
  if (now : Int) - (conn.last_active : Int) ≥ IDLETIME then
    { conn with state := conn_state.DONE }
  else conn

/-- The length `poll_send_header` passes to `send()`:
`header_length - header_sent` in unsigned arithmetic. -/
def header_amount (conn : connection) : Nat :=
  (conn.header_length + 2 ^ 32 - conn.header_sent % 2 ^ 32) % 2 ^ 32

/-- The length `poll_send_reply` passes to `send()`. -/
def reply_amount (conn : connection) : Nat :=
  match conn.reply_type with
  | reply_kind.REPLY_GENERATED =>
    (conn.reply_length + 2 ^ 32 - conn.reply_sent % 2 ^ 32) % 2 ^ 32
  | reply_kind.REPLY_FROMFILE => file_amount conn

/-- One thing `httpd_poll` does to a connection of the list: the timeout
check, or the step its `switch` selects by `conn->state`, run to its return.
`send()` reports at most the length it was passed. -/
inductive poll_step : connection → connection → Prop where
  | timeout (conn : connection) (now : Nat) :
    poll_step conn (poll_check_timeout conn now)
  | recv (env : environment) (conn : connection) (recv : Option (List Char))
    (next : connection) :
    conn.state = conn_state.RECV_REQUEST →
    poll_recv_request env conn recv = Except.ok next →
    poll_step conn next
  | send_header (conn : connection) (now : Nat) (sent : Int) (next : connection) :
    conn.state = conn_state.SEND_HEADER →
    sent ≤ (header_amount conn : Int) →
    poll_send_header conn now sent = Except.ok next →
    poll_step conn next
  | send_reply (conn : connection) (now : Nat) (fseek : Int) (fread : Nat) (sent : Int)
    (next : connection) :
    conn.state = conn_state.SEND_REPLY →
    sent ≤ (reply_amount conn : Int) →
    poll_send_reply conn now fseek fread sent = Except.ok next →
    poll_step conn next

/-- The connection states that `accept_connection` and the steps of
`httpd_poll` lead to. -/
inductive reachable : connection → Prop where
  | accept (now : Nat) (reply_type : reply_kind) (socket : Int) (client : Nat)
    (conn : connection) :
    accept_connection now reply_type socket client = Except.ok conn →
    reachable conn
  | step (conn next : connection) :
    reachable conn → poll_step conn next → reachable next

/-- What holds of every reachable connection: the cursors are within the
lengths, the lengths fit 32 bits, nothing is sent or built while the request
is received, no body byte is sent while the header is, and while a reply is
sent the body that `reply_type` names is there. -/
structure conn_inv (c : connection) : Prop where
  header_le : c.header_sent ≤ c.header_length
  reply_le : c.reply_sent ≤ c.reply_length
  header_fits : c.header_length < 2 ^ 32
  reply_fits : c.reply_length < 2 ^ 32
  receiving : c.state = conn_state.RECV_REQUEST →
    c.header_sent = 0 ∧ c.reply_sent = 0 ∧ c.reply = none
  heading : c.state = conn_state.SEND_HEADER → c.reply_sent = 0
  sending : c.state = conn_state.SEND_HEADER ∨ c.state = conn_state.SEND_REPLY →
    (c.reply_type = reply_kind.REPLY_GENERATED → c.reply ≠ none) ∧
    (c.reply_type = reply_kind.REPLY_FROMFILE → c.reply_file ≠ none ∧ c.reply = none)

/-- What a step that builds a reply leaves of `conn`: the cursors are those
of `conn`, the lengths fit 32 bits and the body that `reply_type` names is
there. -/
structure reply_built (conn c : connection) : Prop where
  header_sent_eq : c.header_sent = conn.header_sent
  reply_sent_eq : c.reply_sent = conn.reply_sent
  header_fits : c.header_length < 2 ^ 32
  reply_fits : c.reply_length < 2 ^ 32
  generated : c.reply_type = reply_kind.REPLY_GENERATED → c.reply ≠ none
  fromfile : c.reply_type = reply_kind.REPLY_FROMFILE →
    c.reply_file ≠ none ∧ c.reply = conn.reply

/-- The sample environment with a failing `fstat`. -/
def scenario_env_fstat_fails : environment :=
  { scenario_env with fstat := fun _ => Except.error "Input/output error".toList }

/-- A connection as `accept_connection` leaves it. -/
def sample_accepted : connection :=
  { new_connection 1046390528 reply_kind.REPLY_GENERATED with
    socket := 4, state := conn_state.RECV_REQUEST, client := 2130706433 }

/-- The connection `sample_accepted` after `poll_recv_request` has received
the request `GET / HTTP/1.1` in one piece. -/
def sample_received (env : environment) : connection :=
  match poll_recv_request env sample_accepted (some "GET / HTTP/1.1\r\n\r\n".toList) with
  | Except.ok c => c
  | Except.error _ => sample_accepted

/-- The connection `sample_received` after `poll_send_header` has sent the
whole header in one piece. -/
def sample_header_sent (env : environment) : connection :=
  match poll_send_header (sample_received env) 1046390528
      (sample_received env).header_length with
  | Except.ok c => c
  | Except.error _ => sample_accepted

/-! ## The bytes a connection sends -/

/-- The bytes `poll_send_header` or `poll_send_reply` passes to `send()`:
`header_amount` bytes of the header from `header_sent` on, or `reply_amount`
bytes of the generated reply or of `file`, the contents of the file behind
`reply_file`, from `reply_sent` on. -/
def offered (file : List Char) (conn : connection) : List Char :=
  match conn.state with
  | conn_state.SEND_HEADER =>
    ((conn.header.getD []).drop conn.header_sent).take (header_amount conn)
  | conn_state.SEND_REPLY =>
    match conn.reply_type with
    | reply_kind.REPLY_GENERATED =>
      ((conn.reply.getD []).drop conn.reply_sent).take (reply_amount conn)
    | reply_kind.REPLY_FROMFILE => (file.drop conn.reply_sent).take (reply_amount conn)
  | _ => []

/-- The return value of `fread(buf, amount, 1, conn->reply_file)` behind the
`fseek` to `reply_sent`, for a file with the contents `file`: one item when
`amount` is not 0 and that many bytes are left, none otherwise. -/
def fread_item (file : List Char) (conn : connection) : Nat :=
  if file_amount conn ≠ 0 ∧ conn.reply_sent + file_amount conn ≤ file.length then 1 else 0

/-- A sending step of `httpd_poll` together with the bytes the socket
accepted in it: the first `sent` of the bytes offered, none when `send()`
fails.  `file` holds the contents of the file behind `reply_file`. -/
inductive send_step (file : List Char) : connection → List Char → connection → Prop where
  | header (conn : connection) (now : Nat) (sent : Int) (next : connection) :
    conn.state = conn_state.SEND_HEADER →
    sent ≤ (header_amount conn : Int) →
    poll_send_header conn now sent = Except.ok next →
    send_step file conn ((offered file conn).take sent.toNat) next
  | reply (conn : connection) (now : Nat) (fseek : Int) (sent : Int) (next : connection) :
    conn.state = conn_state.SEND_REPLY →
    sent ≤ (reply_amount conn : Int) →
    poll_send_reply conn now fseek (fread_item file conn) sent = Except.ok next →
    send_step file conn ((offered file conn).take sent.toNat) next

/-- A sequence of sending steps, with all the bytes the socket accepted in
them, in order. -/
inductive sends (file : List Char) : connection → List Char → connection → Prop where
  | start (conn : connection) : sends file conn [] conn
  | more (conn mid next : connection) (trace bytes : List Char) :
    sends file conn trace mid → send_step file mid bytes next →
    sends file conn (trace ++ bytes) next

/-- The body of the reply that `conn` holds: the generated reply, or the
contents `file` of the file behind `reply_file`. -/
def body_of (file : List Char) (conn : connection) : List Char :=
  match conn.reply_type with
  | reply_kind.REPLY_GENERATED => cstr (conn.reply.getD [])
  | reply_kind.REPLY_FROMFILE => file

/-- What holds of the connection `c` and of the bytes `trace` sent so far
after some sending steps from `c0`, which had sent nothing. -/
structure send_inv (file : List Char) (c0 c : connection) (trace : List Char) : Prop where
  inv : conn_inv c
  header_length_eq : c.header_length = c0.header_length
  reply_length_eq : c.reply_length = c0.reply_length
  reply_type_eq : c.reply_type = c0.reply_type
  heading : c.state = conn_state.SEND_HEADER → c.header = c0.header ∧ c.reply = c0.reply
  replying : c.state = conn_state.SEND_REPLY →
    c.header_sent ≠ 0 ∧ c.header_sent = c.header_length ∧ c.reply = c0.reply
  header_part : c.header_sent ≠ 0 → c.header_length = strlen (c0.header.getD [])
  reply_part : c.reply_sent ≠ 0 →
    c.header_sent ≠ 0 ∧ c.header_sent = c.header_length ∧ c.reply_sent ≤ (body_of file c0).length
  bytes : trace = (cstr (c0.header.getD [])).take c.header_sent ++
    (body_of file c0).take c.reply_sent

/-- The connection `sample_header_sent` after `poll_send_reply` has sent the
three bytes of the file in one piece. -/
def sample_reply_sent (env : environment) : connection :=
  match poll_send_reply (sample_header_sent env) 1046390528 0 1 3 with
  | Except.ok c => c
  | Except.error _ => sample_accepted

/-! ## The shape of a header block -/

/-- A header block: every line followed by CR LF, and an empty line, CR LF
alone, behind the last. -/
def header_block : List (List Char) → List Char
  | [] => [CR, LF]
  | line :: lines => line ++ CR :: LF :: header_block lines

/-- The lines of the header `default_reply` generates. -/
def reply_header_lines (date : List Char) (errcode : Int) (errname : List Char)
    (reply_length : Nat) : List (List Char) :=
  ["HTTP/1.1 ".toList ++ fmt_d errcode ++ " ".toList ++ cstr errname,
   "Date: ".toList ++ cstr date,
   "Server: ".toList ++ pkgname,
   "Connection: close".toList,
   "Content-Length: ".toList ++ fmt_d (as_int reply_length),
   "Content-Type: text/html".toList]

/-- The lines of the header of a 200 reply. -/
def ok_header_lines (date : List Char) (reply_length : Nat) (mimetype lastmod : List Char) :
    List (List Char) :=
  ["HTTP/1.1 200 OK".toList,
   "Date: ".toList ++ cstr date,
   "Server: ".toList ++ pkgname,
   "Connection: close".toList,
   "Content-Length: ".toList ++ fmt_d (as_int reply_length),
   "Content-Type: ".toList ++ cstr mimetype,
   "Last-Modified: ".toList ++ cstr lastmod]

/-- The header of `c` is a block of non-empty lines without CR or LF, each
terminated by CR LF, with an empty line at its end; it ends in CR LF CR LF
and holds that sequence nowhere else; and `header_length` is its length. -/
def well_formed_header (c : connection) : Prop :=
  ∃ (hdr : List Char) (lines : List (List Char)),
    c.header = some hdr ∧ hdr = header_block lines ∧
    (∀ l ∈ lines, l ≠ [] ∧ CR ∉ l ∧ LF ∉ l) ∧
    CRLFCRLF <:+ hdr ∧
    (∀ pre post : List Char, hdr = pre ++ CRLFCRLF ++ post → post = []) ∧
    c.header_length = hdr.length

/-! ## parse_mimetype_line -/

/-- The loops `for (...; line[k] == ' ' || line[k] == '\t'; k++);` of
`parse_mimetype_line`, returning the final index. -/
def skip_blanks (line : List Char) : Nat → Nat → Nat
  | 0, k => k
  | fuel + 1, k =>
    if rd line k = ' ' ∨ rd line k = '\t' then skip_blanks line fuel (k + 1) else k

/-- The loop `for (bound1=pad+1; line[bound1] != ' ' && line[bound1] != '\t';
bound1++)` with its body `if (line[bound1] == 0) return;`, entered with
`bound1` already set: the final `bound1`, or `none` for the `return`. -/
def mimetype_end (line : List Char) : Nat → Nat → Option Nat
  | 0, bound1 => some bound1
  | fuel + 1, bound1 =>
    if rd line bound1 ≠ ' ' ∧ rd line bound1 ≠ '\t' then
      if rd line bound1 = NUL then none else mimetype_end line fuel (bound1 + 1)
    else some bound1

/-- The loop `for (rbound = lbound; line[rbound] != ' ' && line[rbound] !=
'\t' && line[rbound] != '\0'; rbound++);`, returning the final `rbound`. -/
def extension_end (line : List Char) : Nat → Nat → Nat
  | 0, rbound => rbound
  | fuel + 1, rbound =>
    if rd line rbound ≠ ' ' ∧ rd line rbound ≠ '\t' ∧ rd line rbound ≠ NUL then
      extension_end line fuel (rbound + 1)
    else rbound

/-- The loop `for (;;)` of `parse_mimetype_line`, entered with `lbound`; each
mapping is put in front of `mime_map` (`LIST_INSERT_HEAD`).  The two
assertions are the `assertion_failed` outcome. -/
def add_extensions (line : List Char) (pad bound1 : Nat) :
    Nat → Nat → List mime_mapping → Except fatal (List mime_mapping)
  | 0, _, mime_map => Except.ok mime_map
  | fuel + 1, lbound, mime_map =>
    let lbound := skip_blanks line (line.length + 1) lbound
    if rd line lbound = NUL then Except.ok mime_map
    else
      let rbound := extension_end line (line.length + 1) lbound
      let mapping : mime_mapping :=
        { mimetype := split_string line pad bound1,
          extension := split_string line lbound rbound }
      if ¬ (strlen mapping.mimetype > 0) then Except.error fatal.assertion_failed
      else if ¬ (strlen mapping.extension > 0) then Except.error fatal.assertion_failed
      else if rd line rbound = NUL then Except.ok (mapping :: mime_map)
      else add_extensions line pad bound1 fuel (rbound + 1) (mapping :: mime_map)

/-- The function `parse_mimetype_line(line)`, from the list `mime_map` to the
list it leaves.  The iteration bounds given to the loops are never reached
(`parse_mimetype_line_value`). -/
def parse_mimetype_line (mime_map : List mime_mapping) (line : List Char) :
    Except fatal (List mime_mapping) :=
  let pad := skip_blanks line (line.length + 1) 0
  if rd line pad = NUL ∨ rd line pad = '#' then Except.ok mime_map
  else
    match mimetype_end line (line.length + 1) (pad + 1) with
    | none => Except.ok mime_map
    | some bound1 => add_extensions line pad bound1 (line.length + 1) bound1 mime_map

/-! ## The specification of a mime.types line -/

/-- A space or a tab. -/
def spec_is_blank (c : Char) : Bool := c = ' ' || c = '\t'

/-- The tokens of `s` that spaces and tabs delimit. -/
def spec_tokens (s : List Char) : List (List Char) :=
  (s.splitOnP spec_is_blank).filter (fun token => decide (token ≠ []))

/-- The mappings a line adds, in the order in which it adds them: none when
the line, after its leading spaces and tabs, is empty or begins with `#`;
otherwise one mapping from each token after the first to the first token. -/
def spec_line_mappings (s : List Char) : List mime_mapping :=
  if s.dropWhile spec_is_blank = [] ∨ (s.dropWhile spec_is_blank).head? = some '#' then []
  else
    match spec_tokens s with
    | [] => []
    | type :: extensions =>
      extensions.map (fun extension => { extension := extension, mimetype := type })

/-! ## The dispatcher -/

/-- The function `log_connection(conn)`: its assertion, the line it writes to
the log file left out. -/
def log_connection (conn : connection) : Except fatal Unit :=
  if ¬ (conn.http_code ≠ 0) then Except.error fatal.assertion_failed else Except.ok ()

/-- The function `free_connection(conn)`, as the list of the handles it
passes to `fclose`. -/
def free_connection (conn : connection) : List FILE :=
  match conn.reply_file with
  | some f => [f]
  | none => []

/-- The handles `poll_send_reply(conn)` passes to `fclose` when `send()`
returns `sent`: `reply_file`, if it is set, once `reply_sent` has reached
`reply_length`. -/
def poll_send_reply_fclose (conn : connection) (sent : Int) : List FILE :=
  if sent < 1 then []
  else if (conn.reply_sent + sent.toNat) % 2 ^ 32 = conn.reply_length then
    match conn.reply_file with
    | some f => [f]
    | none => []
  else []

/-- What the first walk of `httpd_poll` reads from `conn->entries.le_next`
after it has called `free(conn)`: the link the connection had, or `NULL`.
(`entries` is the first member of the freed block.) -/
inductive freed_link where
  | intact
  | null
deriving DecidableEq

/-- What one tick of `httpd_poll` finds for a connection outside it: the
clock at its timeout check, the value of the link read after the connection
has been freed, whether `select` reported its socket, and the results of the
calls its step makes. -/
structure poll_input where
  clock : Nat
  link : freed_link
  ready : Bool
  env : environment
  recv : Option (List Char)
  now : Nat
  fseek : Int
  fread : Nat
  sent : Int

/-- The first walk of `httpd_poll` over the connection list,
`LIST_FOREACH(conn, &connlist, entries)`: the timeout check of each
connection, and, for a connection then in `DONE`, its removal with
`log_connection`, `free_connection` and `free`.  The walk goes on with the
link it reads from the freed connection: with the rest of the list, or, when
the link reads as `NULL`, not at all, and the rest stays in the list
unvisited.  The result is the list that is left, the handles passed to
`fclose`, and the flag `bother_with_timeout`. -/
def first_walk : List (connection × poll_input) →
    Except fatal (List (connection × poll_input) × List FILE × Bool)
  | [] => Except.ok ([], [], false)
  | (conn, input) :: rest =>
    let conn := poll_check_timeout conn input.clock
    match conn.state with
    | conn_state.DONE =>
      match log_connection conn with
      | Except.error e => Except.error e
      | Except.ok _ =>
        match input.link with
        | freed_link.null => Except.ok (rest, free_connection conn, false)
        | freed_link.intact =>
          match first_walk rest with
          | Except.error e => Except.error e
          | Except.ok (kept, closed, bother) =>
            Except.ok (kept, free_connection conn ++ closed, bother)
    | _ =>
      match first_walk rest with
      | Except.error e => Except.error e
      | Except.ok (kept, closed, _) => Except.ok ((conn, input) :: kept, closed, true)

/-- The `switch (conn->state)` of the second walk of `httpd_poll`: the step of
the connection when `select` reported its socket, together with the handles
the step passes to `fclose`.  The `default` branch is `invalid_state`. -/
def dispatch (conn : connection) (input : poll_input) :
    Except fatal (connection × List FILE) :=
  match conn.state with
  | conn_state.RECV_REQUEST =>
    if input.ready then
      match poll_recv_request input.env conn input.recv with
      | Except.error e => Except.error e
      | Except.ok next => Except.ok (next, [])
    else Except.ok (conn, [])
  | conn_state.SEND_HEADER =>
    if input.ready then
      match poll_send_header conn input.now input.sent with
      | Except.error e => Except.error e
      | Except.ok next => Except.ok (next, [])
    else Except.ok (conn, [])
  | conn_state.SEND_REPLY =>
    if input.ready then
      match poll_send_reply conn input.now input.fseek input.fread input.sent with
      | Except.error e => Except.error e
      | Except.ok next => Except.ok (next, poll_send_reply_fclose conn input.sent)
    else Except.ok (conn, [])
  | conn_state.DONE => Except.error fatal.invalid_state

/-- The second walk of `httpd_poll` over the connection list. -/
def second_walk : List (connection × poll_input) → Except fatal (List connection × List FILE)
  | [] => Except.ok ([], [])
  | (conn, input) :: rest =>
    match dispatch conn input with
    | Except.error e => Except.error e
    | Except.ok (next, closed) =>
      match second_walk rest with
      | Except.error e => Except.error e
      | Except.ok (conns, closed2) => Except.ok (next :: conns, closed ++ closed2)

/-- What `select` and `accept` do in one tick of `httpd_poll`: the return
value of `select`, and, when `select` reported the listening socket, the
results `accept_connection` finds together with what the new connection
finds in the second walk. -/
structure tick_input where
  select_ret : Int
  accepted : Option (Nat × reply_kind × Int × Nat × poll_input)

/-- The function `httpd_poll()` on the connection list `conns`: the list it
leaves and the handles it passed to `fclose`. -/
def httpd_poll (conns : List (connection × poll_input)) (tick : tick_input) :
    Except fatal (List connection × List FILE) :=
  match first_walk conns with
  | Except.error e => Except.error e
  | Except.ok (kept, closed, bother_with_timeout) =>
    if tick.select_ret = 0 then
      if bother_with_timeout = false then Except.error fatal.select_timed_out
      else Except.ok (kept.map Prod.fst, closed)
    else if tick.select_ret = -1 then Except.error fatal.select_failed
    else
      match tick.accepted with
      | none =>
        match second_walk kept with
        | Except.error e => Except.error e
        | Except.ok (conns, closed2) => Except.ok (conns, closed ++ closed2)
      | some (now, reply_type, socket, client, input) =>
        match accept_connection now reply_type socket client with
        | Except.error e => Except.error e
        | Except.ok conn =>
          match second_walk ((conn, input) :: kept) with
          | Except.error e => Except.error e
          | Except.ok (conns, closed2) => Except.ok (conns, closed ++ closed2)

/-! ## The media type list at startup -/

/-- The source's `default_extension_map[]`. -/
def default_extension_map : List (List Char) :=
  ["text/html          html htm".toList,
   "image/png          png".toList,
   "image/jpeg         jpeg jpe jpg".toList,
   "image/gif          gif".toList,
   "audio/mpeg         mp2 mp3 mpga".toList,
   "application/ogg    ogg".toList,
   "text/css           css".toList,
   "text/plain         txt asc".toList,
   "text/xml           xml".toList,
   "video/mpeg         mpeg mpe mpg".toList,
   "video/x-msvideo    avi".toList]

/-- The calls `parse_mimetype_line(line)` for the lines of `lines`, in
order. -/
def parse_lines (mime_map : List mime_mapping) :
    List (List Char) → Except fatal (List mime_mapping)
  | [] => Except.ok mime_map
  | line :: lines =>
    match parse_mimetype_line mime_map line with
    | Except.error e => Except.error e
    | Except.ok mime_map => parse_lines mime_map lines

/-- The function `parse_default_extension_map()`. -/
def parse_default_extension_map (mime_map : List mime_mapping) :
    Except fatal (List mime_mapping) :=
  parse_lines mime_map default_extension_map

/-- The function `parse_extension_map_file(filename)`; `lines` holds the
buffers that its reading loop fills from the file and hands to
`parse_mimetype_line`, in the order of the file. -/
def parse_extension_map_file (mime_map : List mime_mapping) (lines : List (List Char)) :
    Except fatal (List mime_mapping) :=
  parse_lines mime_map lines

/-- The calls `parse_extension_map_file` that `parse_commandline` makes, one
for each `--mimetypes` argument, in the order of the command line. -/
def parse_commandline (mime_map : List mime_mapping) :
    List (List (List Char)) → Except fatal (List mime_mapping)
  | [] => Except.ok mime_map
  | file :: files =>
    match parse_extension_map_file mime_map file with
    | Except.error e => Except.error e
    | Except.ok mime_map => parse_commandline mime_map files

/-- The list `mime_map` that `main` has built when it enters the loop of
`httpd_poll`: `parse_commandline` first, `parse_default_extension_map` after
it; `files` holds the lines of the `--mimetypes` files. -/
def main_mime_map (files : List (List (List Char))) : Except fatal (List mime_mapping) :=
  match parse_commandline [] files with
  | Except.error e => Except.error e
  | Except.ok mime_map => parse_default_extension_map mime_map

/-! ## The reads of make_safe_uri -/

/-- The indices at which the loop `while (i < urilen)` of `make_safe_uri`
reads `uri`, pass by pass: the first inner loop reads from `i` to the index
at which it stops, the second from the next index to the index at which it
stops. -/
def split_reads (uri : List Char) (urilen : Nat) : Nat → Nat → List Nat
  | 0, _ => []
  | fuel + 1, i =>
    if i < urilen then
      let i1 := skip_slashes uri (uri.length + 1) i
      let j := next_slash uri (uri.length + 1) (i1 + 1)
      List.range' i (j + 1 - i) ++ split_reads uri urilen fuel j
    else []

/-- The number of slashes `make_safe_uri` counts: the size it gives to the
arrays `elements` and `reassembly`. -/
def count_slashes (uri : List Char) : Nat :=
  ((cstr uri).filter (fun c => decide (c = '/'))).length

/-- The bytes that the entries need in the output of `make_safe_uri`: each
entry and one `/` in front of it. -/
def elements_size : List (List Char) → Nat
  | [] => 0
  | e :: es => e.length + 1 + elements_size es

/-! ## More sample environments -/

/-- The sample environment with the index name `i.html`, every path opening
a file. -/
def scenario_env_short_index : environment :=
  { scenario_env with
    index_name := "i.html".toList,
    fopen := fun _ => fopen_result.opened 3 }

/-- The mappings that the lines of `lines` add, in the order in which they
are added. -/
def spec_lines_mappings : List (List Char) → List mime_mapping
  | [] => []
  | line :: lines => spec_line_mappings (cstr line) ++ spec_lines_mappings lines

/-- What a connection finds in a tick of the sample environment: `ready`
says whether `select` reported its socket, `recv` is what `recv()` did,
`send()` took `sent` bytes, and a freed link reads as it was. -/
def sample_input (ready : Bool) (recv : Option (List Char)) (sent : Int) : poll_input :=
  { clock := 1046390528, link := freed_link.intact, ready := ready, env := scenario_env, recv := recv,
    now := 1046390528, fseek := 0, fread := 1, sent := sent }

/-- The connection `sample_accepted` after its peer has closed, or after it
has been idle for `IDLETIME` seconds. -/
def sample_closed : connection :=
  { sample_accepted with state := conn_state.DONE }

/-- What a connection finds in a tick in which `select` does not report its
socket and the link read after it has been freed is `NULL`. -/
def sample_input_null : poll_input :=
  { sample_input false none 0 with link := freed_link.null }

/-- A second connection that has sent its whole reply, on another socket. -/
def sample_reply_sent_other : connection :=
  { sample_reply_sent scenario_env with socket := 5, client := 2130706434 }

/-! ## Facts about C strings and the scanning loops -/

theorem cstr_not_mem (m : List Char) : NUL ∉ cstr m := by
  induction m with
  | nil => simp [cstr]
  | cons c m ih =>
    unfold cstr
    split
    · simp
    · rename_i h
      simp only [List.mem_cons, not_or]
      exact ⟨fun h2 => h h2.symm, ih⟩

theorem cstr_of_not_mem (s : List Char) (h : NUL ∉ s) : cstr s = s := by
  induction s with
  | nil => rfl
  | cons c s ih =>
    simp only [List.mem_cons, not_or] at h
    unfold cstr
    rw [if_neg (fun hc => h.1 hc.symm), ih h.2]

theorem cstr_append_nul (s tail : List Char) (h : NUL ∉ s) : cstr (s ++ NUL :: tail) = s := by
  induction s with
  | nil => simp [cstr]
  | cons c s ih =>
    simp only [List.mem_cons, not_or] at h
    rw [List.cons_append]
    unfold cstr
    rw [if_neg (fun hc => h.1 hc.symm), ih h.2]

/-- Memory splits into its C string and what lies from the terminator on. -/
theorem mem_split (m : List Char) :
    ∃ rest, m = cstr m ++ rest ∧ (rest = [] ∨ ∃ tail, rest = NUL :: tail) := by
  induction m with
  | nil => exact ⟨[], by simp [cstr]⟩
  | cons c m ih =>
    by_cases hc : c = NUL
    · exact ⟨c :: m, by simp [cstr, hc], Or.inr ⟨m, by rw [hc]⟩⟩
    · obtain ⟨rest, h1, h2⟩ := ih
      refine ⟨rest, ?_, h2⟩
      simp only [cstr, if_neg hc, List.cons_append]
      rw [← h1]

theorem rd_of_drop_cons {m : List Char} {i : Nat} {c : Char} {l : List Char}
    (h : m.drop i = c :: l) : rd m i = c ∧ m.drop (i + 1) = l := by
  induction m generalizing i with
  | nil => simp at h
  | cons a m ih =>
    cases i with
    | zero =>
      simp only [List.drop_zero, List.cons.injEq] at h
      simp [rd, h.1, h.2]
    | succ i =>
      simp only [List.drop_succ_cons] at h
      have := ih h
      simpa [rd] using this

theorem rd_of_drop_nil {m : List Char} {i : Nat} (h : m.drop i = []) : rd m i = NUL := by
  have : m.length ≤ i := by simpa using h
  simp [rd, List.getD, List.getElem?_eq_none this]

theorem skip_slashes_eq (m : List Char) (fuel i : Nat) (h : (m.drop i).length < fuel) :
    skip_slashes m fuel i = i + ((m.drop i).takeWhile (fun c => c = '/')).length := by
  induction fuel generalizing i with
  | zero => omega
  | succ fuel ih =>
    unfold skip_slashes
    cases hd : m.drop i with
    | nil => simp [rd_of_drop_nil hd, NUL]
    | cons c l =>
      obtain ⟨h1, h2⟩ := rd_of_drop_cons hd
      rw [h1]
      by_cases hc : c = '/'
      · rw [if_pos hc, ih (i + 1) (by rw [h2]; rw [hd] at h; simp at h; omega), h2]
        simp [List.takeWhile, hc]; omega
      · rw [if_neg hc]; simp [List.takeWhile, hc]

theorem next_slash_eq (m : List Char) (fuel j : Nat) (h : (m.drop j).length < fuel) :
    next_slash m fuel j =
      j + ((m.drop j).takeWhile (fun c => decide (c ≠ '/' ∧ c ≠ NUL))).length := by
  induction fuel generalizing j with
  | zero => omega
  | succ fuel ih =>
    unfold next_slash
    cases hd : m.drop j with
    | nil => simp [rd_of_drop_nil hd]
    | cons c l =>
      obtain ⟨h1, h2⟩ := rd_of_drop_cons hd
      rw [h1]
      by_cases hc : c ≠ '/' ∧ c ≠ NUL
      · rw [if_pos hc, ih (j + 1) (by rw [h2]; rw [hd] at h; simp at h; omega), h2]
        simp [List.takeWhile, hc]; omega
      · rw [if_neg hc]; simp [List.takeWhile, hc]


/-! ## The splitting loop and the segments -/

theorem dropWhile_head_false (p : Char → Bool) (l : List Char) (d : Char) (dw : List Char)
    (h : l.dropWhile p = d :: dw) : p d = false := by
  have := List.head?_dropWhile_not p l
  rw [h] at this
  simpa using this

theorem length_dropWhile_le (p : Char → Bool) (l : List Char) :
    (l.dropWhile p).length ≤ l.length :=
  (List.dropWhile_sublist p).length_le

theorem spec_elements_nil : spec_elements [] = [] := by
  simp [spec_elements, spec_segments, List.splitOn]

theorem spec_elements_slash (r : List Char) :
    spec_elements ('/' :: r) = if r = [] then [[]] else spec_elements r := by
  cases r with
  | nil => simp [spec_elements, spec_segments, List.splitOn]
  | cons a r =>
    simp [spec_elements, spec_segments, List.splitOn, List.getLast?_cons_cons]

theorem spec_elements_dropWhile (r : List Char) (h : r ≠ []) :
    spec_elements r =
      match r.dropWhile (fun c => decide (c = '/')) with
      | [] => [[]]
      | c :: r1 => spec_elements (c :: r1) := by
  induction r with
  | nil => exact absurd rfl h
  | cons a r ih =>
    by_cases ha : a = '/'
    · subst ha
      rw [spec_elements_slash]
      by_cases hr : r = []
      · subst hr; simp
      · rw [if_neg hr, ih hr]
        simp [List.dropWhile]
    · simp [List.dropWhile, ha]

theorem spec_elements_segment (r : List Char) (c : Char) (hc : c ≠ '/') :
    spec_elements (c :: r) =
      (c :: r).takeWhile (fun c => decide (c ≠ '/')) ::
        spec_elements ((c :: r).dropWhile (fun c => decide (c ≠ '/'))) := by
  have hsplit := List.takeWhile_append_dropWhile (fun c => decide (c ≠ '/')) (c :: r)
  generalize htw : (c :: r).takeWhile (fun c => decide (c ≠ '/')) = tw at hsplit ⊢
  generalize hdw : (c :: r).dropWhile (fun c => decide (c ≠ '/')) = dw at hsplit ⊢
  have htw_ne : tw ≠ [] := by
    rw [← htw]; simp [List.takeWhile, hc]
  have htw_all : ∀ x ∈ tw, ¬ ((fun y => y == '/') x = true) := by
    intro x hx
    rw [← htw] at hx
    have := List.mem_takeWhile_imp hx
    simpa using this
  cases dw with
  | nil =>
    rw [List.append_nil] at hsplit
    rw [← hsplit]
    have h1 : tw.splitOn '/' = [tw] := List.splitOnP_eq_single _ _ htw_all
    have h2 : tw.getLast? ≠ some '/' := by
      intro h
      have hm : '/' ∈ tw := List.mem_of_getLast?_eq_some h
      exact htw_all _ hm (by simp)
    simp [spec_elements, spec_segments, h1, h2, htw_ne]
  | cons d dw =>
    have hd : d = '/' := by
      have := dropWhile_head_false _ _ _ _ hdw
      simpa using this
    subst hd
    rw [← hsplit]
    have h1 : (tw ++ '/' :: dw).splitOn '/' = tw :: dw.splitOn '/' :=
      List.splitOnP_first _ _ htw_all '/' (by simp) dw
    have h3 : ('/' :: dw).splitOn '/' = [] :: dw.splitOn '/' := by
      simp [List.splitOn]
    have h2 : (tw ++ '/' :: dw).getLast? = ('/' :: dw).getLast? := by
      rw [List.getLast?_append_of_ne_nil _ (by simp)]
    simp only [spec_elements, spec_segments, h1, h2, h3]
    simp [htw_ne]

theorem elements_of_rest_eq (fuel : Nat) (r : List Char) (h : r.length ≤ fuel) :
    elements_of_rest fuel r = spec_elements r := by
  induction fuel generalizing r with
  | zero =>
    have : r = [] := by simpa using h
    subst this
    simp [elements_of_rest, spec_elements_nil]
  | succ fuel ih =>
    unfold elements_of_rest
    by_cases hr : r = []
    · subst hr; simp [spec_elements_nil]
    · rw [if_neg hr, spec_elements_dropWhile r hr]
      have hlen := length_dropWhile_le (fun c => decide (c = '/')) r
      cases hdw : r.dropWhile (fun c => decide (c = '/')) with
      | nil => rfl
      | cons c r1 =>
        have hc : c ≠ '/' := by
          have := dropWhile_head_false _ _ _ _ hdw
          simpa using this
        simp only
        rw [spec_elements_segment r1 c hc, ih]
        rw [hdw] at hlen
        have h5 : ((c :: r1).dropWhile (fun c => decide (c ≠ '/'))).length ≤ r1.length := by
          simp only [List.dropWhile, hc, ne_eq, not_false_eq_true, decide_True]
          exact length_dropWhile_le _ _
        simp at hlen
        omega

theorem takeWhile_append_stop (p : Char → Bool) (l rest : List Char)
    (h : rest.takeWhile p = []) : (l ++ rest).takeWhile p = l.takeWhile p := by
  induction l with
  | nil => simpa using h
  | cons a l ih =>
    simp only [List.cons_append, List.takeWhile_cons]
    split
    · rw [ih]
    · rfl

theorem drop_length_takeWhile (p : Char → Bool) (l : List Char) :
    l.drop (l.takeWhile p).length = l.dropWhile p := by
  induction l with
  | nil => rfl
  | cons a l ih =>
    by_cases h : p a = true
    · simp [List.takeWhile_cons, List.dropWhile_cons, h, ih]
    · simp [List.takeWhile_cons, List.dropWhile_cons, h]

theorem take_length_takeWhile (p : Char → Bool) (l : List Char) :
    l.take (l.takeWhile p).length = l.takeWhile p := by
  induction l with
  | nil => rfl
  | cons a l ih =>
    by_cases h : p a = true
    · simp [List.takeWhile_cons, h, ih]
    · simp [List.takeWhile_cons, h]

theorem length_takeWhile_le (p : Char → Bool) (l : List Char) :
    (l.takeWhile p).length ≤ l.length :=
  (List.takeWhile_sublist p).length_le

theorem takeWhile_congr_mem (p q : Char → Bool) (l : List Char)
    (h : ∀ x ∈ l, p x = q x) : l.takeWhile p = l.takeWhile q := by
  induction l with
  | nil => rfl
  | cons a l ih =>
    simp only [List.takeWhile_cons]
    rw [h a (List.mem_cons_self a l), ih (fun x hx => h x (List.mem_cons_of_mem a hx))]

/-- What lies from the terminator on stops every scan and reads as the empty
string. -/
theorem rest_facts (rest : List Char) (h : rest = [] ∨ ∃ tail, rest = NUL :: tail) :
    rest.takeWhile (fun c => decide (c = '/')) = [] ∧
    rest.takeWhile (fun c => decide (c ≠ '/' ∧ c ≠ NUL)) = [] ∧
    ∀ n, cstr (rest.take n) = [] := by
  rcases h with h | ⟨tail, h⟩
  · subst h; simp [cstr]
  · subst h
    refine ⟨by simp [NUL], by simp, ?_⟩
    intro n
    cases n <;> simp [cstr]

theorem split_elements_past (m : List Char) (urilen fuel i : Nat) (h : urilen ≤ i) :
    split_elements m urilen fuel i = [] := by
  cases fuel with
  | zero => rfl
  | succ fuel => unfold split_elements; rw [if_neg (by omega)]

theorem split_elements_eq (s rest : List Char) (hs : NUL ∉ s)
    (hrest : rest = [] ∨ ∃ tail, rest = NUL :: tail) (fuel i : Nat) (hi : i ≤ s.length) :
    split_elements (s ++ rest) s.length fuel i = elements_of_rest fuel (s.drop i) := by
  obtain ⟨hr1, hr2, hr3⟩ := rest_facts rest hrest
  induction fuel generalizing i with
  | zero => rfl
  | succ fuel ih =>
    unfold split_elements elements_of_rest
    by_cases hlt : i < s.length
    · have hne : s.drop i ≠ [] := by simp; omega
      rw [if_pos hlt, if_neg hne]
      have hdrop : (s ++ rest).drop i = s.drop i ++ rest := List.drop_append_of_le_length hi
      have hi1 : skip_slashes (s ++ rest) ((s ++ rest).length + 1) i =
          i + ((s.drop i).takeWhile (fun c => decide (c = '/'))).length := by
        rw [skip_slashes_eq _ _ _ (by simp; omega), hdrop, takeWhile_append_stop _ _ _ hr1]
      simp only [hi1]
      generalize hk : ((s.drop i).takeWhile (fun c => decide (c = '/'))).length = k
      have hdw : s.drop (i + k) = (s.drop i).dropWhile (fun c => decide (c = '/')) := by
        rw [← hk, ← drop_length_takeWhile, List.drop_drop]
      have hik : i + k ≤ s.length := by
        have := length_takeWhile_le (fun c => decide (c = '/')) (s.drop i)
        rw [hk] at this
        simp at this
        omega
      have hdrop1 : (s ++ rest).drop (i + k) =
          (s.drop i).dropWhile (fun c => decide (c = '/')) ++ rest := by
        rw [List.drop_append_of_le_length hik, hdw]
      cases hcase : (s.drop i).dropWhile (fun c => decide (c = '/')) with
      | nil =>
        simp only
        rw [hcase] at hdrop1 hdw
        have hlen : s.length ≤ i + k := by
          have : (s.drop (i + k)).length = 0 := by rw [hdw]; rfl
          simp at this
          omega
        have hj : i + k + 1 ≤
            next_slash (s ++ rest) ((s ++ rest).length + 1) (i + k + 1) := by
          rw [next_slash_eq _ _ _ (by simp; omega)]
          omega
        rw [split_elements_past _ _ _ _ (by omega)]
        simp only [split_string, hdrop1, List.nil_append, hr3]
      | cons c r1 =>
        simp only
        rw [hcase] at hdrop1 hdw
        have hc1 : c ≠ '/' := by
          have := dropWhile_head_false _ _ _ _ hcase
          simpa using this
        have hmem : ∀ x ∈ c :: r1, x ∈ s := by
          intro x hx
          rw [← hdw] at hx
          exact List.mem_of_mem_drop hx
        have hc2 : c ≠ NUL := fun h => hs (h ▸ hmem c (List.mem_cons_self c r1))
        have hdrop2 : (s ++ rest).drop (i + k + 1) = r1 ++ rest := by
          have := (rd_of_drop_cons (by rw [hdrop1]; rfl : (s ++ rest).drop (i + k) =
            c :: (r1 ++ rest))).2
          exact this
        have htw : (r1 ++ rest).takeWhile (fun c => decide (c ≠ '/' ∧ c ≠ NUL)) =
            r1.takeWhile (fun c => decide (c ≠ '/')) := by
          rw [takeWhile_append_stop _ _ _ hr2]
          apply takeWhile_congr_mem
          intro x hx
          have hx2 : x ≠ NUL := fun h => hs (h ▸ hmem x (List.mem_cons_of_mem c hx))
          simp [hx2]
        have hj : next_slash (s ++ rest) ((s ++ rest).length + 1) (i + k + 1) =
            i + k + 1 + (r1.takeWhile (fun c => decide (c ≠ '/'))).length := by
          rw [next_slash_eq _ _ _ (by simp; omega), hdrop2, htw]
        rw [hj]
        generalize ht : (r1.takeWhile (fun c => decide (c ≠ '/'))).length = t
        have htle : t ≤ r1.length := by
          rw [← ht]; exact length_takeWhile_le _ _
        have hlen2 : (s.drop (i + k)).length = r1.length + 1 := by rw [hdw]; rfl
        have hjle : i + k + 1 + t ≤ s.length := by
          simp at hlen2
          omega
        have helem : split_string (s ++ rest) (i + k) (i + k + 1 + t) =
            (c :: r1).takeWhile (fun c => decide (c ≠ '/')) := by
          unfold split_string
          rw [hdrop1]
          have h1 : i + k + 1 + t - (i + k) = t + 1 := by omega
          rw [h1, List.cons_append, List.take_succ_cons,
            List.take_append_of_le_length htle, ← ht, take_length_takeWhile]
          rw [List.takeWhile_cons_of_pos (by simpa using hc1)]
          apply cstr_of_not_mem
          intro hmemn
          have : NUL ∈ c :: r1 := by
            rcases List.mem_cons.1 hmemn with h | h
            · exact absurd h.symm hc2
            · exact List.mem_cons_of_mem c (List.takeWhile_subset _ h)
          exact hs (hmem _ this)
        rw [helem, ih _ hjle]
        have hdj : s.drop (i + k + 1 + t) =
            (c :: r1).dropWhile (fun c => decide (c ≠ '/')) := by
          rw [List.dropWhile_cons_of_pos (by simpa using hc1), ← drop_length_takeWhile, ht]
          have : s.drop (i + k + 1) = r1 := by
            have := (rd_of_drop_cons hdw).2
            exact this
          rw [← this, List.drop_drop]
        rw [hdj]
    · have : i = s.length := by omega
      subst this
      rw [if_neg hlt]
      simp

/-! ## The element walk and the reassembly -/

theorem split_elements_spec (m : List Char) :
    split_elements m (strlen m) (strlen m + 1) 0 = spec_elements (cstr m) := by
  obtain ⟨rest, h1, h2⟩ := mem_split m
  have h := split_elements_eq (cstr m) rest (cstr_not_mem m) h2 (strlen m + 1) 0 (Nat.zero_le _)
  rw [← h1] at h
  unfold strlen at h ⊢
  rw [h, List.drop_zero, elements_of_rest_eq _ _ (Nat.le_succ _)]

theorem process_elements_append (a b st : List (List Char)) :
    process_elements (a ++ b) st = (process_elements a st).bind (process_elements b) := by
  induction a generalizing st with
  | nil => rfl
  | cons e a ih =>
    simp only [List.cons_append, process_elements]
    split
    · exact ih _
    · split
      · split
        · rfl
        · exact ih _
      · exact ih _

theorem process_elements_none_iff (es st : List (List Char)) :
    process_elements es st = none ↔ spec_escapes st.length es = true := by
  induction es generalizing st with
  | nil => simp [process_elements, spec_escapes]
  | cons e es ih =>
    simp only [process_elements, spec_escapes]
    split
    · exact ih _
    · split
      · split
        · simp
        · rw [ih]; simp
      · rw [ih]; simp

theorem process_elements_some (es st out : List (List Char))
    (h : process_elements es st = some out) : out = spec_survivors st.reverse es := by
  induction es generalizing st with
  | nil =>
    simp only [process_elements, Option.some.injEq] at h
    simp [spec_survivors, h]
  | cons e es ih =>
    simp only [process_elements] at h
    simp only [spec_survivors]
    split at h
    · rw [if_pos (by assumption)]; exact ih _ h
    · rw [if_neg (by assumption)]
      split at h
      · rw [if_pos (by assumption)]
        split at h
        · exact absurd h (by simp)
        · have := ih _ h
          rw [this, List.tail_reverse]
      · rw [if_neg (by assumption)]
        have := ih _ h
        rw [this, List.reverse_append]
        rfl

theorem reassemble_acc (st : List (List Char)) (acc : List Char) :
    st.foldl (fun out e => out ++ '/' :: e) acc =
      acc ++ (st.map (fun seg => '/' :: seg)).flatten := by
  induction st generalizing acc with
  | nil => simp
  | cons e st ih => simp [List.foldl_cons, ih]

theorem reassemble_eq (st : List (List Char)) :
    reassemble st = (st.map (fun seg => '/' :: seg)).flatten := by
  unfold reassemble
  rw [reassemble_acc]
  rfl

theorem rd_zero_slash (m : List Char) : rd m 0 ≠ '/' ↔ (cstr m).head? ≠ some '/' := by
  cases m with
  | nil => simp [rd, cstr, NUL]
  | cons c m =>
    by_cases hc : c = NUL
    · subst hc; simp [rd, cstr, NUL]
    · simp [rd, cstr, hc]

/-- The code computes what the specification describes: the result depends
only on the string stored at the pointer, whatever lies behind its
terminator. -/
theorem make_safe_uri_eq_spec (m : List Char) : make_safe_uri m = spec_safe_uri (cstr m) := by
  unfold make_safe_uri spec_safe_uri
  by_cases h0 : rd m 0 ≠ '/'
  · rw [if_pos h0, if_pos ((rd_zero_slash m).1 h0)]
  · rw [if_neg h0, if_neg (fun h => h0 ((rd_zero_slash m).2 h))]
    simp only [split_elements_spec, spec_elements]
    rw [process_elements_append]
    cases hp : process_elements (spec_segments (cstr m)) [] with
    | none =>
      have := (process_elements_none_iff _ _).1 hp
      simp only [List.length_nil] at this
      rw [if_pos this]
      rfl
    | some st =>
      have hne : ¬ spec_escapes 0 (spec_segments (cstr m)) = true := by
        intro h
        have := (process_elements_none_iff (spec_segments (cstr m)) []).2 (by simpa using h)
        rw [hp] at this
        exact absurd this (by simp)
      rw [if_neg hne]
      have hst := process_elements_some _ _ _ hp
      simp only [List.reverse_nil] at hst
      rw [← hst]
      by_cases hl : (cstr m).getLast? = some '/'
      · simp [hl, process_elements, reassemble_eq]
      · simp [hl, process_elements, reassemble_eq]

/-- For a string `s` followed by its terminator and any further memory, the
code returns what the specification describes for `s`. -/
theorem make_safe_uri_string (s tail : List Char) (h : NUL ∉ s) :
    make_safe_uri (s ++ NUL :: tail) = spec_safe_uri s := by
  rw [make_safe_uri_eq_spec, cstr_append_nul s tail h]

/-! ## The claims about make_safe_uri -/

/-- C1 (the code breaks it): `make_safe_uri` does not reject `/.` nor `/a/..`,
whatever lies behind the terminator, and returns the empty string for them,
which does not begin with `/`; the byte that `process_get` then tests as the
last character of that string is the byte stored in front of it. -/
theorem make_safe_uri_returns_empty :
    (∀ tail, make_safe_uri ("/.".toList ++ NUL :: tail) = some []) ∧
    (∀ tail, make_safe_uri ("/a/..".toList ++ NUL :: tail) = some []) ∧
    (∀ env : environment, last_byte env [] = env.before_safe_url) := by
  refine ⟨fun tail => ?_, fun tail => ?_, fun env => rfl⟩
  · rw [make_safe_uri_string _ _ (by decide)]; decide
  · rw [make_safe_uri_string _ _ (by decide)]; decide

/-- C2: `make_safe_uri` returns `NULL` exactly when the string at `uri` does
not begin with `/` or the walk over its non-empty `/`-separated segments
meets a `..` while no earlier normal segment remains un-popped; `/..`,
`/a/../..` and `/../x` are rejected. -/
theorem make_safe_uri_rejects_iff (uri : List Char) :
    (make_safe_uri uri = none ↔
      ((cstr uri).head? ≠ some '/' ∨ spec_escapes 0 (spec_segments (cstr uri)) = true)) ∧
    make_safe_uri "/..".toList = none ∧
    make_safe_uri "/a/../..".toList = none ∧
    make_safe_uri "/../x".toList = none := by
  refine ⟨?_, by decide, by decide, by decide⟩
  rw [make_safe_uri_eq_spec]
  unfold spec_safe_uri
  by_cases h1 : (cstr uri).head? ≠ some '/'
  · simp [h1]
  · rw [if_neg h1]
    by_cases h2 : spec_escapes 0 (spec_segments (cstr uri)) = true
    · simp [h2]
    · rw [if_neg h2]
      simp [h1, h2]

/-- C4: for every input `make_safe_uri` accepts, the output is the surviving
segments of the string at `uri` in their original order, each prefixed by
`/`, followed by one final `/` exactly when that string ends in `/`; and
`/./a`, `/a/./`, `/a/b/../c` are mapped to `/a`, `/a/`, `/a/c`, whatever lies
behind the terminator. -/
theorem make_safe_uri_output :
    (∀ uri out : List Char, make_safe_uri uri = some out →
      out = ((spec_survivors [] (spec_segments (cstr uri))).map (fun seg => '/' :: seg)).flatten
        ++ (if (cstr uri).getLast? = some '/' then ['/'] else [])) ∧
    (∀ tail, make_safe_uri ("/./a".toList ++ NUL :: tail) = some "/a".toList) ∧
    (∀ tail, make_safe_uri ("/a/./".toList ++ NUL :: tail) = some "/a/".toList) ∧
    (∀ tail, make_safe_uri ("/a/b/../c".toList ++ NUL :: tail) = some "/a/c".toList) := by
  refine ⟨fun uri out h => ?_, fun tail => ?_, fun tail => ?_, fun tail => ?_⟩
  · rw [make_safe_uri_eq_spec] at h
    unfold spec_safe_uri at h
    split at h
    · exact absurd h (by simp)
    · split at h
      · exact absurd h (by simp)
      · exact (Option.some.inj h).symm
  · rw [make_safe_uri_string _ _ (by decide)]; decide
  · rw [make_safe_uri_string _ _ (by decide)]; decide
  · rw [make_safe_uri_string _ _ (by decide)]; decide

/-- C4 at the input `/a/b/../c/`: the code accepts it and returns `/a/c/`,
which is what the general statement gives. -/
theorem make_safe_uri_output_witness :
    make_safe_uri "/a/b/../c/".toList = some "/a/c/".toList ∧
    "/a/c/".toList =
      ((spec_survivors [] (spec_segments (cstr "/a/b/../c/".toList))).map
        (fun seg => '/' :: seg)).flatten
        ++ (if (cstr "/a/b/../c/".toList).getLast? = some '/' then ['/'] else []) :=
  ⟨by decide, make_safe_uri_output.1 _ _ (by decide)⟩

/-! ## The claims about process_get and process_request -/

theorem cstr_cons_ne (c : Char) (m : List Char) (h : c ≠ NUL) : cstr (c :: m) = c :: cstr m := by
  simp [cstr, h]

theorem cstr_append_of_not_mem (a b : List Char) (h : NUL ∉ a) :
    cstr (a ++ b) = a ++ cstr b := by
  induction a with
  | nil => rfl
  | cons c a ih =>
    simp only [List.mem_cons, not_or] at h
    rw [List.cons_append, cstr_cons_ne _ _ (fun hc => h.1 hc.symm), ih h.2]
    rfl

theorem cstr_idem (m : List Char) : cstr (cstr m) = cstr m :=
  cstr_of_not_mem _ (cstr_not_mem m)

/-- The reason text is part of the body `default_reply` generates. -/
theorem reason_infix_reply_body (date : List Char) (errcode : Int) (errname reason : List Char) :
    cstr reason <:+: reply_body date errcode errname reason := by
  unfold reply_body
  exact ⟨"<html><head><title>".toList ++ fmt_d errcode ++ " ".toList ++ cstr errname ++
      "</title></head><body>\n<h1>".toList ++ cstr errname ++ "</h1>\n".toList,
    "\n<hr>\nGenerated by ".toList ++ pkgname ++ " on ".toList ++ cstr date ++
      "\n</body></html>\n".toList,
    by simp only [List.append_assoc]⟩

/-- C3: when `make_safe_uri` rejects the percent-decoded target,
`process_get` builds the reply of status 400 whose header starts with the
status line `400 Bad Request` and whose generated body contains the request
target as received; it does not call `fopen` and leaves `reply_file` as it
was. -/
theorem process_get_rejected (env : environment) (conn : connection) (u : List Char)
    (hu : conn.uri = some u)
    (hrej : make_safe_uri (urldecode u ++ NUL :: env.behind_decoded_url) = none) :
    (process_get env conn).conn.http_code = 400 ∧
    (∃ header, (process_get env conn).conn.header = some header ∧
      "HTTP/1.1 400 Bad Request\r\n".toList <+: header) ∧
    (process_get env conn).conn.reply_type = reply_kind.REPLY_GENERATED ∧
    (∃ body, (process_get env conn).conn.reply = some body ∧ cstr u <:+: body) ∧
    (process_get env conn).fopen_arg = none ∧
    (process_get env conn).conn.reply_file = conn.reply_file := by
  have hp : process_get env conn =
      { conn := default_reply env conn 400 "Bad Request".toList
          ("You requested an invalid URI: ".toList ++ cstr u),
        fopen_arg := none } := by
    unfold process_get
    simp only [hu, Option.getD_some, hrej]
  rw [hp]
  refine ⟨rfl, ⟨_, rfl, ?_⟩, rfl, ⟨_, rfl, ?_⟩, rfl, rfl⟩
  · unfold reply_header
    have h1 : fmt_d 400 = "400".toList := by decide
    have h2 : cstr "Bad Request".toList = "Bad Request".toList := by decide
    rw [h1, h2]
    exact ⟨"Date: ".toList ++ (cstr (env.rfc1123_date env.time) ++ ("\r\nServer: ".toList ++
      (pkgname ++ ("\r\nConnection: close\r\nContent-Length: ".toList ++
      (fmt_d (as_int ((reply_body (env.rfc1123_date env.time) 400 "Bad Request".toList
        ("You requested an invalid URI: ".toList ++ cstr u)).length % 2 ^ 32)) ++
      "\r\nContent-Type: text/html\r\n\r\n".toList))))), by
        simp only [List.append_assoc]; rfl⟩
  · have h1 := reason_infix_reply_body (env.rfc1123_date env.time) 400 "Bad Request".toList
      ("You requested an invalid URI: ".toList ++ cstr u)
    rw [cstr_append_of_not_mem _ _ (by decide), cstr_idem] at h1
    exact List.IsInfix.trans (List.suffix_append _ _).isInfix h1

/-- C3 at the targets `/../etc/passwd` and `/%2e%2e/etc/passwd`: both are
rejected after decoding, and the reply is the 400 one. -/
theorem process_get_rejected_witness :
    (make_safe_uri (urldecode "/../etc/passwd".toList ++
        NUL :: scenario_env.behind_decoded_url) = none ∧
      make_safe_uri (urldecode "/%2e%2e/etc/passwd".toList ++
        NUL :: scenario_env.behind_decoded_url) = none) ∧
    (process_get scenario_env (get_connection [] "/../etc/passwd".toList)).conn.http_code = 400 ∧
    (process_get scenario_env
      (get_connection [] "/%2e%2e/etc/passwd".toList)).conn.http_code = 400 ∧
    (∃ body, (process_get scenario_env
        (get_connection [] "/%2e%2e/etc/passwd".toList)).conn.reply = some body ∧
      cstr "/%2e%2e/etc/passwd".toList <:+: body) ∧
    (process_get scenario_env (get_connection [] "/%2e%2e/etc/passwd".toList)).fopen_arg = none :=
  ⟨⟨by decide, by decide⟩,
    (process_get_rejected scenario_env (get_connection [] "/../etc/passwd".toList) _ rfl
      (by decide)).1,
    (process_get_rejected scenario_env (get_connection [] "/%2e%2e/etc/passwd".toList) _ rfl
      (by decide)).1,
    (process_get_rejected scenario_env (get_connection [] "/%2e%2e/etc/passwd".toList) _ rfl
      (by decide)).2.2.2.1,
    (process_get_rejected scenario_env (get_connection [] "/%2e%2e/etc/passwd".toList) _ rfl
      (by decide)).2.2.2.2.1⟩

theorem split_elements_nul_free (m : List Char) (urilen fuel i : Nat) :
    ∀ e ∈ split_elements m urilen fuel i, NUL ∉ e := by
  induction fuel generalizing i with
  | zero => intro e he; simp [split_elements] at he
  | succ fuel ih =>
    intro e he
    unfold split_elements at he
    split at he
    · rcases List.mem_cons.1 he with h | h
      · rw [h]; exact cstr_not_mem _
      · exact ih _ e h
    · simp at he

theorem process_elements_mem (es st out : List (List Char))
    (h : process_elements es st = some out) : ∀ e ∈ out, e ∈ es ∨ e ∈ st := by
  induction es generalizing st with
  | nil =>
    simp only [process_elements, Option.some.injEq] at h
    subst h
    exact fun e he => Or.inr he
  | cons a es ih =>
    intro e he
    simp only [process_elements] at h
    split at h
    · rcases ih _ h e he with h1 | h1
      · exact Or.inl (List.mem_cons_of_mem _ h1)
      · exact Or.inr h1
    · split at h
      · split at h
        · exact absurd h (by simp)
        · rcases ih _ h e he with h1 | h1
          · exact Or.inl (List.mem_cons_of_mem _ h1)
          · exact Or.inr (List.dropLast_subset _ h1)
      · rcases ih _ h e he with h1 | h1
        · exact Or.inl (List.mem_cons_of_mem _ h1)
        · rcases List.mem_append.1 h1 with h2 | h2
          · exact Or.inr h2
          · rw [List.mem_singleton.1 h2]
            exact Or.inl (List.mem_cons_self _ _)

/-- The string `make_safe_uri` returns holds no NUL. -/
theorem make_safe_uri_nul_free (m out : List Char) (h : make_safe_uri m = some out) :
    NUL ∉ out := by
  unfold make_safe_uri at h
  split at h
  · exact absurd h (by simp)
  · simp only at h
    split at h
    · exact absurd h (by simp)
    · rename_i st hst
      have hout : out = reassemble st := (Option.some.inj h).symm
      rw [hout, reassemble_eq]
      intro hmem
      rw [List.mem_flatten] at hmem
      obtain ⟨l, hl, hx⟩ := hmem
      rw [List.mem_map] at hl
      obtain ⟨seg, hseg, rfl⟩ := hl
      rcases List.mem_cons.1 hx with h1 | h1
      · exact absurd h1 (by decide)
      · rcases process_elements_mem _ _ _ hst seg hseg with h2 | h2
        · exact split_elements_nul_free _ _ _ _ seg h2 h1
        · simp at h2

theorem rd_last (p : List Char) (h : p ≠ []) : rd p (p.length - 1) = p.getLast h := by
  unfold rd
  rw [List.getLast_eq_getElem, List.getD_eq_getElem?_getD, List.getElem?_eq_getElem]
  rfl

/-- For a non-empty string the byte `process_get` tests is its last one. -/
theorem last_byte_eq (env : environment) (p : List Char) (hnul : NUL ∉ p) (hne : p ≠ []) :
    (last_byte env p = '/') ↔ p.getLast? = some '/' := by
  unfold last_byte strlen
  rw [cstr_of_not_mem p hnul]
  have : p.length ≠ 0 := by simpa using hne
  rw [if_neg this, rd_last p hne, List.getLast?_eq_getLast p hne]
  simp

/-- What `process_get` opens for an accepted target whose sanitised path `p`
is not empty: `wwwroot ++ p ++ index_name` with the media type of
`index_name` when `p` ends in `/`, `wwwroot ++ p` with the media type of `p`
otherwise. -/
theorem process_get_target_nonempty (env : environment) (conn : connection) (u p : List Char)
    (hu : conn.uri = some u)
    (hacc : make_safe_uri (urldecode u ++ NUL :: env.behind_decoded_url) = some p)
    (hne : p ≠ []) :
    (process_get env conn).fopen_arg =
      some (if p.getLast? = some '/' then cstr env.wwwroot ++ p ++ cstr env.index_name
        else cstr env.wwwroot ++ p) ∧
    get_mimetype env p =
      (if p.getLast? = some '/' then uri_content_type env.mime_map env.index_name
        else uri_content_type env.mime_map p) := by
  have hnul := make_safe_uri_nul_free _ _ hacc
  have hl := last_byte_eq env p hnul hne
  constructor
  · have ht : get_target env p =
        (if p.getLast? = some '/' then cstr env.wwwroot ++ p ++ cstr env.index_name
          else cstr env.wwwroot ++ p) := by
      unfold get_target
      rw [cstr_of_not_mem p hnul]
      by_cases h : p.getLast? = some '/'
      · rw [if_pos h, if_pos (hl.2 h)]
      · rw [if_neg h, if_neg (fun h2 => h (hl.1 h2))]
    rw [← ht]
    unfold process_get
    simp only [hu, Option.getD_some, hacc]
  · unfold get_mimetype
    by_cases h : p.getLast? = some '/'
    · rw [if_pos h, if_pos (hl.2 h)]
    · rw [if_neg h, if_neg (fun h2 => h (hl.1 h2))]

/-- C5 (the code breaks it): for the target `/.` the sanitised path is empty
and the file `process_get` opens is decided by the byte stored in front of
that string: `wwwroot ++ index_name` when it is `/`, `wwwroot` otherwise.
The targets `/` and `/foo/` open `wwwroot/index_name` and
`wwwroot/foo/index_name`. -/
theorem process_get_empty_path_target :
    (∀ env conn, conn.uri = some "/.".toList →
      (process_get env conn).fopen_arg =
        some (if env.before_safe_url = '/' then cstr env.wwwroot ++ cstr env.index_name
          else cstr env.wwwroot)) ∧
    (process_get { scenario_env with before_safe_url := '/' }
      (get_connection [] "/.".toList)).fopen_arg = some "/var/wwwindex.html".toList ∧
    (process_get scenario_env (get_connection [] "/.".toList)).fopen_arg =
      some "/var/www".toList ∧
    (∀ env conn, conn.uri = some "/".toList →
      (process_get env conn).fopen_arg =
        some (cstr env.wwwroot ++ "/".toList ++ cstr env.index_name)) ∧
    (∀ env conn, conn.uri = some "/foo/".toList →
      (process_get env conn).fopen_arg =
        some (cstr env.wwwroot ++ "/foo/".toList ++ cstr env.index_name)) := by
  refine ⟨fun env conn hu => ?_, by decide, by decide, fun env conn hu => ?_,
    fun env conn hu => ?_⟩
  · have hacc : make_safe_uri (urldecode "/.".toList ++ NUL :: env.behind_decoded_url) =
        some [] := by
      have hd : urldecode "/.".toList = "/.".toList := by decide
      rw [hd, make_safe_uri_string _ _ (by decide)]; decide
    have ht : get_target env [] =
        (if env.before_safe_url = '/' then cstr env.wwwroot ++ cstr env.index_name
          else cstr env.wwwroot) := by
      simp [get_target, last_byte, strlen, cstr]
    rw [← ht]
    unfold process_get
    simp only [hu, Option.getD_some, hacc]
  · have hacc : make_safe_uri (urldecode "/".toList ++ NUL :: env.behind_decoded_url) =
        some "/".toList := by
      have hd : urldecode "/".toList = "/".toList := by decide
      rw [hd, make_safe_uri_string _ _ (by decide)]; decide
    have h := (process_get_target_nonempty env conn _ _ hu hacc (by decide)).1
    rw [h]; rfl
  · have hacc : make_safe_uri (urldecode "/foo/".toList ++ NUL :: env.behind_decoded_url) =
        some "/foo/".toList := by
      have hd : urldecode "/foo/".toList = "/foo/".toList := by decide
      rw [hd, make_safe_uri_string _ _ (by decide)]; decide
    have h := (process_get_target_nonempty env conn _ _ hu hacc (by decide)).1
    rw [h]; rfl

/-- On a request for which `parse_request` finds its assertion true,
`process_request` answers from the uppercased method alone: `GET` and `HEAD`
are handled by `process_get` (`HEAD` also setting `header_only`), `OPTIONS`,
`POST`, `PUT`, `DELETE`, `TRACE`, `CONNECT` get status 501, every other
method gets status 400; the connection is left in `SEND_HEADER`. -/
theorem process_request_chain (env : environment) (conn : connection) (request : List Char)
    (hreq : conn.request = some request) (hlen : conn.request_length = strlen request) :
    ∃ parsed c, parse_request conn = Except.ok parsed ∧
      parsed.method = some ((split_string request 0
        (method_end request conn.request_length conn.request_length 0)).map toupper) ∧
      process_request env conn = Except.ok c ∧
      c.state = conn_state.SEND_HEADER ∧
      (parsed.method = some "GET".toList →
        c = { (process_get env parsed).conn with
              state := conn_state.SEND_HEADER, request := none }) ∧
      (parsed.method = some "HEAD".toList →
        c = { (process_get env parsed).conn with
              header_only := 1, state := conn_state.SEND_HEADER, request := none }) ∧
      (∀ m, parsed.method = some m →
        m ∈ ["OPTIONS".toList, "POST".toList, "PUT".toList, "DELETE".toList,
          "TRACE".toList, "CONNECT".toList] → c.http_code = 501) ∧
      (∀ m, parsed.method = some m → m ≠ "GET".toList → m ≠ "HEAD".toList →
        m ∉ ["OPTIONS".toList, "POST".toList, "PUT".toList, "DELETE".toList,
          "TRACE".toList, "CONNECT".toList] → c.http_code = 400) := by
  have hp : ∃ parsed, parse_request conn = Except.ok parsed ∧
      parsed.method = some ((split_string request 0
        (method_end request conn.request_length conn.request_length 0)).map toupper) := by
    unfold parse_request
    simp only [hreq]
    rw [if_neg (by simpa using hlen)]
    exact ⟨_, rfl, rfl⟩
  obtain ⟨parsed, hp1, hp2⟩ := hp
  refine ⟨parsed, { dispatch_method env parsed with
      state := conn_state.SEND_HEADER, request := none }, hp1, hp2, ?_, rfl, ?_, ?_, ?_, ?_⟩
  · unfold process_request
    rw [hp1]
  · intro hm
    simp [dispatch_method, hm]
  · intro hm
    have hne : ¬ ("HEAD".toList = "GET".toList) := by decide
    simp [dispatch_method, hm, hne]
  · intro m hm hmem
    have h1 : m ≠ "GET".toList := by
      intro h; rw [h] at hmem; exact absurd hmem (by decide)
    have h2 : m ≠ "HEAD".toList := by
      intro h; rw [h] at hmem; exact absurd hmem (by decide)
    have h3 : m ∈ unimplemented_methods := hmem
    simp only [dispatch_method, hm, Option.getD_some, if_neg h1, if_neg h2, if_pos h3]
    rfl
  · intro m hm h1 h2 hmem
    have h3 : m ∉ unimplemented_methods := hmem
    simp only [dispatch_method, hm, Option.getD_some, if_neg h1, if_neg h2, if_neg h3]
    rfl


/-- C7: when the target is accepted and its file opens and stats, the reply
of `process_get` has status 304, with `header_only` set, exactly when
`parse_field` finds an `If-Modified-Since: ` value in the request that
equals, byte for byte, the formatted modification time of the file; any
other value, or none, gives status 200 and leaves `header_only` alone. -/
theorem process_get_if_modified_since (env : environment) (conn : connection)
    (u p : List Char) (f : FILE) (filestat : file_stat)
    (hu : conn.uri = some u)
    (hacc : make_safe_uri (urldecode u ++ NUL :: env.behind_decoded_url) = some p)
    (hopen : env.fopen (get_target env p) = fopen_result.opened f)
    (hstat : env.fstat f = Except.ok filestat) :
    (process_get env conn).conn.lastmod = some (cstr (env.rfc1123_date filestat.st_mtime)) ∧
    ((process_get env conn).conn.http_code = 304 ↔
      parse_field conn "If-Modified-Since: ".toList =
        some (cstr (env.rfc1123_date filestat.st_mtime))) ∧
    ((process_get env conn).conn.http_code = 304 →
      (process_get env conn).conn.header_only = 1) ∧
    (parse_field conn "If-Modified-Since: ".toList ≠
        some (cstr (env.rfc1123_date filestat.st_mtime)) →
      (process_get env conn).conn.http_code = 200 ∧
      (process_get env conn).conn.header_only = conn.header_only) := by
  have hc : (process_get env conn).conn =
      process_get_opened env { conn with reply_file := some f } (get_mimetype env p) f := by
    unfold process_get process_get_target
    simp only [hu, Option.getD_some, hacc, hopen]
  have hpf : ∀ (a : Option FILE) (b : reply_kind) (c : Nat) (d : Option (List Char)),
      parse_field { conn with reply_file := a, reply_type := b, reply_length := c, lastmod := d }
        "If-Modified-Since: ".toList = parse_field conn "If-Modified-Since: ".toList :=
    fun _ _ _ _ => rfl
  rw [hc]
  unfold process_get_opened
  rw [hstat]
  simp only [hpf]
  by_cases h : parse_field conn "If-Modified-Since: ".toList =
      some (cstr (env.rfc1123_date filestat.st_mtime))
  · rw [if_pos h]
    exact ⟨rfl, ⟨fun _ => h, fun _ => rfl⟩, fun _ => rfl, fun hne => absurd h hne⟩
  · rw [if_neg h]
    refine ⟨rfl, ⟨fun h2 => ?_, fun h2 => absurd h2 h⟩, fun h2 => ?_, fun _ => ⟨rfl, rfl⟩⟩
    · exact absurd (show (200 : Int) = 304 from h2) (by decide)
    · exact absurd (show (200 : Int) = 304 from h2) (by decide)

/-- C7 in the sample environment, for `GET /` of the file modified at
`Fri, 28 Feb 2003 00:02:08 GMT`: a request carrying exactly that date gets
304 with `header_only` set, one whose date differs in its last digit gets
200. -/
theorem process_get_if_modified_since_witness :
    (make_safe_uri (urldecode "/".toList ++ NUL :: scenario_env.behind_decoded_url) =
        some "/".toList ∧
      scenario_env.fopen (get_target scenario_env "/".toList) = fopen_result.opened 3 ∧
      scenario_env.fstat 3 = Except.ok ⟨3, 1046390528⟩) ∧
    ((process_get scenario_env (get_connection
        "GET / HTTP/1.1\r\nIf-Modified-Since: Fri, 28 Feb 2003 00:02:08 GMT\r\n\r\n".toList
        "/".toList)).conn.http_code = 304 ∧
      (process_get scenario_env (get_connection
        "GET / HTTP/1.1\r\nIf-Modified-Since: Fri, 28 Feb 2003 00:02:08 GMT\r\n\r\n".toList
        "/".toList)).conn.header_only = 1) ∧
    (process_get scenario_env (get_connection
        "GET / HTTP/1.1\r\nIf-Modified-Since: Fri, 28 Feb 2003 00:02:09 GMT\r\n\r\n".toList
        "/".toList)).conn.http_code = 200 :=
  ⟨⟨by decide, by decide, by decide⟩,
    ⟨(process_get_if_modified_since scenario_env _ "/".toList "/".toList 3 ⟨3, 1046390528⟩ rfl
        (by decide) (by decide) (by decide)).2.1.2 (by decide),
      (process_get_if_modified_since scenario_env _ "/".toList "/".toList 3 ⟨3, 1046390528⟩ rfl
        (by decide) (by decide) (by decide)).2.2.1
        ((process_get_if_modified_since scenario_env _ "/".toList "/".toList 3
          ⟨3, 1046390528⟩ rfl (by decide) (by decide) (by decide)).2.1.2 (by decide))⟩,
    ((process_get_if_modified_since scenario_env _ "/".toList "/".toList 3 ⟨3, 1046390528⟩ rfl
        (by decide) (by decide) (by decide)).2.2.2 (by decide)).1⟩

/-! ## The claims about the per-connection steps -/

theorem default_reply_fields (env : environment) (conn : connection) (errcode : Int)
    (errname reason : List Char) :
    (default_reply env conn errcode errname reason).http_code = errcode ∧
    (default_reply env conn errcode errname reason).request_length = conn.request_length ∧
    (default_reply env conn errcode errname reason).state = conn.state ∧
    (default_reply env conn errcode errname reason).method = conn.method ∧
    (default_reply env conn errcode errname reason).uri = conn.uri :=
  ⟨rfl, rfl, rfl, rfl, rfl⟩

theorem process_get_opened_fields (env : environment) (conn : connection)
    (mimetype : List Char) (f : FILE) :
    (process_get_opened env conn mimetype f).http_code ∈ ([200, 304, 500] : List Int) ∧
    (process_get_opened env conn mimetype f).request_length = conn.request_length ∧
    (process_get_opened env conn mimetype f).method = conn.method ∧
    (process_get_opened env conn mimetype f).uri = conn.uri := by
  unfold process_get_opened
  cases env.fstat f with
  | error e => exact ⟨by simp [default_reply], rfl, rfl, rfl⟩
  | ok filestat =>
    dsimp only
    split
    · exact ⟨by simp [default_reply], rfl, rfl, rfl⟩
    · exact ⟨by simp, rfl, rfl, rfl⟩

theorem process_get_target_fields (env : environment) (conn : connection)
    (uri target mimetype : List Char) :
    (process_get_target env conn uri target mimetype).http_code ∈
      ([200, 304, 403, 404, 500] : List Int) ∧
    (process_get_target env conn uri target mimetype).request_length = conn.request_length ∧
    (process_get_target env conn uri target mimetype).method = conn.method ∧
    (process_get_target env conn uri target mimetype).uri = conn.uri := by
  unfold process_get_target
  cases env.fopen target with
  | ENOENT => exact ⟨by simp [default_reply], rfl, rfl, rfl⟩
  | failed e => exact ⟨by simp [default_reply], rfl, rfl, rfl⟩
  | opened f =>
    dsimp only
    have h := process_get_opened_fields env { conn with reply_file := some f } mimetype f
    exact ⟨(by decide : ∀ x ∈ ([200, 304, 500] : List Int),
      x ∈ ([200, 304, 403, 404, 500] : List Int)) _ h.1, h.2.1, h.2.2.1, h.2.2.2⟩

/-- The status codes `process_get` can leave, and the fields it keeps. -/
theorem process_get_fields (env : environment) (conn : connection) :
    (process_get env conn).conn.http_code ∈ ([200, 304, 400, 403, 404, 500] : List Int) ∧
    (process_get env conn).conn.request_length = conn.request_length ∧
    (process_get env conn).conn.method = conn.method ∧
    (process_get env conn).conn.uri = conn.uri := by
  unfold process_get
  dsimp only
  cases make_safe_uri (urldecode (conn.uri.getD []) ++ NUL :: env.behind_decoded_url) with
  | none => exact ⟨by simp [default_reply], rfl, rfl, rfl⟩
  | some safe_url =>
    dsimp only
    have h := process_get_target_fields env conn (conn.uri.getD []) (get_target env safe_url)
      (get_mimetype env safe_url)
    exact ⟨(by decide : ∀ x ∈ ([200, 304, 403, 404, 500] : List Int),
      x ∈ ([200, 304, 400, 403, 404, 500] : List Int)) _ h.1, h.2.1, h.2.2.1, h.2.2.2⟩

/-- The status codes `process_request` can leave once the method is known. -/
theorem dispatch_method_fields (env : environment) (conn : connection) :
    (dispatch_method env conn).http_code ∈
      ([200, 304, 400, 403, 404, 500, 501] : List Int) ∧
    (dispatch_method env conn).request_length = conn.request_length ∧
    (dispatch_method env conn).method = conn.method ∧
    (dispatch_method env conn).uri = conn.uri := by
  have hg := process_get_fields env conn
  have hsub : ∀ x ∈ ([200, 304, 400, 403, 404, 500] : List Int),
      x ∈ ([200, 304, 400, 403, 404, 500, 501] : List Int) := by decide
  unfold dispatch_method
  dsimp only
  split
  · exact ⟨hsub _ hg.1, hg.2.1, hg.2.2.1, hg.2.2.2⟩
  · split
    · exact ⟨hsub _ hg.1, hg.2.1, hg.2.2.1, hg.2.2.2⟩
    · split
      · exact ⟨by simp [default_reply], rfl, rfl, rfl⟩
      · exact ⟨by simp [default_reply], rfl, rfl, rfl⟩

/-- What `process_request` returns when the assertion of `parse_request`
holds. -/
theorem process_request_ok (env : environment) (conn : connection) (request : List Char)
    (hreq : conn.request = some request) (hlen : conn.request_length = strlen request) :
    ∃ c, process_request env conn = Except.ok c ∧
      c.state = conn_state.SEND_HEADER ∧ c.request = none ∧
      c.request_length = conn.request_length ∧
      c.http_code ∈ ([200, 304, 400, 403, 404, 500, 501] : List Int) ∧
      c.method ≠ none ∧ c.uri ≠ none := by
  unfold process_request parse_request
  simp only [hreq]
  rw [if_neg (by simpa using hlen)]
  simp only
  refine ⟨_, rfl, rfl, rfl, ?_, ?_, ?_, ?_⟩
  · exact (dispatch_method_fields env _).2.1
  · exact (dispatch_method_fields env _).1
  · show (dispatch_method env _).method ≠ none
    rw [(dispatch_method_fields env _).2.2.1]
    simp
  · show (dispatch_method env _).uri ≠ none
    rw [(dispatch_method_fields env _).2.2.2]
    simp

theorem strlen_of_not_mem (s : List Char) (h : NUL ∉ s) : strlen s = s.length := by
  unfold strlen
  rw [cstr_of_not_mem s h]

/-- The test `memcmp(request + request_length - 4, "\r\n\r\n", 4) == 0` on a
buffer of more than four bytes says that the buffer ends in those bytes. -/
theorem ends_with_iff (l x : List Char) (hx : x.length = 4) (hl : 4 < l.length) :
    (l.drop (l.length - 4)).take 4 = x ↔ x <:+ l := by
  constructor
  · intro h
    have hd : (l.drop (l.length - 4)).length = 4 := by simp; omega
    have : (l.drop (l.length - 4)).take 4 = l.drop (l.length - 4) :=
      List.take_of_length_le (by omega)
    rw [this] at h
    rw [← h]
    exact List.drop_suffix _ _
  · rintro ⟨t, rfl⟩
    have : (t ++ x).length - 4 = t.length := by simp [hx]
    rw [this, List.drop_left, List.take_of_length_le (by omega)]

/-- The connection `poll_recv_request` holds after appending the received
bytes. -/
theorem poll_recv_request_eq (env : environment) (conn : connection) (recvd : List Char)
    (hne : recvd ≠ [])
    (hinv : conn.request_length = (conn.request.getD []).length)
    (hroom : conn.request_length + recvd.length < 2 ^ 32) :
    poll_recv_request env conn (some recvd) =
      match (if 4 < conn.request_length + recvd.length ∧
            CRLFCRLF <:+ conn.request.getD [] ++ recvd then
          process_request env { conn with
            last_active := env.time,
            request := some (conn.request.getD [] ++ recvd),
            request_length := conn.request_length + recvd.length }
        else Except.ok { conn with
            last_active := env.time,
            request := some (conn.request.getD [] ++ recvd),
            request_length := conn.request_length + recvd.length }) with
      | Except.error e => Except.error e
      | Except.ok c =>
        if c.request_length > MAX_REQUEST_LENGTH then
          Except.ok { default_reply env c 413 "Request Entity Too Large".toList
              "Your request was dropped because it was too long.".toList with
            state := conn_state.SEND_HEADER }
        else Except.ok c := by
  cases recvd with
  | nil => exact absurd rfl hne
  | cons b buf =>
    unfold poll_recv_request
    have h1 : (conn.request.getD []).take conn.request_length = conn.request.getD [] := by
      rw [hinv]; exact List.take_length _
    have h2 : (conn.request_length + (b :: buf).length) % 2 ^ 32 =
        conn.request_length + (b :: buf).length := Nat.mod_eq_of_lt hroom
    dsimp only
    rw [h1, h2]
    have hiff : (conn.request_length + (b :: buf).length > 4 ∧
        ((conn.request.getD [] ++ b :: buf).drop
          (conn.request_length + (b :: buf).length - 4)).take 4 = CRLFCRLF) ↔
        (4 < conn.request_length + (b :: buf).length ∧
          CRLFCRLF <:+ conn.request.getD [] ++ b :: buf) := by
      have hl : (conn.request.getD [] ++ b :: buf).length =
          conn.request_length + (b :: buf).length := by
        rw [List.length_append, hinv]
      constructor
      · rintro ⟨ha, hb⟩
        rw [← hl] at hb
        exact ⟨ha, (ends_with_iff _ CRLFCRLF rfl (by rw [hl]; exact ha)).1 hb⟩
      · rintro ⟨ha, hb⟩
        refine ⟨ha, ?_⟩
        rw [← hl]
        exact (ends_with_iff _ CRLFCRLF rfl (by rw [hl]; exact ha)).2 hb
    simp only [hiff]

/-- After a non-empty receive that leaves a buffer which holds no NUL or
does not end in CR LF CR LF, `poll_recv_request` returns, and the connection
is left with the 413 reply in `SEND_HEADER` exactly when the accumulated
request length exceeds 4000, whether or not the buffer ends in CR LF CR LF;
up to 4000 bytes with no CR LF CR LF at the end (in particular exactly 4000)
the connection stays in `RECV_REQUEST` and no reply is built. -/
theorem poll_recv_request_length_test (env : environment) (conn : connection)
    (recvd : List Char)
    (hne : recvd ≠ [])
    (hstate : conn.state = conn_state.RECV_REQUEST)
    (hinv : conn.request_length = (conn.request.getD []).length)
    (hroom : conn.request_length + recvd.length < 2 ^ 32)
    (hnul : CRLFCRLF <:+ conn.request.getD [] ++ recvd →
      NUL ∉ conn.request.getD [] ++ recvd) :
    ∃ c, poll_recv_request env conn (some recvd) = Except.ok c ∧
      ((c.http_code = 413 ∧ c.state = conn_state.SEND_HEADER) ↔
        MAX_REQUEST_LENGTH < conn.request_length + recvd.length) ∧
      (MAX_REQUEST_LENGTH < conn.request_length + recvd.length →
        c.reply_type = reply_kind.REPLY_GENERATED ∧
        c.reply = some (reply_body (env.rfc1123_date env.time) 413
          "Request Entity Too Large".toList
          "Your request was dropped because it was too long.".toList) ∧
        ∃ header, c.header = some header ∧
          header = reply_header (env.rfc1123_date env.time) 413
            "Request Entity Too Large".toList c.reply_length) ∧
      (conn.request_length + recvd.length ≤ MAX_REQUEST_LENGTH →
        ¬ CRLFCRLF <:+ conn.request.getD [] ++ recvd →
        c.state = conn_state.RECV_REQUEST ∧ c.http_code = conn.http_code ∧
        c.header = conn.header ∧ c.reply = conn.reply) := by
  rw [poll_recv_request_eq env conn recvd hne hinv hroom]
  by_cases hc : 4 < conn.request_length + recvd.length ∧
      CRLFCRLF <:+ conn.request.getD [] ++ recvd
  · rw [if_pos hc]
    obtain ⟨c, hc1, hc2, -, hc4, hc5, -, -⟩ := process_request_ok env
      { conn with
        last_active := env.time,
        request := some (conn.request.getD [] ++ recvd),
        request_length := conn.request_length + recvd.length }
      (conn.request.getD [] ++ recvd) rfl
      (by rw [strlen_of_not_mem _ (hnul hc.2), List.length_append, hinv])
    rw [hc1]
    dsimp only
    have hc4 : c.request_length = conn.request_length + recvd.length := hc4
    rw [hc4]
    by_cases hlong : conn.request_length + recvd.length > MAX_REQUEST_LENGTH
    · rw [if_pos hlong]
      refine ⟨_, rfl, ⟨fun _ => hlong, fun _ => ⟨rfl, rfl⟩⟩, fun _ => ⟨rfl, rfl, _, rfl, rfl⟩,
        fun h => absurd hlong (by omega)⟩
    · rw [if_neg hlong]
      refine ⟨_, rfl, ⟨fun h => ?_, fun h => absurd h hlong⟩, fun h => absurd h hlong,
        fun _ h => absurd hc.2 h⟩
      have h413 : ¬ ((413 : Int) ∈ ([200, 304, 400, 403, 404, 500, 501] : List Int)) := by
        decide
      rw [h.1] at hc5
      exact absurd hc5 h413
  · rw [if_neg hc]
    dsimp only
    by_cases hlong : conn.request_length + recvd.length > MAX_REQUEST_LENGTH
    · rw [if_pos hlong]
      refine ⟨_, rfl, ⟨fun _ => hlong, fun _ => ⟨rfl, rfl⟩⟩, fun _ => ⟨rfl, rfl, _, rfl, rfl⟩,
        fun h => absurd hlong (by omega)⟩
    · rw [if_neg hlong]
      refine ⟨_, rfl, ⟨fun h => ?_, fun h => absurd h hlong⟩, fun h => absurd h hlong,
        fun _ _ => ⟨hstate, rfl, rfl, rfl⟩⟩
      have h2 : conn.state = conn_state.SEND_HEADER := h.2
      rw [hstate] at h2
      exact absurd h2 (by decide)

/-- C10 (the code breaks it): `poll_recv_request` leaves the process when
`recv` returns -1, and `poll_send_reply` on a file reply leaves the process
when `fseek` returns -1 or `fread` does not report one item, whatever the
connection; no 500 reply is built and the connection is not moved to
`DONE`. -/
theorem poll_steps_leave_process :
    (∀ env conn, poll_recv_request env conn none = Except.error fatal.recv_failed) ∧
    (∀ (conn : connection) (f : FILE) (now : Nat) (sent : Int),
      poll_send_reply
        { conn with reply_type := reply_kind.REPLY_FROMFILE, reply_file := some f }
        now 0 0 sent = Except.error fatal.fread_failed) ∧
    (∀ (conn : connection) (f : FILE) (now fread : Nat) (sent : Int),
      poll_send_reply
        { conn with reply_type := reply_kind.REPLY_FROMFILE, reply_file := some f }
        now (-1) fread sent = Except.error fatal.fseek_failed) :=
  ⟨fun _ _ => rfl, fun _ _ _ _ => rfl, fun _ _ _ _ _ => rfl⟩

/-! ## The claims about urldecode -/

theorem char_le_iff (a b : Char) : a ≤ b ↔ a.toNat ≤ b.toNat := by
  rw [Char.le_def]
  rfl

/-- The codes of the six characters that bound the hexadecimal digits. -/
theorem hex_bound_codes :
    '0'.toNat = 48 ∧ '9'.toNat = 57 ∧ 'A'.toNat = 65 ∧ 'F'.toNat = 70 ∧
    'a'.toNat = 97 ∧ 'f'.toNat = 102 := by
  decide

theorem isDigit_iff_code (c : Char) : c.isDigit = true ↔ 48 ≤ c.toNat ∧ c.toNat ≤ 57 := by
  simp only [Char.isDigit, Bool.and_eq_true, decide_eq_true_eq]
  rfl

/-- The two readings of "hexadecimal digit" agree, and so do the values. -/
theorem hex_agree (c : Char) :
    isxdigit c = spec_is_hex c ∧
    (spec_is_hex c = true → HEX_TO_DIGIT c = spec_hex_value c ∧ spec_hex_value c < 16) := by
  obtain ⟨z0, z9, uA, uF, la, lf⟩ := hex_bound_codes
  constructor
  · unfold isxdigit spec_is_hex
    rw [Bool.eq_iff_iff]
    simp only [Bool.or_eq_true, Bool.and_eq_true, decide_eq_true_eq, isDigit_iff_code,
      char_le_iff, z0, z9, la, lf, uA, uF]
    tauto
  · intro h
    unfold spec_is_hex at h
    simp only [Bool.or_eq_true, Bool.and_eq_true, decide_eq_true_eq, isDigit_iff_code,
      char_le_iff, la, lf, uA, uF] at h
    unfold HEX_TO_DIGIT spec_hex_value
    simp only [isDigit_iff_code, char_le_iff, z0, la, lf, uA, uF]
    split_ifs <;> omega

theorem urldecode_loop_eq (s rest : List Char) (fuel i : Nat) (hi : i ≤ s.length)
    (hfuel : s.length - i ≤ fuel) :
    urldecode_loop (s ++ rest) s.length fuel i = spec_urldecode (s.drop i) := by
  induction fuel generalizing i with
  | zero =>
    have : s.drop i = [] := by simp; omega
    rw [this]
    rfl
  | succ fuel ih =>
    unfold urldecode_loop
    by_cases hlt : i < s.length
    · rw [if_pos hlt]
      have hdrop : (s ++ rest).drop i = s.drop i ++ rest := List.drop_append_of_le_length hi
      cases hc : s.drop i with
      | nil => simp at hc; omega
      | cons c t =>
        rw [hc] at hdrop
        obtain ⟨hrc, hd1⟩ := rd_of_drop_cons hdrop
        have hs1 : s.drop (i + 1) = t := (rd_of_drop_cons hc).2
        have hlen : (s.drop i).length = t.length + 1 := by rw [hc]; rfl
        rw [List.length_drop] at hlen
        cases t with
        | nil =>
          have h2 : ¬ (i + 2 < s.length) := by simp at hlen; omega
          rw [if_neg (fun h => h2 h.2.1), ih (i + 1) (by omega) (by omega), hs1, hrc]
          rfl
        | cons a t1 =>
          obtain ⟨hra, hd2⟩ := rd_of_drop_cons (show (s ++ rest).drop (i + 1) =
            a :: (t1 ++ rest) from hd1)
          have hs2 : s.drop (i + 1 + 1) = t1 := (rd_of_drop_cons hs1).2
          cases t1 with
          | nil =>
            have h2 : ¬ (i + 2 < s.length) := by simp at hlen; omega
            rw [if_neg (fun h => h2 h.2.1), ih (i + 1) (by omega) (by omega), hs1, hrc]
            rfl
          | cons b t2 =>
            obtain ⟨hrb, -⟩ := rd_of_drop_cons (show (s ++ rest).drop (i + 1 + 1) =
              b :: (t2 ++ rest) from hd2)
            have hs3 : s.drop (i + 1 + 1 + 1) = t2 := (rd_of_drop_cons hs2).2
            have h2 : i + 2 < s.length := by simp at hlen; omega
            rw [hrc, hra, show i + 2 = i + 1 + 1 from rfl, hrb]
            unfold spec_urldecode
            rw [(hex_agree a).1, (hex_agree b).1]
            by_cases hcond : c = '%' ∧ spec_is_hex a = true ∧ spec_is_hex b = true
            · rw [if_pos ⟨hcond.1, h2, hcond.2.1, hcond.2.2⟩, if_pos hcond,
                ih (i + 3) (by omega) (by omega), show i + 3 = i + 1 + 1 + 1 from rfl, hs3]
              obtain ⟨ha1, ha2⟩ := (hex_agree a).2 hcond.2.1
              obtain ⟨hb1, hb2⟩ := (hex_agree b).2 hcond.2.2
              rw [ha1, hb1]
              congr 2
              omega
            · rw [if_neg (fun h => hcond ⟨h.1, h.2.2.1, h.2.2.2⟩), if_neg hcond,
                ih (i + 1) (by omega) (by omega), hs1]
    · have : i = s.length := by omega
      subst this
      rw [if_neg hlt]
      simp [spec_urldecode]

theorem spec_urldecode_length (s : List Char) : (spec_urldecode s).length ≤ s.length := by
  induction s using spec_urldecode.induct with
  | case1 => simp [spec_urldecode]
  | case2 c => simp [spec_urldecode]
  | case3 c a ih => simp [spec_urldecode]
  | case4 c a b rest h ih =>
    unfold spec_urldecode
    rw [if_pos h]
    simp only [List.length_cons]
    omega
  | case5 c a b rest h ih =>
    unfold spec_urldecode
    rw [if_neg h]
    simp only [List.length_cons] at ih ⊢
    omega

theorem cstr_length_le (m : List Char) : (cstr m).length ≤ m.length := by
  induction m with
  | nil => simp [cstr]
  | cons c m ih =>
    unfold cstr
    split
    · simp
    · simp only [List.length_cons]; omega

/-- The code decodes like the reference decoder and cuts the result at its
first NUL. -/
theorem urldecode_eq_spec (url : List Char) :
    urldecode url = cstr (spec_urldecode (cstr url)) := by
  obtain ⟨rest, h1, -⟩ := mem_split url
  have h := urldecode_loop_eq (cstr url) rest (strlen url) 0 (Nat.zero_le _) (by unfold strlen; omega)
  rw [← h1] at h
  unfold urldecode
  unfold strlen at h ⊢
  rw [h, List.drop_zero]

/-- C11 (as stated, fails): for the input `a%00b` the reference decoder gives
the three bytes `a`, NUL, `b`, and `urldecode` returns the string `a`. -/
theorem urldecode_cuts_at_nul :
    spec_urldecode "a%00b".toList = ['a', NUL, 'b'] ∧
    urldecode "a%00b".toList = ['a'] ∧
    urldecode "a%00b".toList ≠ spec_urldecode "a%00b".toList := by
  decide

/-- C11 (amended): for every input string `urldecode` returns the result of
the left-to-right reference decoder cut at its first NUL byte (the byte a
`%00` decodes to), hence that result itself when it holds no NUL; the output
is never longer than the input. -/
theorem urldecode_reference (url : List Char) :
    urldecode url = cstr (spec_urldecode (cstr url)) ∧
    (NUL ∉ spec_urldecode (cstr url) → urldecode url = spec_urldecode (cstr url)) ∧
    (urldecode url).length ≤ strlen url := by
  refine ⟨urldecode_eq_spec url, fun h => ?_, ?_⟩
  · rw [urldecode_eq_spec, cstr_of_not_mem _ h]
  · rw [urldecode_eq_spec]
    exact Nat.le_trans (cstr_length_le _) (spec_urldecode_length _)

theorem spec_urldecode_cons_ne (c : Char) (l : List Char) (h : c ≠ '%') :
    spec_urldecode (c :: l) = c :: spec_urldecode l := by
  cases l with
  | nil => rfl
  | cons a l =>
    cases l with
    | nil => rfl
    | cons b l =>
      rw [spec_urldecode, if_neg (fun hc => h hc.1)]

theorem spec_urldecode_escape (a b : Char) (l : List Char) (ha : spec_is_hex a = true)
    (hb : spec_is_hex b = true) :
    spec_urldecode ('%' :: a :: b :: l) =
      Char.ofNat (16 * spec_hex_value a + spec_hex_value b) :: spec_urldecode l := by
  rw [spec_urldecode, if_pos ⟨rfl, ha, hb⟩]

theorem hex_digit_facts (upper : Bool) :
    ∀ n < 16, spec_is_hex (hex_digit upper n) = true ∧
      spec_hex_value (hex_digit upper n) = n ∧ hex_digit upper n ≠ NUL := by
  cases upper <;> decide

theorem spec_urldecode_url_encode (literal : Char → Bool) (upper : Bool) (s : List Char)
    (hlit : literal '%' = false) (hbyte : ∀ c ∈ s, c.toNat < 256) :
    spec_urldecode (url_encode literal upper s) = s := by
  induction s with
  | nil => rfl
  | cons c s ih =>
    have ih2 := ih (fun x hx => hbyte x (List.mem_cons_of_mem c hx))
    unfold url_encode
    by_cases hc : literal c = true
    · rw [if_pos hc]
      have hne : c ≠ '%' := by
        intro h
        rw [h, hlit] at hc
        exact absurd hc (by decide)
      rw [spec_urldecode_cons_ne _ _ hne, ih2]
    · rw [if_neg hc]
      have hb := hbyte c (List.mem_cons_self c s)
      obtain ⟨h1, h2, -⟩ := hex_digit_facts upper (c.toNat / 16) (by omega)
      obtain ⟨h3, h4, -⟩ := hex_digit_facts upper (c.toNat % 16) (by omega)
      rw [spec_urldecode_escape _ _ _ h1 h3, h2, h4, ih2, Nat.div_add_mod]
      rw [Char.ofNat_toNat]

theorem url_encode_nul_free (literal : Char → Bool) (upper : Bool) (s : List Char)
    (hbyte : ∀ c ∈ s, c.toNat < 256) (hnul : NUL ∉ s) :
    NUL ∉ url_encode literal upper s := by
  induction s with
  | nil => simp [url_encode]
  | cons c s ih =>
    simp only [List.mem_cons, not_or] at hnul
    have ih2 := ih (fun x hx => hbyte x (List.mem_cons_of_mem c hx)) hnul.2
    have hb := hbyte c (List.mem_cons_self c s)
    unfold url_encode
    split
    · simp only [List.mem_cons, not_or]
      exact ⟨hnul.1, ih2⟩
    · obtain ⟨-, -, h1⟩ := hex_digit_facts upper (c.toNat / 16) (by omega)
      obtain ⟨-, -, h2⟩ := hex_digit_facts upper (c.toNat % 16) (Nat.mod_lt _ (by decide))
      simp only [List.mem_cons, not_or]
      exact ⟨by decide, fun h => h1 h.symm, fun h => h2 h.symm, ih2⟩

/-- C12 (as stated, fails): the byte string that holds the single byte NUL is
encoded as `%00` by an encoder with no literal bytes, and `urldecode` returns
the empty string for it. -/
theorem urldecode_url_encode_nul :
    url_encode (fun _ => false) true [NUL] = "%00".toList ∧
    urldecode (url_encode (fun _ => false) true [NUL]) = [] ∧
    urldecode (url_encode (fun _ => false) true [NUL]) ≠ [NUL] := by
  decide

/-- C12 (amended): for every string `s` of bytes that holds no NUL, and every
set of literal bytes that does not hold `%`, `urldecode` undoes the encoding:
`urldecode (url_encode s) = s`, whichever case the encoder uses for its
hexadecimal digits. -/
theorem urldecode_url_encode (literal : Char → Bool) (upper : Bool) (s : List Char)
    (hlit : literal '%' = false) (hbyte : ∀ c ∈ s, c.toNat < 256) (hnul : NUL ∉ s) :
    urldecode (url_encode literal upper s) = s := by
  rw [urldecode_eq_spec, cstr_of_not_mem _ (url_encode_nul_free literal upper s hbyte hnul),
    spec_urldecode_url_encode literal upper s hlit hbyte, cstr_of_not_mem s hnul]

/-- C12 (amended) at the string `a b/%~z` with the letters and digits as
literal bytes: it is encoded as `a%20b%2F%25%7Ez` and decoded back. -/
theorem urldecode_url_encode_witness :
    (Char.isAlphanum '%' = false ∧ (∀ c ∈ "a b/%~z".toList, c.toNat < 256) ∧
      NUL ∉ "a b/%~z".toList) ∧
    url_encode Char.isAlphanum true "a b/%~z".toList = "a%20b%2F%25%7Ez".toList ∧
    urldecode (url_encode Char.isAlphanum true "a b/%~z".toList) = "a b/%~z".toList :=
  ⟨⟨by decide, by decide, by decide⟩, by decide,
    urldecode_url_encode Char.isAlphanum true "a b/%~z".toList (by decide) (by decide)
      (by decide)⟩

/-! ## The claim about uri_content_type -/

theorem cstr_drop (m : List Char) (k : Nat) (h : k ≤ strlen m) :
    cstr (m.drop k) = (cstr m).drop k := by
  induction m generalizing k with
  | nil => simp [cstr]
  | cons c m ih =>
    cases k with
    | zero => rfl
    | succ k =>
      by_cases hc : c = NUL
      · subst hc
        simp [strlen, cstr] at h
      · have h2 : k ≤ strlen m := by
          unfold strlen at h ⊢
          rw [cstr_cons_ne c m hc] at h
          simpa using h
        rw [List.drop_succ_cons, ih k h2, cstr_cons_ne c m hc, List.drop_succ_cons]

theorem rd_cstr (m : List Char) (k : Nat) (h : k < strlen m) : rd m k = rd (cstr m) k := by
  induction m generalizing k with
  | nil => simp [strlen, cstr] at h
  | cons c m ih =>
    by_cases hc : c = NUL
    · subst hc
      simp [strlen, cstr] at h
    · rw [cstr_cons_ne c m hc]
      cases k with
      | zero => rfl
      | succ k =>
        have h2 : k < strlen m := by
          unfold strlen at h ⊢
          rw [cstr_cons_ne c m hc] at h
          simpa using h
        have := ih k h2
        simpa [rd] using this

/-- The test of `uri_content_type` on one entry is the specification's. -/
theorem ext_test_iff (uri ext : List Char) :
    (strlen uri ≥ strlen ext + 3 ∧ rd uri (strlen uri - 1 - strlen ext) = '.' ∧
      cstr (uri.drop (strlen uri - strlen ext)) = cstr ext) ↔
    spec_ext_matches (cstr uri) (cstr ext) = true := by
  unfold spec_ext_matches
  simp only [Bool.and_eq_true, decide_eq_true_eq]
  unfold strlen
  generalize cstr ext = e
  constructor
  · rintro ⟨h1, h2, h3⟩
    refine ⟨?_, h1⟩
    rw [cstr_drop uri _ (by unfold strlen; omega)] at h3
    rw [rd_cstr uri _ (by unfold strlen; omega)] at h2
    generalize cstr uri = u at h1 h2 h3
    have hd : u.drop (u.length - 1 - e.length) = '.' :: e := by
      have hlt : u.length - 1 - e.length < u.length := by omega
      rw [List.drop_eq_getElem_cons hlt]
      have h4 : u[u.length - 1 - e.length] = '.' := by
        have : rd u (u.length - 1 - e.length) = u[u.length - 1 - e.length] := by
          simp [rd, List.getD, List.getElem?_eq_getElem hlt]
        rw [← this, h2]
      rw [h4, show u.length - 1 - e.length + 1 = u.length - e.length by omega, h3]
    rw [← hd]
    exact List.drop_suffix _ _
  · rintro ⟨⟨t, ht⟩, h1⟩
    refine ⟨h1, ?_, ?_⟩
    · rw [rd_cstr uri _ (by unfold strlen; omega), ← ht]
      have : (t ++ '.' :: e).length - 1 - e.length = t.length := by simp
      rw [this]
      have hd : (t ++ '.' :: e).drop t.length = '.' :: e := List.drop_left _ _
      exact (rd_of_drop_cons hd).1
    · rw [cstr_drop uri _ (by unfold strlen; omega), ← ht]
      have : (t ++ '.' :: e).length - e.length = (t ++ ['.']).length := by simp; omega
      rw [this, show t ++ '.' :: e = (t ++ ['.']) ++ e by simp, List.drop_left]

/-- C13: `uri_content_type` returns the media type of the first entry, in list
order, whose extension `ext` is such that the URI ends in `.` followed by
`ext` and is at least three characters longer than `ext`, and
`application/octet-stream` when no entry qualifies; the comparison is
case-sensitive: `/a.HTML` does not match the extension `html`. -/
theorem uri_content_type_first_match (mime_map : List mime_mapping) (uri : List Char) :
    uri_content_type mime_map uri = spec_content_type mime_map (cstr uri) ∧
    uri_content_type [⟨"html".toList, "text/html".toList⟩] "/a.HTML".toList =
      "application/octet-stream".toList ∧
    uri_content_type [⟨"html".toList, "text/html".toList⟩] "/a.html".toList =
      "text/html".toList := by
  refine ⟨?_, by decide, by decide⟩
  induction mime_map with
  | nil => rfl
  | cons mapping rest ih =>
    unfold uri_content_type spec_content_type
    simp only [List.find?_cons]
    by_cases h : spec_ext_matches (cstr uri) (cstr mapping.extension) = true
    · rw [if_pos ((ext_test_iff uri mapping.extension).2 h), h]
    · rw [if_neg (fun h2 => h ((ext_test_iff uri mapping.extension).1 h2))]
      have h3 : spec_ext_matches (cstr uri) (cstr mapping.extension) = false := by
        simpa using h
      rw [h3, ih]
      rfl

/-! ## The claim about parse_request -/

theorem method_end_eq (m : List Char) (fuel b : Nat) (h : (m.drop b).length ≤ fuel) :
    method_end m m.length fuel b =
      b + ((m.drop b).takeWhile (fun c => decide (c ≠ ' '))).length := by
  induction fuel generalizing b with
  | zero =>
    have : m.drop b = [] := List.eq_nil_of_length_eq_zero (Nat.le_zero.mp h)
    rw [this]; rfl
  | succ fuel ih =>
    unfold method_end
    cases hd : m.drop b with
    | nil =>
      have : ¬ b < m.length := by simp at hd; omega
      rw [if_neg (fun h2 => this h2.1)]; rfl
    | cons c l =>
      obtain ⟨h1, h2⟩ := rd_of_drop_cons hd
      have hb : b < m.length := by
        have : (m.drop b).length = l.length + 1 := by rw [hd]; rfl
        simp at this; omega
      rw [h1]
      by_cases hc : c ≠ ' '
      · rw [if_pos ⟨hb, hc⟩, ih (b + 1) (by rw [h2]; rw [hd] at h; simp at h; omega), h2]
        simp [List.takeWhile, hc]; omega
      · rw [if_neg (fun h3 => hc h3.2)]; simp [List.takeWhile, hc]

theorem uri_end_eq (m : List Char) (fuel b : Nat) (h : (m.drop b).length ≤ fuel) :
    uri_end m m.length fuel b =
      b + ((m.drop b).takeWhile (fun c => decide (c ≠ ' ' ∧ c ≠ CR))).length := by
  induction fuel generalizing b with
  | zero =>
    have : m.drop b = [] := List.eq_nil_of_length_eq_zero (Nat.le_zero.mp h)
    rw [this]; rfl
  | succ fuel ih =>
    unfold uri_end
    cases hd : m.drop b with
    | nil =>
      have : ¬ b < m.length := by simp at hd; omega
      rw [if_neg (fun h2 => this h2.1)]; rfl
    | cons c l =>
      obtain ⟨h1, h2⟩ := rd_of_drop_cons hd
      have hb : b < m.length := by
        have : (m.drop b).length = l.length + 1 := by rw [hd]; rfl
        simp at this; omega
      rw [h1]
      by_cases hc : c ≠ ' ' ∧ c ≠ CR
      · rw [if_pos ⟨hb, hc⟩, ih (b + 1) (by rw [h2]; rw [hd] at h; simp at h; omega), h2]
        simp [List.takeWhile, hc]; omega
      · rw [if_neg (fun h3 => hc h3.2)]; simp [List.takeWhile, hc]

theorem field_end_eq (m : List Char) (fuel b : Nat) (h : (m.drop b).length ≤ fuel) :
    field_end m m.length fuel b =
      b + ((m.drop b).takeWhile (fun c => decide (c ≠ CR))).length := by
  induction fuel generalizing b with
  | zero =>
    have : m.drop b = [] := List.eq_nil_of_length_eq_zero (Nat.le_zero.mp h)
    rw [this]; rfl
  | succ fuel ih =>
    unfold field_end
    cases hd : m.drop b with
    | nil =>
      have : ¬ b < m.length := by simp at hd; omega
      rw [if_neg (fun h2 => this h2.2)]; rfl
    | cons c l =>
      obtain ⟨h1, h2⟩ := rd_of_drop_cons hd
      have hb : b < m.length := by
        have : (m.drop b).length = l.length + 1 := by rw [hd]; rfl
        simp at this; omega
      rw [h1]
      by_cases hc : c ≠ CR
      · rw [if_pos ⟨hc, hb⟩, ih (b + 1) (by rw [h2]; rw [hd] at h; simp at h; omega), h2]
        simp [List.takeWhile, hc]; omega
      · rw [if_neg (fun h3 => hc h3.1)]; simp [List.takeWhile, hc]

/-- In a buffer without NUL, `split_string` from `b` over the length of a run
gives that run. -/
theorem split_string_takeWhile (m : List Char) (hnul : NUL ∉ m) (p : Char → Bool) (b : Nat) :
    split_string m b (b + ((m.drop b).takeWhile p).length) = (m.drop b).takeWhile p := by
  unfold split_string
  rw [Nat.add_sub_cancel_left, take_length_takeWhile]
  apply cstr_of_not_mem
  intro h
  exact hnul (List.mem_of_mem_drop (List.takeWhile_subset _ h))

theorem strstr_from_spec (hay field : List Char) :
    match strstr_from hay field with
    | none => spec_field_value hay field = none
    | some k => spec_field_value hay field =
        some ((hay.drop (k + field.length)).takeWhile (fun c => decide (c ≠ CR))) := by
  induction hay with
  | nil =>
    unfold strstr_from spec_field_value
    by_cases h : field = []
    · subst h; simp
    · simp [h]
  | cons c rest ih =>
    unfold strstr_from spec_field_value
    by_cases h : field.isPrefixOf (c :: rest) = true
    · simp only [h, if_true, Nat.zero_add]
    · rw [if_neg h, if_neg h]
      cases hs : strstr_from rest field with
      | none =>
        rw [hs] at ih
        simpa using ih
      | some k =>
        rw [hs] at ih
        have ih2 : spec_field_value rest field = some ((rest.drop (k + field.length)).takeWhile
          (fun c => decide (c ≠ CR))) := ih
        show spec_field_value rest field = some (((c :: rest).drop (k + 1 + field.length)).takeWhile
          (fun c => decide (c ≠ CR)))
        rw [ih2, show k + 1 + field.length = (k + field.length) + 1 by omega,
          List.drop_succ_cons]

/-- On a buffer without NUL whose length is `request_length`, `parse_field`
returns what the specification describes. -/
theorem parse_field_eq (conn : connection) (request field : List Char)
    (hreq : conn.request = some request) (hlen : conn.request_length = request.length)
    (hnul : NUL ∉ request) (hf : NUL ∉ field) :
    parse_field conn field = spec_field_value request field := by
  unfold parse_field strstr
  simp only [hreq, Option.getD_some, hlen]
  rw [cstr_of_not_mem request hnul, cstr_of_not_mem field hf]
  have h := strstr_from_spec request field
  cases hs : strstr_from request field with
  | none =>
    rw [hs] at h
    simp only
    exact h.symm
  | some k =>
    rw [hs] at h
    simp only
    rw [h, strlen_of_not_mem field hf,
      field_end_eq request request.length (k + field.length) (by simp),
      split_string_takeWhile request hnul]

theorem toupper_not_lower (c : Char) : ¬ ('a' ≤ toupper c ∧ toupper c ≤ 'z') := by
  have key : ∀ n < 123, 97 ≤ n →
      ¬ (97 ≤ (Char.ofNat (n - 32)).toNat ∧ (Char.ofNat (n - 32)).toNat ≤ 122) := by
    decide
  have ha : ('a' : Char).toNat = 97 := rfl
  have hz : ('z' : Char).toNat = 122 := rfl
  unfold toupper
  split
  · rename_i h
    rw [char_le_iff, char_le_iff, ha, hz] at h
    rw [char_le_iff, char_le_iff, ha, hz]
    exact key c.toNat (by omega) h.1
  · assumption

/-- The connection `parse_request` returns on a request buffer without
NUL. -/
theorem parse_request_value (conn : connection) (request : List Char)
    (hreq : conn.request = some request) (hlen : conn.request_length = request.length)
    (hnul : NUL ∉ request) :
    parse_request conn = Except.ok { conn with
      method := some (spec_method request),
      uri := some (spec_uri request),
      referer := spec_field_value request "Referer: ".toList,
      user_agent := spec_field_value request "User-Agent: ".toList } := by
  have hm : split_string request 0 (method_end request request.length request.length 0) =
      request.takeWhile (fun c => decide (c ≠ ' ')) := by
    rw [method_end_eq request request.length 0 (by simp)]
    have := split_string_takeWhile request hnul (fun c => decide (c ≠ ' ')) 0
    simpa using this
  have hb1 : method_end request request.length request.length 0 =
      (request.takeWhile (fun c => decide (c ≠ ' '))).length := by
    rw [method_end_eq request request.length 0 (by simp)]
    simp
  have hu : split_string request (method_end request request.length request.length 0 + 1)
      (uri_end request request.length request.length
        (method_end request request.length request.length 0 + 1)) = spec_uri request := by
    rw [uri_end_eq request request.length _ (by simp),
      split_string_takeWhile request hnul, hb1]
    unfold spec_uri
    rw [← drop_length_takeWhile, List.drop_drop]
  unfold parse_request
  simp only [hreq]
  rw [if_neg (by rw [hlen, strlen_of_not_mem request hnul]; simp)]
  have h1 := parse_field_eq { conn with
      request := some request,
      method := some ((split_string request 0 (method_end request conn.request_length
        conn.request_length 0)).map toupper),
      uri := some (split_string request (method_end request conn.request_length
        conn.request_length 0 + 1) (uri_end request conn.request_length conn.request_length
          (method_end request conn.request_length conn.request_length 0 + 1))) }
    request "Referer: ".toList rfl hlen hnul (by decide)
  have h2 := parse_field_eq { conn with
      request := some request,
      method := some ((split_string request 0 (method_end request conn.request_length
        conn.request_length 0)).map toupper),
      uri := some (split_string request (method_end request conn.request_length
        conn.request_length 0 + 1) (uri_end request conn.request_length conn.request_length
          (method_end request conn.request_length conn.request_length 0 + 1))),
      referer := spec_field_value request "Referer: ".toList }
    request "User-Agent: ".toList rfl hlen hnul (by decide)
  simp only [h1, h2]
  rw [hlen, hm, hu]
  simp only [spec_method, ← hreq]

/-- C14: on a request buffer without NUL, `parse_request` returns with
`method` the bytes before the first space, ASCII lowercase letters
uppercased (none is left), `uri` the bytes after that space up to the next
space, CR or end of buffer, and `referer` and `user_agent` the text that
follows the first occurrence of `Referer: ` and `User-Agent: ` up to the next
CR or end of buffer, `NULL` when the literal does not occur. -/
theorem parse_request_fields (conn : connection) (request : List Char)
    (hreq : conn.request = some request) (hlen : conn.request_length = request.length)
    (hnul : NUL ∉ request) :
    ∃ c, parse_request conn = Except.ok c ∧
      c.method = some (spec_method request) ∧
      (∀ x ∈ spec_method request, ¬ ('a' ≤ x ∧ x ≤ 'z')) ∧
      c.uri = some (spec_uri request) ∧
      c.referer = spec_field_value request "Referer: ".toList ∧
      c.user_agent = spec_field_value request "User-Agent: ".toList := by
  refine ⟨_, parse_request_value conn request hreq hlen hnul, rfl, ?_, rfl, rfl, rfl⟩
  intro x hx
  unfold spec_method at hx
  rw [List.mem_map] at hx
  obtain ⟨y, -, rfl⟩ := hx
  exact toupper_not_lower y

/-- C14 at the request `get /a HTTP/1.1` with a `Referer` and a `User-Agent`
line. -/
theorem parse_request_fields_witness :
    NUL ∉ "get /a HTTP/1.1\r\nReferer: http://x/\r\nUser-Agent: w\r\n\r\n".toList ∧
    ∃ c, parse_request (connection_with_request
        "get /a HTTP/1.1\r\nReferer: http://x/\r\nUser-Agent: w\r\n\r\n".toList) =
        Except.ok c ∧
      c.method = some "GET".toList ∧ c.uri = some "/a".toList ∧
      c.referer = some "http://x/".toList ∧ c.user_agent = some "w".toList := by
  refine ⟨by decide, ?_⟩
  obtain ⟨c, h1, h2, -, h3, h4, h5⟩ := parse_request_fields
    (connection_with_request
      "get /a HTTP/1.1\r\nReferer: http://x/\r\nUser-Agent: w\r\n\r\n".toList) _ rfl rfl
    (by decide)
  exact ⟨c, h1, by rw [h2]; decide, by rw [h3]; decide, by rw [h4]; decide,
    by rw [h5]; decide⟩

/-! ## The claim about HEAD -/

/-- The reply `process_get` builds once the file is open depends on the
connection through the `If-Modified-Since` value only. -/
theorem process_get_opened_congr (env : environment) (c1 c2 : connection)
    (mimetype : List Char) (f : FILE)
    (hims : parse_field c1 "If-Modified-Since: ".toList =
      parse_field c2 "If-Modified-Since: ".toList) :
    (process_get_opened env c1 mimetype f).http_code =
      (process_get_opened env c2 mimetype f).http_code ∧
    (process_get_opened env c1 mimetype f).header =
      (process_get_opened env c2 mimetype f).header ∧
    (process_get_opened env c1 mimetype f).header_length =
      (process_get_opened env c2 mimetype f).header_length := by
  have h1 : ∀ (c : connection) (b : reply_kind) (n : Nat) (d : Option (List Char)),
      parse_field { c with reply_type := b, reply_length := n, lastmod := d }
        "If-Modified-Since: ".toList = parse_field c "If-Modified-Since: ".toList :=
    fun _ _ _ _ => rfl
  unfold process_get_opened
  cases env.fstat f with
  | error e => exact ⟨rfl, rfl, rfl⟩
  | ok filestat =>
    dsimp only
    rw [h1 c1, h1 c2, hims]
    split
    · exact ⟨rfl, rfl, rfl⟩
    · exact ⟨rfl, rfl, rfl⟩

/-- The reply `process_get` builds depends on the connection through the
request target and the `If-Modified-Since` value only. -/
theorem process_get_congr (env : environment) (c1 c2 : connection)
    (hu : c1.uri = c2.uri)
    (hims : parse_field c1 "If-Modified-Since: ".toList =
      parse_field c2 "If-Modified-Since: ".toList) :
    (process_get env c1).conn.http_code = (process_get env c2).conn.http_code ∧
    (process_get env c1).conn.header = (process_get env c2).conn.header ∧
    (process_get env c1).conn.header_length = (process_get env c2).conn.header_length := by
  unfold process_get
  dsimp only
  rw [hu]
  cases make_safe_uri (urldecode (c2.uri.getD []) ++ NUL :: env.behind_decoded_url) with
  | none => exact ⟨rfl, rfl, rfl⟩
  | some safe_url =>
    dsimp only
    unfold process_get_target
    cases env.fopen (get_target env safe_url) with
    | ENOENT => exact ⟨rfl, rfl, rfl⟩
    | failed e => exact ⟨rfl, rfl, rfl⟩
    | opened f =>
      dsimp only
      exact process_get_opened_congr env _ _ _ f hims

theorem spec_field_value_skip (x c : Char) (l f : List Char) (h : x ≠ c) :
    spec_field_value (c :: l) (x :: f) = spec_field_value l (x :: f) := by
  have h2 : (x :: f).isPrefixOf (c :: l) = false := by
    simp [List.isPrefixOf, h]
  rw [spec_field_value, h2]
  rfl

/-- A literal that starts with `I` is looked for behind the method. -/
theorem spec_field_value_behind_method (rest : List Char) :
    spec_field_value ("GET ".toList ++ rest) "If-Modified-Since: ".toList =
      spec_field_value rest "If-Modified-Since: ".toList ∧
    spec_field_value ("HEAD ".toList ++ rest) "If-Modified-Since: ".toList =
      spec_field_value rest "If-Modified-Since: ".toList := by
  constructor
  · show spec_field_value ('G' :: 'E' :: 'T' :: ' ' :: rest)
      ('I' :: "f-Modified-Since: ".toList) = spec_field_value rest
      ('I' :: "f-Modified-Since: ".toList)
    rw [spec_field_value_skip _ _ _ _ (by decide), spec_field_value_skip _ _ _ _ (by decide),
      spec_field_value_skip _ _ _ _ (by decide), spec_field_value_skip _ _ _ _ (by decide)]
  · show spec_field_value ('H' :: 'E' :: 'A' :: 'D' :: ' ' :: rest)
      ('I' :: "f-Modified-Since: ".toList) = spec_field_value rest
      ('I' :: "f-Modified-Since: ".toList)
    rw [spec_field_value_skip _ _ _ _ (by decide), spec_field_value_skip _ _ _ _ (by decide),
      spec_field_value_skip _ _ _ _ (by decide), spec_field_value_skip _ _ _ _ (by decide),
      spec_field_value_skip _ _ _ _ (by decide)]

theorem spec_parse_behind_method (rest : List Char) :
    spec_method ("GET ".toList ++ rest) = "GET".toList ∧
    spec_method ("HEAD ".toList ++ rest) = "HEAD".toList ∧
    spec_uri ("GET ".toList ++ rest) = spec_uri ("HEAD ".toList ++ rest) := by
  refine ⟨?_, ?_, ?_⟩
  · show spec_method ('G' :: 'E' :: 'T' :: ' ' :: rest) = _
    simp [spec_method, List.takeWhile]
    decide
  · show spec_method ('H' :: 'E' :: 'A' :: 'D' :: ' ' :: rest) = _
    simp [spec_method, List.takeWhile]
    decide
  · show spec_uri ('G' :: 'E' :: 'T' :: ' ' :: rest) =
      spec_uri ('H' :: 'E' :: 'A' :: 'D' :: ' ' :: rest)
    simp [spec_uri, List.dropWhile]

/-- A header-only connection never enters `SEND_REPLY`: `poll_send_header`
leaves it in `SEND_HEADER`, still header-only, or moves it to `DONE`, and it
moves it to `DONE` when the header cursor reaches the header length. -/
theorem poll_send_header_header_only (conn : connection) (now : Nat) (sent : Int)
    (c : connection) (honly : conn.header_only = 1)
    (hstate : conn.state = conn_state.SEND_HEADER)
    (h : poll_send_header conn now sent = Except.ok c) :
    ((c.state = conn_state.SEND_HEADER ∧ c.header_only = 1) ∨ c.state = conn_state.DONE) ∧
    (1 ≤ sent → c.header_sent = c.header_length → c.state = conn_state.DONE) := by
  unfold poll_send_header at h
  cases hh : conn.header with
  | none => rw [hh] at h; exact absurd h (by simp)
  | some header =>
    rw [hh] at h
    dsimp only at h
    split at h
    · exact absurd h (by simp)
    · split at h
      · rename_i hs
        have := Except.ok.inj h
        subst this
        exact ⟨Or.inr rfl, fun h1 => absurd hs (by omega)⟩
      · split at h
        · have := Except.ok.inj h
          subst this
          simp [honly]
        · rename_i hne
          have := Except.ok.inj h
          subst this
          exact ⟨Or.inl ⟨hstate, honly⟩, fun _ h2 => absurd h2 hne⟩

/-- C15: for every request text `rest` behind the method (target, header
lines), file system and clock, `process_request` on `HEAD rest` leaves the
same status code and the same header block as on `GET rest`, with
`header_only` set; and a header-only connection is never moved to
`SEND_REPLY`: once its header is fully sent it goes from `SEND_HEADER` to
`DONE`. -/
theorem head_like_get (env : environment) (conn : connection) (rest : List Char)
    (hnul : NUL ∉ rest) :
    ∃ g h,
      process_request env { conn with
        request := some ("GET ".toList ++ rest),
        request_length := ("GET ".toList ++ rest).length } = Except.ok g ∧
      process_request env { conn with
        request := some ("HEAD ".toList ++ rest),
        request_length := ("HEAD ".toList ++ rest).length } = Except.ok h ∧
      h.http_code = g.http_code ∧ h.header = g.header ∧
      h.header_length = g.header_length ∧
      h.header_only = 1 ∧ h.state = conn_state.SEND_HEADER ∧
      (∀ (c c2 : connection) (now : Nat) (sent : Int), c.header_only = 1 →
        c.state = conn_state.SEND_HEADER → poll_send_header c now sent = Except.ok c2 →
        ((c2.state = conn_state.SEND_HEADER ∧ c2.header_only = 1) ∨
          c2.state = conn_state.DONE) ∧
        (1 ≤ sent → c2.header_sent = c2.header_length → c2.state = conn_state.DONE)) := by
  have hnG : NUL ∉ "GET ".toList ++ rest := by
    intro h
    rcases List.mem_append.1 h with h | h
    · exact absurd h (by decide)
    · exact hnul h
  have hnH : NUL ∉ "HEAD ".toList ++ rest := by
    intro h
    rcases List.mem_append.1 h with h | h
    · exact absurd h (by decide)
    · exact hnul h
  obtain ⟨hmG, hmH, huri⟩ := spec_parse_behind_method rest
  obtain ⟨hfG, hfH⟩ := spec_field_value_behind_method rest
  have hpG := parse_request_value { conn with
    request := some ("GET ".toList ++ rest),
    request_length := ("GET ".toList ++ rest).length } _ rfl rfl hnG
  have hpH := parse_request_value { conn with
    request := some ("HEAD ".toList ++ rest),
    request_length := ("HEAD ".toList ++ rest).length } _ rfl rfl hnH
  rw [hmG] at hpG
  rw [hmH] at hpH
  unfold process_request
  rw [hpG, hpH]
  dsimp only
  refine ⟨_, _, rfl, rfl, ?_, ?_, ?_, ?_, rfl,
    fun c c2 now sent h1 h2 h3 => poll_send_header_header_only c now sent c2 h1 h2 h3⟩
  all_goals
    have hc := process_get_congr env
      { conn with
        request := some ("HEAD ".toList ++ rest),
        request_length := ("HEAD ".toList ++ rest).length,
        method := some "HEAD".toList,
        uri := some (spec_uri ("HEAD ".toList ++ rest)),
        referer := spec_field_value ("HEAD ".toList ++ rest) "Referer: ".toList,
        user_agent := spec_field_value ("HEAD ".toList ++ rest) "User-Agent: ".toList }
      { conn with
        request := some ("GET ".toList ++ rest),
        request_length := ("GET ".toList ++ rest).length,
        method := some "GET".toList,
        uri := some (spec_uri ("GET ".toList ++ rest)),
        referer := spec_field_value ("GET ".toList ++ rest) "Referer: ".toList,
        user_agent := spec_field_value ("GET ".toList ++ rest) "User-Agent: ".toList }
      (by rw [huri])
      (by
        rw [parse_field_eq _ ("HEAD ".toList ++ rest) _ rfl rfl hnH (by decide),
          parse_field_eq _ ("GET ".toList ++ rest) _ rfl rfl hnG (by decide), hfG, hfH])
    have hne : ¬ ("HEAD".toList = "GET".toList) := by decide
    simp only [dispatch_method, Option.getD_some, if_neg hne, if_true]
  · exact hc.1
  · exact hc.2.1
  · exact hc.2.2

/-- C15 in the sample environment for the request text `/ HTTP/1.1`: `GET`
gets status 200, `HEAD` gets the same status and header, with `header_only`
set. -/
theorem head_like_get_witness :
    NUL ∉ "/ HTTP/1.1\r\n\r\n".toList ∧
    ∃ g h,
      process_request scenario_env { connection_with_request [] with
        request := some ("GET ".toList ++ "/ HTTP/1.1\r\n\r\n".toList),
        request_length := ("GET ".toList ++ "/ HTTP/1.1\r\n\r\n".toList).length } =
          Except.ok g ∧
      process_request scenario_env { connection_with_request [] with
        request := some ("HEAD ".toList ++ "/ HTTP/1.1\r\n\r\n".toList),
        request_length := ("HEAD ".toList ++ "/ HTTP/1.1\r\n\r\n".toList).length } =
          Except.ok h ∧
      g.http_code = 200 ∧ h.http_code = 200 ∧ h.header = g.header ∧ h.header_only = 1 := by
  refine ⟨by decide, ?_⟩
  obtain ⟨g, h, hg, hh, h1, h2, -, h3, -, -⟩ := head_like_get scenario_env
    (connection_with_request []) "/ HTTP/1.1\r\n\r\n".toList (by decide)
  have h200 : (match process_request scenario_env { connection_with_request [] with
        request := some ("GET ".toList ++ "/ HTTP/1.1\r\n\r\n".toList),
        request_length := ("GET ".toList ++ "/ HTTP/1.1\r\n\r\n".toList).length } with
      | Except.ok c => c.http_code
      | Except.error _ => 0) = 200 := by decide
  rw [hg] at h200
  have hg200 : g.http_code = 200 := h200
  exact ⟨g, h, hg, hh, hg200, by rw [h1, hg200], h2, h3⟩

/-! ## The claim about Content-Length -/

/-- The connection `process_get` leaves for a 200 reply. -/
theorem process_get_ok_value (env : environment) (conn : connection)
    (u p : List Char) (f : FILE) (filestat : file_stat)
    (hu : conn.uri = some u)
    (hacc : make_safe_uri (urldecode u ++ NUL :: env.behind_decoded_url) = some p)
    (hopen : env.fopen (get_target env p) = fopen_result.opened f)
    (hstat : env.fstat f = Except.ok filestat)
    (hims : parse_field conn "If-Modified-Since: ".toList ≠
      some (cstr (env.rfc1123_date filestat.st_mtime))) :
    (process_get env conn).conn =
      { conn with
        reply_file := some f,
        reply_type := reply_kind.REPLY_FROMFILE,
        reply_length := filestat.st_size % 2 ^ 32,
        lastmod := some (cstr (env.rfc1123_date filestat.st_mtime)),
        header := some (ok_header (env.rfc1123_date env.time) (filestat.st_size % 2 ^ 32)
          (get_mimetype env p) (cstr (env.rfc1123_date filestat.st_mtime))),
        header_length := (ok_header (env.rfc1123_date env.time) (filestat.st_size % 2 ^ 32)
          (get_mimetype env p) (cstr (env.rfc1123_date filestat.st_mtime))).length % 2 ^ 32,
        http_code := 200 } := by
  have hc : (process_get env conn).conn =
      process_get_opened env { conn with reply_file := some f } (get_mimetype env p) f := by
    unfold process_get process_get_target
    simp only [hu, Option.getD_some, hacc, hopen]
  have hpf : ∀ (a : Option FILE) (b : reply_kind) (c : Nat) (d : Option (List Char)),
      parse_field { conn with reply_file := a, reply_type := b, reply_length := c, lastmod := d }
        "If-Modified-Since: ".toList = parse_field conn "If-Modified-Since: ".toList :=
    fun _ _ _ _ => rfl
  rw [hc]
  unfold process_get_opened
  rw [hstat]
  simp only [hpf]
  rw [if_neg hims]

theorem fmt_d_as_int (n : Nat) (h : n < 2 ^ 31) : fmt_d (as_int n) = Nat.toDigits 10 n := by
  have h1 : n % 2 ^ 32 = n := Nat.mod_eq_of_lt (by omega)
  unfold as_int
  rw [h1, if_pos h]
  unfold fmt_d
  rw [if_neg (by omega)]
  rfl

/-- C16 (as stated, fails): for a file of 2^32 bytes the 200 reply has
`reply_length` 0 and the field `Content-Length: 0`; for a file of 2^31 bytes
it has the field `Content-Length: -2147483648`. -/
theorem process_get_large_file :
    (process_get (scenario_env_size (2 ^ 32))
      (get_connection [] "/".toList)).conn.http_code = 200 ∧
    (process_get (scenario_env_size (2 ^ 32))
      (get_connection [] "/".toList)).conn.reply_length = 0 ∧
    (process_get (scenario_env_size (2 ^ 32))
      (get_connection [] "/".toList)).conn.header =
      some ("HTTP/1.1 200 OK\r\nDate: Fri, 28 Feb 2003 00:02:08 GMT\r\n".toList ++
        "Server: darkhttpd/0.1\r\nConnection: close\r\nContent-Length: 0\r\n".toList ++
        "Content-Type: text/html\r\n".toList ++
        "Last-Modified: Fri, 28 Feb 2003 00:02:08 GMT\r\n\r\n".toList) ∧
    (process_get (scenario_env_size (2 ^ 31))
      (get_connection [] "/".toList)).conn.header =
      some ("HTTP/1.1 200 OK\r\nDate: Fri, 28 Feb 2003 00:02:08 GMT\r\n".toList ++
        "Server: darkhttpd/0.1\r\nConnection: close\r\n".toList ++
        "Content-Length: -2147483648\r\n".toList ++
        "Content-Type: text/html\r\n".toList ++
        "Last-Modified: Fri, 28 Feb 2003 00:02:08 GMT\r\n\r\n".toList) :=
  ⟨by decide, by decide, by rfl, by rfl⟩

/-- C16 (amended): for every file of size `n` that `process_get` opens for a
200 reply, `reply_length` is `n` modulo 2^32, the field being a 32-bit
unsigned integer, hence `n` when `n < 2^32`; and when `n < 2^31` the
`Content-Length` field of the header is the decimal representation of `n`. -/
theorem process_get_content_length (env : environment) (conn : connection)
    (u p : List Char) (f : FILE) (filestat : file_stat)
    (hu : conn.uri = some u)
    (hacc : make_safe_uri (urldecode u ++ NUL :: env.behind_decoded_url) = some p)
    (hopen : env.fopen (get_target env p) = fopen_result.opened f)
    (hstat : env.fstat f = Except.ok filestat)
    (hims : parse_field conn "If-Modified-Since: ".toList ≠
      some (cstr (env.rfc1123_date filestat.st_mtime))) :
    (process_get env conn).conn.http_code = 200 ∧
    (process_get env conn).conn.reply_type = reply_kind.REPLY_FROMFILE ∧
    (process_get env conn).conn.reply_length = filestat.st_size % 2 ^ 32 ∧
    (filestat.st_size < 2 ^ 32 →
      (process_get env conn).conn.reply_length = filestat.st_size) ∧
    (filestat.st_size < 2 ^ 31 →
      (process_get env conn).conn.header = some (
        "HTTP/1.1 200 OK\r\nDate: ".toList ++ cstr (env.rfc1123_date env.time) ++
        "\r\nServer: darkhttpd/0.1\r\nConnection: close\r\n".toList ++
        "Content-Length: ".toList ++ Nat.toDigits 10 filestat.st_size ++ "\r\n".toList ++
        "Content-Type: ".toList ++ cstr (get_mimetype env p) ++
        "\r\nLast-Modified: ".toList ++ cstr (env.rfc1123_date filestat.st_mtime) ++
        "\r\n\r\n".toList)) := by
  rw [process_get_ok_value env conn u p f filestat hu hacc hopen hstat hims]
  refine ⟨rfl, rfl, rfl, fun h => Nat.mod_eq_of_lt h, fun h => ?_⟩
  have h1 : filestat.st_size % 2 ^ 32 = filestat.st_size := Nat.mod_eq_of_lt (by omega)
  show some (ok_header _ (filestat.st_size % 2 ^ 32) _ _) = _
  rw [h1]
  unfold ok_header
  rw [fmt_d_as_int _ h, cstr_idem]
  simp [pkgname, List.append_assoc]

/-- C16 (amended) in the sample environment: `GET /` of the 3-byte file gives
`reply_length` 3 and the field `Content-Length: 3`. -/
theorem process_get_content_length_witness :
    (process_get scenario_env (get_connection [] "/".toList)).conn.reply_length = 3 ∧
    (process_get scenario_env (get_connection [] "/".toList)).conn.header =
      some ("HTTP/1.1 200 OK\r\nDate: ".toList ++ scenario_date ++
        "\r\nServer: darkhttpd/0.1\r\nConnection: close\r\n".toList ++
        "Content-Length: ".toList ++ "3".toList ++ "\r\n".toList ++
        "Content-Type: ".toList ++ "text/html".toList ++
        "\r\nLast-Modified: ".toList ++ scenario_date ++ "\r\n\r\n".toList) :=
  ⟨(process_get_content_length scenario_env (get_connection [] "/".toList) "/".toList
      "/".toList 3 ⟨3, 1046390528⟩ rfl (by decide) (by decide) (by decide) (by decide)).2.2.2.1
      (by decide),
    (process_get_content_length scenario_env (get_connection [] "/".toList) "/".toList
      "/".toList 3 ⟨3, 1046390528⟩ rfl (by decide) (by decide) (by decide) (by decide)).2.2.2.2
      (by decide)⟩

/-! ## The invariant of the connection states -/

theorem reply_built_congr (conn conn2 c : connection)
    (h1 : conn2.header_sent = conn.header_sent) (h2 : conn2.reply_sent = conn.reply_sent)
    (h3 : conn2.reply = conn.reply) (h : reply_built conn2 c) : reply_built conn c :=
  ⟨h.header_sent_eq.trans h1, h.reply_sent_eq.trans h2, h.header_fits, h.reply_fits,
    h.generated, fun ht => ⟨(h.fromfile ht).1, (h.fromfile ht).2.trans h3⟩⟩

theorem default_reply_built (env : environment) (conn : connection) (errcode : Int)
    (errname reason : List Char) :
    reply_built conn (default_reply env conn errcode errname reason) :=
  ⟨rfl, rfl, Nat.mod_lt _ (by norm_num), Nat.mod_lt _ (by norm_num),
    fun _ => by simp [default_reply], fun h => by simp [default_reply] at h⟩

theorem process_get_opened_built (env : environment) (conn : connection)
    (mimetype : List Char) (f : FILE) (hf : conn.reply_file ≠ none) :
    reply_built conn (process_get_opened env conn mimetype f) := by
  unfold process_get_opened
  cases env.fstat f with
  | error e => exact default_reply_built env conn _ _ _
  | ok filestat =>
    dsimp only
    split
    · exact ⟨rfl, rfl, Nat.mod_lt _ (by norm_num), Nat.mod_lt _ (by norm_num),
        fun _ => by simp [default_reply], fun h => by simp [default_reply] at h⟩
    · exact ⟨rfl, rfl, Nat.mod_lt _ (by norm_num), Nat.mod_lt _ (by norm_num),
        fun h => by simp at h, fun _ => ⟨hf, rfl⟩⟩

theorem process_get_target_built (env : environment) (conn : connection)
    (uri target mimetype : List Char) :
    reply_built conn (process_get_target env conn uri target mimetype) := by
  unfold process_get_target
  cases env.fopen target with
  | ENOENT =>
    exact reply_built_congr conn { conn with reply_file := none } _ rfl rfl rfl
      (default_reply_built env _ _ _ _)
  | failed e =>
    exact reply_built_congr conn { conn with reply_file := none } _ rfl rfl rfl
      (default_reply_built env _ _ _ _)
  | opened f =>
    exact reply_built_congr conn { conn with reply_file := some f } _ rfl rfl rfl
      (process_get_opened_built env _ mimetype f (by simp))

theorem process_get_built (env : environment) (conn : connection) :
    reply_built conn (process_get env conn).conn := by
  unfold process_get
  dsimp only
  cases make_safe_uri (urldecode (conn.uri.getD []) ++ NUL :: env.behind_decoded_url) with
  | none => exact default_reply_built env conn _ _ _
  | some safe_url => exact process_get_target_built env conn _ _ _

theorem dispatch_method_built (env : environment) (conn : connection) :
    reply_built conn (dispatch_method env conn) := by
  have hg := process_get_built env conn
  unfold dispatch_method
  dsimp only
  split
  · exact hg
  · split
    · exact ⟨hg.header_sent_eq, hg.reply_sent_eq, hg.header_fits, hg.reply_fits,
        hg.generated, hg.fromfile⟩
    · split
      · exact default_reply_built env conn _ _ _
      · exact default_reply_built env conn _ _ _

theorem parse_request_cursors (conn c : connection)
    (h : parse_request conn = Except.ok c) :
    c.header_sent = conn.header_sent ∧ c.reply_sent = conn.reply_sent ∧
    c.reply = conn.reply := by
  unfold parse_request at h
  cases hr : conn.request with
  | none => simp [hr] at h
  | some request =>
    simp only [hr] at h
    split at h
    · simp at h
    · simp only [Except.ok.injEq] at h
      subst h
      exact ⟨rfl, rfl, rfl⟩

theorem process_request_built (env : environment) (conn c : connection)
    (h : process_request env conn = Except.ok c) :
    reply_built conn c ∧ c.state = conn_state.SEND_HEADER := by
  unfold process_request at h
  cases hp : parse_request conn with
  | error e => simp [hp] at h
  | ok c2 =>
    simp only [hp, Except.ok.injEq] at h
    subst h
    have hc := parse_request_cursors conn c2 hp
    have hd := reply_built_congr conn c2 _ hc.1 hc.2.1 hc.2.2 (dispatch_method_built env c2)
    exact ⟨⟨hd.header_sent_eq, hd.reply_sent_eq, hd.header_fits, hd.reply_fits,
      hd.generated, hd.fromfile⟩, rfl⟩

/-- The two stages of a `poll_recv_request` call that stored bytes: the
request is processed or left as it is, and the result is kept or replaced by
the 413 reply. -/
theorem poll_recv_request_cases (env : environment) (conn c : connection) (b : Char)
    (buf : List Char) (h : poll_recv_request env conn (some (b :: buf)) = Except.ok c) :
    ∃ conn1 c1 : connection,
      conn1.header_sent = conn.header_sent ∧ conn1.reply_sent = conn.reply_sent ∧
      conn1.header_length = conn.header_length ∧ conn1.reply_length = conn.reply_length ∧
      conn1.reply = conn.reply ∧ conn1.state = conn.state ∧
      (c1 = conn1 ∨ process_request env conn1 = Except.ok c1) ∧
      (c = c1 ∨ c = { default_reply env c1 413 "Request Entity Too Large".toList
          "Your request was dropped because it was too long.".toList with
        state := conn_state.SEND_HEADER }) := by
  unfold poll_recv_request at h
  dsimp only at h
  split at h
  · simp at h
  · rename_i c1 hc1
    refine ⟨{ conn with
      last_active := env.time,
      request := some ((conn.request.getD []).take conn.request_length ++ b :: buf),
      request_length := (conn.request_length + (b :: buf).length) % 2 ^ 32 },
      c1, rfl, rfl, rfl, rfl, rfl, rfl, ?_, ?_⟩
    · split at hc1
      · exact Or.inr hc1
      · exact Or.inl (Except.ok.inj hc1).symm
    · split at h
      · exact Or.inr (Except.ok.inj h).symm
      · exact Or.inl (Except.ok.inj h).symm

theorem recv_inv (env : environment) (conn c : connection) (recv : Option (List Char))
    (hi : conn_inv conn) (hs : conn.state = conn_state.RECV_REQUEST)
    (h : poll_recv_request env conn recv = Except.ok c) :
    conn_inv c ∧ c.header_sent = conn.header_sent ∧ c.reply_sent = conn.reply_sent := by
  have h0 := hi.receiving hs
  cases recv with
  | none => simp [poll_recv_request] at h
  | some l =>
    cases l with
    | nil =>
      simp only [poll_recv_request, Except.ok.injEq] at h
      subst h
      exact ⟨⟨hi.header_le, hi.reply_le, hi.header_fits, hi.reply_fits,
        fun x => by simp at x, fun x => by simp at x, fun x => by simp at x⟩, rfl, rfl⟩
    | cons b buf =>
      obtain ⟨conn1, c1, e1, e2, e3, e4, e5, e6, hp, hc⟩ :=
        poll_recv_request_cases env conn c b buf h
      have key : c1.header_sent = 0 ∧ c1.reply_sent = 0 ∧ c1.header_length < 2 ^ 32 ∧
          c1.reply_length < 2 ^ 32 ∧
          ((c1.state = conn_state.RECV_REQUEST ∧ c1.reply = none) ∨
            (c1.state = conn_state.SEND_HEADER ∧
              (c1.reply_type = reply_kind.REPLY_GENERATED → c1.reply ≠ none) ∧
              (c1.reply_type = reply_kind.REPLY_FROMFILE →
                c1.reply_file ≠ none ∧ c1.reply = none))) := by
        rcases hp with hp | hp
        · subst hp
          exact ⟨e1.trans h0.1, e2.trans h0.2.1, e3 ▸ hi.header_fits, e4 ▸ hi.reply_fits,
            Or.inl ⟨e6.trans hs, e5.trans h0.2.2⟩⟩
        · have hb := process_request_built env conn1 c1 hp
          exact ⟨(hb.1.header_sent_eq.trans e1).trans h0.1,
            (hb.1.reply_sent_eq.trans e2).trans h0.2.1, hb.1.header_fits, hb.1.reply_fits,
            Or.inr ⟨hb.2, hb.1.generated, fun ht =>
              ⟨(hb.1.fromfile ht).1, ((hb.1.fromfile ht).2.trans e5).trans h0.2.2⟩⟩⟩
      obtain ⟨k1, k2, k3, k4, k5⟩ := key
      rcases hc with hc | hc
      · subst hc
        refine ⟨⟨by omega, by omega, k3, k4, ?_, fun _ => k2, ?_⟩, k1.trans h0.1.symm,
          k2.trans h0.2.1.symm⟩
        · intro hr
          rcases k5 with k5 | k5
          · exact ⟨k1, k2, k5.2⟩
          · rw [k5.1] at hr
            exact absurd hr (by decide)
        · intro hr
          rcases k5 with k5 | k5
          · rw [k5.1] at hr
            exact absurd hr (by decide)
          · exact k5.2
      · subst hc
        have hb := default_reply_built env c1 413 "Request Entity Too Large".toList
          "Your request was dropped because it was too long.".toList
        have f1 := hb.header_sent_eq.trans k1
        have f2 := hb.reply_sent_eq.trans k2
        refine ⟨⟨?_, ?_, hb.header_fits, hb.reply_fits, fun x => by simp at x, fun _ => f2,
          fun _ => ⟨hb.generated, fun ht => by simp [default_reply] at ht⟩⟩,
          f1.trans h0.1.symm, f2.trans h0.2.1.symm⟩
        · exact le_of_eq_of_le f1 (Nat.zero_le _)
        · exact le_of_eq_of_le f2 (Nat.zero_le _)

/-- A cursor that `send()` advances by at most the length it was passed stays
within the length and does not wrap. -/
theorem cursor_advance (l s : Nat) (sent : Int) (h1 : s ≤ l) (h2 : l < 2 ^ 32)
    (h3 : sent ≤ (((l + 2 ^ 32 - s % 2 ^ 32) % 2 ^ 32 : Nat) : Int)) (h4 : ¬ sent < 1) :
    (s + sent.toNat) % 2 ^ 32 = s + sent.toNat ∧ s + sent.toNat ≤ l ∧ 0 < sent.toNat := by
  have e : (l + 2 ^ 32 - s % 2 ^ 32) % 2 ^ 32 = l - s := by omega
  rw [e] at h3
  omega

theorem reply_amount_le (conn : connection) :
    reply_amount conn ≤ (conn.reply_length + 2 ^ 32 - conn.reply_sent % 2 ^ 32) % 2 ^ 32 := by
  unfold reply_amount
  cases conn.reply_type with
  | REPLY_GENERATED => exact Nat.le_refl _
  | REPLY_FROMFILE => exact Nat.min_le_right _ _

theorem send_header_inv (conn c : connection) (now : Nat) (sent : Int)
    (hi : conn_inv conn) (hs : conn.state = conn_state.SEND_HEADER)
    (hsent : sent ≤ (header_amount conn : Int))
    (h : poll_send_header conn now sent = Except.ok c) :
    conn_inv c ∧ conn.header_sent ≤ c.header_sent ∧ c.reply_sent = conn.reply_sent := by
  have hsend := hi.sending (Or.inl hs)
  unfold poll_send_header at h
  cases hh : conn.header with
  | none => simp [hh] at h
  | some header =>
    simp only [hh] at h
    split at h
    · simp at h
    · split at h
      · simp only [Except.ok.injEq] at h
        subst h
        exact ⟨⟨hi.header_le, hi.reply_le, hi.header_fits, hi.reply_fits,
          fun x => by simp at x, fun x => by simp at x, fun x => by simp at x⟩,
          Nat.le_refl _, rfl⟩
      · rename_i hpos
        have ha := cursor_advance conn.header_length conn.header_sent sent hi.header_le
          hi.header_fits hsent hpos
        split at h
        · simp only [Except.ok.injEq] at h
          subst h
          refine ⟨⟨?_, hi.reply_le, hi.header_fits, hi.reply_fits, ?_, ?_, ?_⟩, ?_, rfl⟩
          · show (conn.header_sent + sent.toNat) % 2 ^ 32 ≤ conn.header_length
            omega
          · intro x
            exfalso
            revert x
            show (if conn.header_only ≠ 0 then conn_state.DONE else conn_state.SEND_REPLY) ≠
              conn_state.RECV_REQUEST
            split <;> decide
          · intro x
            exfalso
            revert x
            show (if conn.header_only ≠ 0 then conn_state.DONE else conn_state.SEND_REPLY) ≠
              conn_state.SEND_HEADER
            split <;> decide
          · intro _
            exact hsend
          · show conn.header_sent ≤ (conn.header_sent + sent.toNat) % 2 ^ 32
            omega
        · simp only [Except.ok.injEq] at h
          subst h
          refine ⟨⟨?_, hi.reply_le, hi.header_fits, hi.reply_fits, ?_, ?_, ?_⟩, ?_, rfl⟩
          · show (conn.header_sent + sent.toNat) % 2 ^ 32 ≤ conn.header_length
            omega
          · intro x
            rw [show _ = conn.state from rfl, hs] at x
            exact absurd x (by decide)
          · intro _
            exact hi.heading hs
          · intro _
            exact hsend
          · show conn.header_sent ≤ (conn.header_sent + sent.toNat) % 2 ^ 32
            omega

theorem after_send_inv (conn : connection) (now : Nat) (sent : Int)
    (hi : conn_inv conn) (hs : conn.state = conn_state.SEND_REPLY)
    (hsent : sent ≤ (reply_amount conn : Int)) :
    conn_inv (after_send conn now sent) ∧
    (after_send conn now sent).header_sent = conn.header_sent ∧
    conn.reply_sent ≤ (after_send conn now sent).reply_sent := by
  have hsend := hi.sending (Or.inr hs)
  have hle : sent ≤ (((conn.reply_length + 2 ^ 32 - conn.reply_sent % 2 ^ 32) % 2 ^ 32 : Nat) :
      Int) := le_trans hsent (Int.ofNat_le.mpr (reply_amount_le conn))
  unfold after_send
  dsimp only
  split
  · exact ⟨⟨hi.header_le, hi.reply_le, hi.header_fits, hi.reply_fits,
      fun x => by simp at x, fun x => by simp at x, fun x => by simp at x⟩, rfl, Nat.le_refl _⟩
  · rename_i hpos
    have ha := cursor_advance conn.reply_length conn.reply_sent sent hi.reply_le
      hi.reply_fits hle hpos
    split
    · refine ⟨⟨hi.header_le, ?_, hi.header_fits, hi.reply_fits, fun x => by simp at x,
        fun x => by simp at x, fun x => by simp at x⟩, rfl, ?_⟩
      · show (conn.reply_sent + sent.toNat) % 2 ^ 32 ≤ conn.reply_length
        omega
      · show conn.reply_sent ≤ (conn.reply_sent + sent.toNat) % 2 ^ 32
        omega
    · refine ⟨⟨hi.header_le, ?_, hi.header_fits, hi.reply_fits, ?_, ?_, ?_⟩, rfl, ?_⟩
      · show (conn.reply_sent + sent.toNat) % 2 ^ 32 ≤ conn.reply_length
        omega
      · intro x
        rw [show _ = conn.state from rfl, hs] at x
        exact absurd x (by decide)
      · intro x
        rw [show _ = conn.state from rfl, hs] at x
        exact absurd x (by decide)
      · intro _
        exact hsend
      · show conn.reply_sent ≤ (conn.reply_sent + sent.toNat) % 2 ^ 32
        omega

theorem poll_send_reply_after (conn c : connection) (now : Nat) (fseek : Int) (fread : Nat)
    (sent : Int) (h : poll_send_reply conn now fseek fread sent = Except.ok c) :
    c = after_send conn now sent := by
  unfold poll_send_reply at h
  split at h
  · split at h
    · simp at h
    · split at h
      · simp at h
      · exact (Except.ok.inj h).symm
  · split at h
    · simp at h
    · split at h
      · simp at h
      · split at h
        · simp at h
        · exact (Except.ok.inj h).symm

theorem poll_check_timeout_inv (conn : connection) (now : Nat) (hi : conn_inv conn) :
    conn_inv (poll_check_timeout conn now) ∧
    (poll_check_timeout conn now).header_sent = conn.header_sent ∧
    (poll_check_timeout conn now).reply_sent = conn.reply_sent := by
  unfold poll_check_timeout
  split
  · exact ⟨⟨hi.header_le, hi.reply_le, hi.header_fits, hi.reply_fits,
      fun x => by simp at x, fun x => by simp at x, fun x => by simp at x⟩, rfl, rfl⟩
  · exact ⟨hi, rfl, rfl⟩

/-- A step of `httpd_poll` keeps the invariant and moves no cursor back. -/
theorem poll_step_inv (conn c : connection) (hi : conn_inv conn) (h : poll_step conn c) :
    conn_inv c ∧ conn.header_sent ≤ c.header_sent ∧ conn.reply_sent ≤ c.reply_sent := by
  cases h with
  | timeout _ now =>
    have := poll_check_timeout_inv conn now hi
    exact ⟨this.1, Nat.le_of_eq this.2.1.symm, Nat.le_of_eq this.2.2.symm⟩
  | recv env _ recv _ hs h =>
    have := recv_inv env conn c recv hi hs h
    exact ⟨this.1, Nat.le_of_eq this.2.1.symm, Nat.le_of_eq this.2.2.symm⟩
  | send_header _ now sent _ hs hsent h =>
    have := send_header_inv conn c now sent hi hs hsent h
    exact ⟨this.1, this.2.1, Nat.le_of_eq this.2.2.symm⟩
  | send_reply _ now fseek fread sent _ hs hsent h =>
    have e := poll_send_reply_after conn c now fseek fread sent h
    subst e
    have := after_send_inv conn now sent hi hs hsent
    exact ⟨this.1, Nat.le_of_eq this.2.1.symm, this.2.2⟩

/-- Every reachable connection satisfies the invariant. -/
theorem reachable_inv (c : connection) (h : reachable c) : conn_inv c := by
  induction h with
  | accept now reply_type socket client conn h =>
    unfold accept_connection at h
    split at h
    · simp at h
    · simp only [Except.ok.injEq] at h
      subst h
      exact ⟨Nat.le_refl _, Nat.le_refl _, by simp [new_connection], by simp [new_connection],
        fun _ => ⟨rfl, rfl, rfl⟩, fun x => by simp at x, fun x => by simp at x⟩
  | step conn next _ hstep ih => exact (poll_step_inv conn next ih hstep).1

/-! ## The claims about the cursors and the reply bodies -/

theorem sample_received_reachable (env : environment) (c : connection)
    (h : poll_recv_request env sample_accepted (some "GET / HTTP/1.1\r\n\r\n".toList) =
      Except.ok c) : reachable c :=
  reachable.step sample_accepted c
    (reachable.accept 1046390528 reply_kind.REPLY_GENERATED 4 2130706433 sample_accepted rfl)
    (poll_step.recv env sample_accepted _ c rfl h)

/-- C17: in every connection state reachable from `accept_connection` by the
steps of `httpd_poll`, where `send()` reports at most the length it was
passed, `header_sent <= header_length` and `reply_sent <= reply_length`, and
no step makes `header_sent` or `reply_sent` smaller. -/
theorem cursors_bounded_monotone (c : connection) (h : reachable c) :
    c.header_sent ≤ c.header_length ∧ c.reply_sent ≤ c.reply_length ∧
    ∀ next : connection, poll_step c next →
      c.header_sent ≤ next.header_sent ∧ c.reply_sent ≤ next.reply_sent ∧
      next.header_sent ≤ next.header_length ∧ next.reply_sent ≤ next.reply_length :=
  ⟨(reachable_inv c h).header_le, (reachable_inv c h).reply_le, fun next hstep =>
    ⟨(poll_step_inv c next (reachable_inv c h) hstep).2.1,
      (poll_step_inv c next (reachable_inv c h) hstep).2.2,
      (poll_step_inv c next (reachable_inv c h) hstep).1.header_le,
      (poll_step_inv c next (reachable_inv c h) hstep).1.reply_le⟩⟩


theorem sample_header_sent_step (env : environment) (c : connection)
    (hs : (sample_received env).state = conn_state.SEND_HEADER)
    (h0 : (sample_received env).header_sent = 0)
    (hfit : (sample_received env).header_length < 2 ^ 32)
    (h : poll_send_header (sample_received env) 1046390528
      (sample_received env).header_length = Except.ok c) :
    poll_step (sample_received env) c :=
  poll_step.send_header _ 1046390528 (sample_received env).header_length c hs
    (by
      unfold header_amount
      rw [h0]
      omega)
    h

/-- C17 in the sample environment: the connection that has received
`GET / HTTP/1.1` is reachable and has sent 0 of its 188 header bytes, and the
step in which `send()` takes them all leaves `header_sent` at 188. -/
theorem cursors_bounded_monotone_witness :
    reachable (sample_received scenario_env) ∧
    (sample_received scenario_env).header_sent = 0 ∧
    (sample_received scenario_env).header_length = 188 ∧
    (sample_received scenario_env).reply_length = 3 ∧
    poll_step (sample_received scenario_env) (sample_header_sent scenario_env) ∧
    (sample_header_sent scenario_env).header_sent = 188 ∧
    (sample_received scenario_env).header_sent ≤ (sample_received scenario_env).header_length ∧
    (sample_received scenario_env).header_sent ≤
      (sample_header_sent scenario_env).header_sent := by
  set_option maxRecDepth 8192 in
  exact ⟨sample_received_reachable scenario_env _ rfl, rfl, rfl, rfl,
    sample_header_sent_step scenario_env _ rfl rfl (by decide) rfl,
    rfl,
    (cursors_bounded_monotone (sample_received scenario_env)
      (sample_received_reachable scenario_env _ rfl)).1,
    ((cursors_bounded_monotone (sample_received scenario_env)
      (sample_received_reachable scenario_env _ rfl)).2.2 (sample_header_sent scenario_env)
      (sample_header_sent_step scenario_env _ rfl rfl (by decide) rfl)).1⟩

/-- C18 (as stated, fails): after `GET / HTTP/1.1` for a file that `fopen`
opens and `fstat` fails on, the connection reaches `SEND_REPLY` with both the
generated 500 body in `reply` and the open handle in `reply_file`. -/
theorem send_reply_both_populated :
    reachable (sample_header_sent scenario_env_fstat_fails) ∧
    (sample_header_sent scenario_env_fstat_fails).state = conn_state.SEND_REPLY ∧
    (sample_header_sent scenario_env_fstat_fails).http_code = 500 ∧
    (sample_header_sent scenario_env_fstat_fails).reply ≠ none ∧
    (sample_header_sent scenario_env_fstat_fails).reply_file = some 3 := by
  set_option maxRecDepth 8192 in
  exact ⟨reachable.step _ _ (sample_received_reachable scenario_env_fstat_fails _ rfl)
      (sample_header_sent_step scenario_env_fstat_fails _ rfl rfl (by decide) rfl),
    rfl, rfl, by decide, rfl⟩

/-- C18 (amended): in every reachable connection state with
`state = SEND_REPLY` the body that `reply_type` names is populated: for
`REPLY_GENERATED` the buffer `reply`, for `REPLY_FROMFILE` the handle
`reply_file`, and then `reply` is not. -/
theorem send_reply_body_populated (c : connection) (h : reachable c)
    (hs : c.state = conn_state.SEND_REPLY) :
    (c.reply_type = reply_kind.REPLY_GENERATED → c.reply ≠ none) ∧
    (c.reply_type = reply_kind.REPLY_FROMFILE → c.reply_file ≠ none ∧ c.reply = none) :=
  (reachable_inv c h).sending (Or.inr hs)

/-- C18 (amended) in the sample environment: after `GET / HTTP/1.1` and the
whole header the connection sends the file, with `reply_file` populated and
`reply` not. -/
theorem send_reply_body_populated_witness :
    reachable (sample_header_sent scenario_env) ∧
    (sample_header_sent scenario_env).state = conn_state.SEND_REPLY ∧
    (sample_header_sent scenario_env).reply_type = reply_kind.REPLY_FROMFILE ∧
    (sample_header_sent scenario_env).reply_file ≠ none ∧
    (sample_header_sent scenario_env).reply = none := by
  set_option maxRecDepth 8192 in
  exact ⟨reachable.step _ _ (sample_received_reachable scenario_env _ rfl)
      (sample_header_sent_step scenario_env _ rfl rfl (by decide) rfl),
    rfl, rfl,
    (send_reply_body_populated (sample_header_sent scenario_env)
      (reachable.step _ _ (sample_received_reachable scenario_env _ rfl)
        (sample_header_sent_step scenario_env _ rfl rfl (by decide) rfl)) rfl).2 rfl⟩

/-! ## The claim about the order of the bytes sent -/

theorem take_cstr (m : List Char) (n : Nat) (h : n ≤ strlen m) :
    m.take n = (cstr m).take n := by
  induction m generalizing n with
  | nil => simp [cstr]
  | cons c m ih =>
    cases n with
    | zero => rfl
    | succ n =>
      by_cases hc : c = NUL
      · subst hc
        simp [strlen, cstr] at h
      · rw [cstr_cons_ne c m hc, List.take_succ_cons, List.take_succ_cons]
        have h2 : n ≤ strlen m := by
          unfold strlen at h ⊢
          rw [cstr_cons_ne c m hc] at h
          simpa using h
        rw [ih n h2]

/-- The bytes of a string behind the first `k`, added to them. -/
theorem prefix_advance (m : List Char) (k n : Nat) (h : k + n ≤ strlen m) :
    (cstr m).take k ++ (m.drop k).take n = (cstr m).take (k + n) := by
  rw [← take_cstr m k (by omega), ← take_cstr m (k + n) h, List.take_add]

theorem take_take_of_le (l : List Char) (n a : Nat) (h : n ≤ a) :
    (l.take a).take n = l.take n := by
  rw [List.take_take, Nat.min_eq_left h]

/-- What a returning `poll_send_header` call has found and done. -/
theorem poll_send_header_cases (conn next : connection) (now : Nat) (sent : Int)
    (h : poll_send_header conn now sent = Except.ok next) :
    ∃ hdr, conn.header = some hdr ∧ conn.header_length = strlen hdr ∧
      next.header_length = conn.header_length ∧ next.reply_length = conn.reply_length ∧
      next.reply_type = conn.reply_type ∧ next.reply = conn.reply ∧
      next.reply_sent = conn.reply_sent ∧
      ((sent < 1 ∧ next.header_sent = conn.header_sent ∧ next.state = conn_state.DONE) ∨
        (¬ sent < 1 ∧ next.header_sent = (conn.header_sent + sent.toNat) % 2 ^ 32 ∧
          ((next.state = conn.state ∧ next.header = conn.header) ∨
            (next.header_sent = next.header_length ∧
              next.state ≠ conn_state.SEND_HEADER)))) := by
  unfold poll_send_header at h
  cases hh : conn.header with
  | none => simp [hh] at h
  | some header =>
    simp only [hh] at h
    split at h
    · simp at h
    · rename_i hlen
      refine ⟨header, rfl, not_not.mp hlen, ?_⟩
      split at h
      · rename_i hneg
        simp only [Except.ok.injEq] at h
        subst h
        exact ⟨rfl, rfl, rfl, rfl, rfl, Or.inl ⟨hneg, rfl, rfl⟩⟩
      · rename_i hpos
        split at h
        · rename_i hdone
          simp only [Except.ok.injEq] at h
          subst h
          refine ⟨rfl, rfl, rfl, rfl, rfl, Or.inr ⟨hpos, rfl, Or.inr ⟨hdone, ?_⟩⟩⟩
          show (if conn.header_only ≠ 0 then conn_state.DONE else conn_state.SEND_REPLY) ≠
            conn_state.SEND_HEADER
          split <;> decide
        · simp only [Except.ok.injEq] at h
          subst h
          exact ⟨rfl, rfl, rfl, rfl, rfl, Or.inr ⟨hpos, rfl, Or.inl ⟨rfl, rfl⟩⟩⟩

/-- What `after_send` does. -/
theorem after_send_cases (conn : connection) (now : Nat) (sent : Int) :
    (after_send conn now sent).header_sent = conn.header_sent ∧
    (after_send conn now sent).header_length = conn.header_length ∧
    (after_send conn now sent).reply_length = conn.reply_length ∧
    (after_send conn now sent).reply_type = conn.reply_type ∧
    ((sent < 1 ∧ (after_send conn now sent).reply_sent = conn.reply_sent ∧
        (after_send conn now sent).state = conn_state.DONE) ∨
      (¬ sent < 1 ∧
        (after_send conn now sent).reply_sent = (conn.reply_sent + sent.toNat) % 2 ^ 32 ∧
        (((after_send conn now sent).state = conn.state ∧
            (after_send conn now sent).reply = conn.reply) ∨
          (after_send conn now sent).state = conn_state.DONE))) := by
  unfold after_send
  dsimp only
  split
  · rename_i hneg
    exact ⟨rfl, rfl, rfl, rfl, Or.inl ⟨hneg, rfl, rfl⟩⟩
  · rename_i hpos
    split
    · exact ⟨rfl, rfl, rfl, rfl, Or.inr ⟨hpos, rfl, Or.inr rfl⟩⟩
    · exact ⟨rfl, rfl, rfl, rfl, Or.inr ⟨hpos, rfl, Or.inl ⟨rfl, rfl⟩⟩⟩

/-- What a returning `poll_send_reply` call has found. -/
theorem poll_send_reply_cases (conn next : connection) (now : Nat) (fseek : Int) (fread : Nat)
    (sent : Int) (h : poll_send_reply conn now fseek fread sent = Except.ok next) :
    (conn.reply_type = reply_kind.REPLY_GENERATED →
      ∃ r, conn.reply = some r ∧ conn.reply_length = strlen r) ∧
    (conn.reply_type = reply_kind.REPLY_FROMFILE → fread = 1) := by
  unfold poll_send_reply at h
  split at h
  · rename_i ht
    refine ⟨fun _ => ?_, fun hf => by rw [ht] at hf; exact absurd hf (by decide)⟩
    split at h
    · simp at h
    · rename_i r hr
      split at h
      · simp at h
      · rename_i hlen
        exact ⟨r, hr, not_not.mp hlen⟩
  · rename_i ht
    refine ⟨fun hg => by rw [ht] at hg; exact absurd hg (by decide), fun _ => ?_⟩
    split at h
    · simp at h
    · split at h
      · simp at h
      · split at h
        · simp at h
        · rename_i hfread
          exact not_not.mp hfread

theorem offered_header (file : List Char) (conn : connection) (hdr : List Char)
    (hs : conn.state = conn_state.SEND_HEADER) (hh : conn.header = some hdr) :
    offered file conn = (hdr.drop conn.header_sent).take (header_amount conn) := by
  unfold offered
  rw [hs, hh]
  rfl

theorem offered_generated (file : List Char) (conn : connection) (r : List Char)
    (hs : conn.state = conn_state.SEND_REPLY)
    (ht : conn.reply_type = reply_kind.REPLY_GENERATED) (hr : conn.reply = some r) :
    offered file conn = (r.drop conn.reply_sent).take (reply_amount conn) := by
  unfold offered
  rw [hs]
  dsimp only
  rw [ht, hr]
  rfl

theorem offered_fromfile (file : List Char) (conn : connection)
    (hs : conn.state = conn_state.SEND_REPLY)
    (ht : conn.reply_type = reply_kind.REPLY_FROMFILE) :
    offered file conn = (file.drop conn.reply_sent).take (reply_amount conn) := by
  unfold offered
  rw [hs]
  dsimp only
  rw [ht]

/-- A sending step keeps `send_inv`, the bytes it sent added to the trace. -/
theorem send_step_inv (file : List Char) (c0 mid next : connection) (trace bytes : List Char)
    (hK : send_inv file c0 mid trace) (hstep : send_step file mid bytes next) :
    send_inv file c0 next (trace ++ bytes) := by
  cases hstep with
  | header now sent _ hs hsent h =>
    obtain ⟨hdr, hh, hlen, e1, e2, e3, e4, e5, hcase⟩ :=
      poll_send_header_cases mid next now sent h
    have hinv := (send_header_inv mid next now sent hK.inv hs hsent h).1
    have hrs : mid.reply_sent = 0 := hK.inv.heading hs
    have hh0 : c0.header.getD [] = hdr := by
      rw [← (hK.heading hs).1, hh]
      rfl
    rcases hcase with ⟨hneg, f1, f2⟩ | ⟨hpos, f1, f3⟩
    · have hz : sent.toNat = 0 := by omega
      rw [hz, List.take_zero, List.append_nil]
      exact {
        inv := hinv
        header_length_eq := e1.trans hK.header_length_eq
        reply_length_eq := e2.trans hK.reply_length_eq
        reply_type_eq := e3.trans hK.reply_type_eq
        heading := fun x => by rw [f2] at x; exact absurd x (by decide)
        replying := fun x => by rw [f2] at x; exact absurd x (by decide)
        header_part := fun x => by rw [e1]; exact hK.header_part (by rwa [f1] at x)
        reply_part := fun x => by rw [f1, e1, e5]; exact hK.reply_part (by rwa [e5] at x)
        bytes := by rw [f1, e5]; exact hK.bytes }
    · have ha := cursor_advance mid.header_length mid.header_sent sent hK.inv.header_le
        hK.inv.header_fits hsent hpos
      rw [ha.1] at f1
      have hle : sent.toNat ≤ header_amount mid := by omega
      exact {
        inv := hinv
        header_length_eq := e1.trans hK.header_length_eq
        reply_length_eq := e2.trans hK.reply_length_eq
        reply_type_eq := e3.trans hK.reply_type_eq
        heading := fun x => by
          rcases f3 with f3 | f3
          · exact ⟨f3.2.trans (hK.heading hs).1, e4.trans (hK.heading hs).2⟩
          · exact absurd x f3.2
        replying := fun x => by
          rcases f3 with f3 | f3
          · rw [f3.1, hs] at x
            exact absurd x (by decide)
          · exact ⟨by omega, f3.1, e4.trans (hK.heading hs).2⟩
        header_part := fun _ => by rw [e1, hh0]; exact hlen
        reply_part := fun x => by rw [e5, hrs] at x; exact absurd rfl x
        bytes := by
          rw [hK.bytes, offered_header file mid hdr hs hh, take_take_of_le _ _ _ hle, f1, e5,
            hrs, hh0, List.take_zero, List.append_nil, List.append_nil,
            prefix_advance hdr _ _ (by rw [← hlen]; exact ha.2.1)] }
  | reply now fseek sent _ hs hsent h =>
    have hnext := poll_send_reply_after mid next now fseek (fread_item file mid) sent h
    obtain ⟨hgen, hfile⟩ := poll_send_reply_cases mid next now fseek (fread_item file mid) sent h
    subst hnext
    obtain ⟨e0, e1, e2, e3, hcase⟩ := after_send_cases mid now sent
    have hinv := (after_send_inv mid now sent hK.inv hs hsent).1
    obtain ⟨r1, r2, r3⟩ := hK.replying hs
    rcases hcase with ⟨hneg, f1, f2⟩ | ⟨hpos, f1, f3⟩
    · have hz : sent.toNat = 0 := by omega
      rw [hz, List.take_zero, List.append_nil]
      exact {
        inv := hinv
        header_length_eq := e1.trans hK.header_length_eq
        reply_length_eq := e2.trans hK.reply_length_eq
        reply_type_eq := e3.trans hK.reply_type_eq
        heading := fun x => by rw [f2] at x; exact absurd x (by decide)
        replying := fun x => by rw [f2] at x; exact absurd x (by decide)
        header_part := fun x => by rw [e1]; exact hK.header_part (by rwa [e0] at x)
        reply_part := fun x => by rw [e0, e1, f1]; exact hK.reply_part (by rwa [f1] at x)
        bytes := by rw [e0, f1]; exact hK.bytes }
    · have hle0 : sent ≤ (((mid.reply_length + 2 ^ 32 - mid.reply_sent % 2 ^ 32) % 2 ^ 32 : Nat) :
          Int) := le_trans hsent (Int.ofNat_le.mpr (reply_amount_le mid))
      have ha := cursor_advance mid.reply_length mid.reply_sent sent hK.inv.reply_le
        hK.inv.reply_fits hle0 hpos
      rw [ha.1] at f1
      have hle : sent.toNat ≤ reply_amount mid := by omega
      have hbody : mid.reply_sent + sent.toNat ≤ (body_of file c0).length ∧
          (body_of file c0).take mid.reply_sent ++ (offered file mid).take sent.toNat =
            (body_of file c0).take (mid.reply_sent + sent.toNat) := by
        cases ht : mid.reply_type with
        | REPLY_GENERATED =>
          obtain ⟨r, hr, hrl⟩ := hgen ht
          have hb : body_of file c0 = cstr r := by
            unfold body_of
            rw [← hK.reply_type_eq, ht, ← r3, hr]
            rfl
          rw [hb, offered_generated file mid r hs ht hr, take_take_of_le _ _ _ hle]
          have hlen : mid.reply_sent + sent.toNat ≤ strlen r := by rw [← hrl]; exact ha.2.1
          exact ⟨hlen, prefix_advance r _ _ hlen⟩
        | REPLY_FROMFILE =>
          have hb : body_of file c0 = file := by
            unfold body_of
            rw [← hK.reply_type_eq, ht]
          have hfr := hfile ht
          have hamount : reply_amount mid = file_amount mid := by
            unfold reply_amount
            rw [ht]
          have hroom : mid.reply_sent + file_amount mid ≤ file.length := by
            unfold fread_item at hfr
            split at hfr
            · rename_i hc
              exact hc.2
            · exact absurd hfr (by decide)
          rw [hb, offered_fromfile file mid hs ht, take_take_of_le _ _ _ hle, ← List.take_add]
          exact ⟨by omega, rfl⟩
      exact {
        inv := hinv
        header_length_eq := e1.trans hK.header_length_eq
        reply_length_eq := e2.trans hK.reply_length_eq
        reply_type_eq := e3.trans hK.reply_type_eq
        heading := fun x => by
          rcases f3 with f3 | f3
          · rw [f3.1, hs] at x
            exact absurd x (by decide)
          · rw [f3] at x
            exact absurd x (by decide)
        replying := fun _ => by
          rcases f3 with f3 | f3
          · exact ⟨by rw [e0]; exact r1, by rw [e0, e1]; exact r2, f3.2.trans r3⟩
          · rename_i x
            rw [f3] at x
            exact absurd x (by decide)
        header_part := fun _ => by rw [e1]; exact hK.header_part r1
        reply_part := fun _ => by
          rw [e0, e1, f1]
          exact ⟨r1, r2, hbody.1⟩
        bytes := by
          rw [hK.bytes, e0, f1, List.append_assoc, hbody.2] }

/-- The invariant `send_inv` holds after every sequence of sending steps. -/
theorem sends_inv (file : List Char) (c0 c : connection) (trace : List Char)
    (h0 : send_inv file c0 c0 []) (h : sends file c0 trace c) : send_inv file c0 c trace := by
  induction h with
  | start => exact h0
  | more mid next trace bytes _ hstep ih => exact send_step_inv file c0 mid next trace bytes ih hstep

/-- The invariant `send_inv` holds at the start of `SEND_HEADER`. -/
theorem send_inv_start (file : List Char) (c0 : connection) (hreach : reachable c0)
    (hstate : c0.state = conn_state.SEND_HEADER) (hfresh : c0.header_sent = 0) :
    send_inv file c0 c0 [] :=
  { inv := reachable_inv c0 hreach
    header_length_eq := rfl
    reply_length_eq := rfl
    reply_type_eq := rfl
    heading := fun _ => ⟨rfl, rfl⟩
    replying := fun x => by rw [hstate] at x; exact absurd x (by decide)
    header_part := fun x => absurd hfresh x
    reply_part := fun x => absurd ((reachable_inv c0 hreach).heading hstate) x
    bytes := by rw [hfresh, (reachable_inv c0 hreach).heading hstate]; rfl }

/-- What `send_inv` says of the trace: it is a prefix of header and body, as
long as the two cursors together, and holds no body byte before the header is
complete. -/
theorem send_inv_facts (file : List Char) (c0 c : connection) (trace : List Char)
    (hK : send_inv file c0 c trace) :
    trace <+: cstr (c0.header.getD []) ++ body_of file c0 ∧
    trace.length = c.header_sent + c.reply_sent ∧
    (c.reply_sent ≠ 0 → c.header_sent = strlen (c0.header.getD [])) := by
  have hhs : c.header_sent ≤ (cstr (c0.header.getD [])).length := by
    by_cases hz : c.header_sent = 0
    · omega
    · have h1 := hK.header_part hz
      have h2 := hK.inv.header_le
      unfold strlen at h1
      omega
  by_cases hr : c.reply_sent = 0
  · refine ⟨?_, ?_, fun x => absurd hr x⟩
    · rw [hK.bytes, hr, List.take_zero, List.append_nil]
      have hp := List.take_prefix c.header_sent (cstr (c0.header.getD []))
      exact hp.trans (List.prefix_append _ _)
    · rw [hK.bytes, hr, List.take_zero, List.append_nil, List.length_take]
      omega
  · obtain ⟨h1, h2, h3⟩ := hK.reply_part hr
    have h4 := hK.header_part h1
    have h5 : c.header_sent = (cstr (c0.header.getD [])).length := by
      unfold strlen at h4
      omega
    refine ⟨?_, ?_, fun _ => h5⟩
    · rw [hK.bytes, h5, List.take_length]
      have hp := List.take_prefix c.reply_sent (body_of file c0)
      exact (List.prefix_append_right_inj _).mpr hp
    · rw [hK.bytes, List.length_append, List.length_take, List.length_take]
      omega

theorem bytes_behind_trace (t b full : List Char) (h : t ++ b <+: full) :
    b = (full.drop t.length).take b.length := by
  obtain ⟨s, hs⟩ := h
  rw [← hs, List.append_assoc, List.drop_left, List.take_left]

/-- C19: for every connection that enters `SEND_HEADER` on a path from
`accept_connection` and every sequence of sending steps from there, `send()`
reporting at most the length it was passed, the bytes the socket has accepted
so far are the first `header_sent` bytes of the header followed by the first
`reply_sent` bytes of the body (the generated reply, or the unchanged file
contents): a prefix of header ++ body, with no body byte before the last
header byte, and every further step adds exactly the bytes that follow. -/
theorem sent_bytes_in_order (file : List Char) (c0 c : connection) (trace : List Char)
    (hreach : reachable c0) (hstate : c0.state = conn_state.SEND_HEADER)
    (hfresh : c0.header_sent = 0) (h : sends file c0 trace c) :
    trace = (cstr (c0.header.getD [])).take c.header_sent ++
      (body_of file c0).take c.reply_sent ∧
    trace <+: cstr (c0.header.getD []) ++ body_of file c0 ∧
    trace.length = c.header_sent + c.reply_sent ∧
    (c.reply_sent ≠ 0 → c.header_sent = strlen (c0.header.getD [])) ∧
    ∀ (bytes : List Char) (next : connection), send_step file c bytes next →
      bytes = ((cstr (c0.header.getD []) ++ body_of file c0).drop trace.length).take
        bytes.length := by
  have hK := sends_inv file c0 c trace (send_inv_start file c0 hreach hstate hfresh) h
  have hp := send_inv_facts file c0 c trace hK
  refine ⟨hK.bytes, hp.1, hp.2.1, hp.2.2, fun bytes next hstep => ?_⟩
  have hK2 := send_step_inv file c0 c next trace bytes hK hstep
  exact bytes_behind_trace trace bytes _ (send_inv_facts file c0 next _ hK2).1

/-- The two sending steps of the sample connection: the whole header, then
the three bytes of the file. -/
theorem sample_sends :
    sends "abc".toList (sample_received scenario_env)
      ("HTTP/1.1 200 OK\r\nDate: Fri, 28 Feb 2003 00:02:08 GMT\r\n".toList ++
        "Server: darkhttpd/0.1\r\nConnection: close\r\nContent-Length: 3\r\n".toList ++
        "Content-Type: text/html\r\n".toList ++
        "Last-Modified: Fri, 28 Feb 2003 00:02:08 GMT\r\n\r\n".toList ++ "abc".toList)
      (sample_reply_sent scenario_env) := by
  set_option maxRecDepth 8192 in
  exact sends.more (sample_received scenario_env) (sample_header_sent scenario_env)
    (sample_reply_sent scenario_env) _ _
    (sends.more (sample_received scenario_env) (sample_received scenario_env)
      (sample_header_sent scenario_env) [] _
      (sends.start _)
      (send_step.header (sample_received scenario_env) 1046390528
        (sample_received scenario_env).header_length _ rfl (by decide) rfl))
    (send_step.reply (sample_header_sent scenario_env) 1046390528 0 3 _ rfl (by decide) rfl)

/-- C19 in the sample environment: after `GET / HTTP/1.1` for the file with
the contents `abc`, a `send()` that takes the whole header and one that takes
the whole file leave the cursors at 188 and 3, and the 191 bytes sent are the
header followed by `abc`. -/
theorem sent_bytes_in_order_witness :
    (sample_reply_sent scenario_env).header_sent = 188 ∧
    (sample_reply_sent scenario_env).reply_sent = 3 ∧
    ("HTTP/1.1 200 OK\r\nDate: Fri, 28 Feb 2003 00:02:08 GMT\r\n".toList ++
        "Server: darkhttpd/0.1\r\nConnection: close\r\nContent-Length: 3\r\n".toList ++
        "Content-Type: text/html\r\n".toList ++
        "Last-Modified: Fri, 28 Feb 2003 00:02:08 GMT\r\n\r\n".toList ++ "abc".toList) <+:
      cstr ((sample_received scenario_env).header.getD []) ++
        body_of "abc".toList (sample_received scenario_env) ∧
    ("HTTP/1.1 200 OK\r\nDate: Fri, 28 Feb 2003 00:02:08 GMT\r\n".toList ++
        "Server: darkhttpd/0.1\r\nConnection: close\r\nContent-Length: 3\r\n".toList ++
        "Content-Type: text/html\r\n".toList ++
        "Last-Modified: Fri, 28 Feb 2003 00:02:08 GMT\r\n\r\n".toList ++ "abc".toList).length =
      (sample_reply_sent scenario_env).header_sent +
        (sample_reply_sent scenario_env).reply_sent := by
  set_option maxRecDepth 8192 in
  exact ⟨rfl, rfl,
    (sent_bytes_in_order "abc".toList (sample_received scenario_env)
      (sample_reply_sent scenario_env) _ (sample_received_reachable scenario_env _ rfl)
      rfl rfl sample_sends).2.1,
    (sent_bytes_in_order "abc".toList (sample_received scenario_env)
      (sample_reply_sent scenario_env) _ (sample_received_reachable scenario_env _ rfl)
      rfl rfl sample_sends).2.2.1⟩

/-! ## The claim about the header block -/

theorem digitChar_no_crlf (k : Nat) (h : k < 10) :
    Nat.digitChar k ≠ CR ∧ Nat.digitChar k ≠ LF := by
  interval_cases k <;> decide

theorem toDigitsCore_no_crlf (fuel n : Nat) (ds : List Char)
    (h : ∀ c ∈ ds, c ≠ CR ∧ c ≠ LF) :
    ∀ c ∈ Nat.toDigitsCore 10 fuel n ds, c ≠ CR ∧ c ≠ LF := by
  induction fuel generalizing n ds with
  | zero => exact h
  | succ fuel ih =>
    have hd : ∀ c ∈ Nat.digitChar (n % 10) :: ds, c ≠ CR ∧ c ≠ LF := by
      intro c hc
      rcases List.mem_cons.mp hc with hc | hc
      · rw [hc]
        exact digitChar_no_crlf _ (Nat.mod_lt _ (by norm_num))
      · exact h c hc
    unfold Nat.toDigitsCore
    dsimp only
    split
    · exact hd
    · exact ih _ _ hd

theorem fmt_d_no_crlf (n : Int) : CR ∉ fmt_d n ∧ LF ∉ fmt_d n := by
  have hd : ∀ k : Nat, ∀ c ∈ Nat.toDigits 10 k, c ≠ CR ∧ c ≠ LF := fun k =>
    toDigitsCore_no_crlf _ _ [] (fun c hc => absurd hc (List.not_mem_nil c))
  unfold fmt_d
  split
  · constructor
    · intro hc
      rcases List.mem_cons.mp hc with hc | hc
      · exact absurd hc (by decide)
      · exact (hd _ _ hc).1 rfl
    · intro hc
      rcases List.mem_cons.mp hc with hc | hc
      · exact absurd hc (by decide)
      · exact (hd _ _ hc).2 rfl
  · exact ⟨fun hc => (hd _ _ hc).1 rfl, fun hc => (hd _ _ hc).2 rfl⟩

/-- Where CR LF CR LF can start in a CR-free line followed by CR LF and more:
at the end of the line, or behind its CR LF. -/
theorem crlfcrlf_behind_line (l T pre post : List Char) (hl : CR ∉ l)
    (h : l ++ CR :: LF :: T = pre ++ CRLFCRLF ++ post) :
    T = CR :: LF :: post ∨ ∃ pre2, T = pre2 ++ CRLFCRLF ++ post := by
  induction l generalizing pre with
  | nil =>
    cases pre with
    | nil =>
      simp only [List.nil_append, CRLFCRLF, List.cons_append, List.cons.injEq, true_and] at h
      exact Or.inl h
    | cons p pre1 =>
      cases pre1 with
      | nil =>
        simp only [List.nil_append, CRLFCRLF, List.cons_append, List.cons.injEq] at h
        exact absurd h.2.1 (by decide)
      | cons p2 pre2 =>
        simp only [List.nil_append, List.cons_append, List.cons.injEq] at h
        exact Or.inr ⟨pre2, by simpa using h.2.2⟩
  | cons a l ih =>
    simp only [List.mem_cons, not_or] at hl
    cases pre with
    | nil =>
      simp only [List.nil_append, CRLFCRLF, List.cons_append, List.cons.injEq] at h
      exact absurd h.1.symm hl.1
    | cons p pre1 =>
      simp only [List.cons_append, List.cons.injEq] at h
      exact ih pre1 hl.2 (by simpa using h.2)

/-- In a block of non-empty CR-free lines CR LF CR LF stands at the end
only. -/
theorem header_block_unique (lines : List (List Char))
    (hlines : ∀ l ∈ lines, l ≠ [] ∧ CR ∉ l) (pre post : List Char)
    (h : header_block lines = pre ++ CRLFCRLF ++ post) : post = [] := by
  induction lines generalizing pre with
  | nil =>
    have := congrArg List.length h
    simp [header_block, CRLFCRLF] at this
    omega
  | cons l ls ih =>
    have hl := hlines l (List.mem_cons_self _ _)
    have hls : ∀ x ∈ ls, x ≠ [] ∧ CR ∉ x := fun x hx => hlines x (List.mem_cons_of_mem _ hx)
    rw [header_block] at h
    rcases crlfcrlf_behind_line l (header_block ls) pre post hl.2 h with h2 | ⟨pre2, h2⟩
    · cases ls with
      | nil =>
        simp only [header_block, List.cons.injEq, true_and] at h2
        exact h2.symm
      | cons l2 ls2 =>
        have hl2 := hlines l2 (List.mem_cons_of_mem _ (List.mem_cons_self _ _))
        cases l2 with
        | nil => exact absurd rfl hl2.1
        | cons a l2 =>
          simp only [header_block, List.cons_append, List.cons.injEq] at h2
          exact absurd (List.mem_cons.mpr (Or.inl h2.1.symm)) hl2.2
    · exact ih hls pre2 h2

/-- A block with a line ends in CR LF CR LF. -/
theorem header_block_ends (l : List Char) (ls : List (List Char)) :
    CRLFCRLF <:+ header_block (l :: ls) := by
  induction ls generalizing l with
  | nil => exact ⟨l, rfl⟩
  | cons l2 ls ih =>
    rw [header_block]
    exact (ih l2).trans ⟨l ++ [CR, LF], by simp⟩

theorem line_ok (a b : List Char) (ha : a ≠ []) (ha1 : CR ∉ a ∧ LF ∉ a)
    (hb : CR ∉ b ∧ LF ∉ b) : a ++ b ≠ [] ∧ CR ∉ a ++ b ∧ LF ∉ a ++ b := by
  refine ⟨?_, ?_, ?_⟩
  · intro h
    exact ha (List.append_eq_nil.mp h).1
  · intro h
    rcases List.mem_append.mp h with h | h
    · exact ha1.1 h
    · exact hb.1 h
  · intro h
    rcases List.mem_append.mp h with h | h
    · exact ha1.2 h
    · exact hb.2 h

theorem reply_header_block (date : List Char) (errcode : Int) (errname : List Char)
    (reply_length : Nat) :
    reply_header date errcode errname reply_length =
      header_block (reply_header_lines date errcode errname reply_length) := by
  have e1 : "\r\nDate: ".toList = CR :: LF :: "Date: ".toList := by decide
  have e2 : "\r\nServer: ".toList = CR :: LF :: "Server: ".toList := by decide
  have e3 : "\r\nConnection: close\r\nContent-Length: ".toList =
      CR :: LF :: ("Connection: close".toList ++ CR :: LF :: "Content-Length: ".toList) := by
    decide
  have e4 : "\r\nContent-Type: text/html\r\n\r\n".toList =
      CR :: LF :: ("Content-Type: text/html".toList ++ [CR, LF, CR, LF]) := by decide
  unfold reply_header reply_header_lines
  rw [e1, e2, e3, e4]
  simp only [header_block, List.append_assoc, List.cons_append, List.nil_append]

theorem ok_header_block (date : List Char) (reply_length : Nat) (mimetype lastmod : List Char) :
    ok_header date reply_length mimetype lastmod =
      header_block (ok_header_lines date reply_length mimetype lastmod) := by
  have e0 : "HTTP/1.1 200 OK\r\nDate: ".toList =
      "HTTP/1.1 200 OK".toList ++ CR :: LF :: "Date: ".toList := by decide
  have e2 : "\r\nServer: ".toList = CR :: LF :: "Server: ".toList := by decide
  have e3 : "\r\nConnection: close\r\nContent-Length: ".toList =
      CR :: LF :: ("Connection: close".toList ++ CR :: LF :: "Content-Length: ".toList) := by
    decide
  have e4 : "\r\nContent-Type: ".toList = CR :: LF :: "Content-Type: ".toList := by decide
  have e5 : "\r\nLast-Modified: ".toList = CR :: LF :: "Last-Modified: ".toList := by decide
  have e6 : "\r\n\r\n".toList = [CR, LF, CR, LF] := by decide
  unfold ok_header ok_header_lines
  rw [e0, e2, e3, e4, e5, e6]
  simp only [header_block, List.append_assoc, List.cons_append, List.nil_append]

theorem reply_header_lines_ok (date : List Char) (errcode : Int) (errname : List Char)
    (reply_length : Nat) (hdate : CR ∉ cstr date ∧ LF ∉ cstr date)
    (hname : CR ∉ cstr errname ∧ LF ∉ cstr errname) :
    ∀ l ∈ reply_header_lines date errcode errname reply_length,
      l ≠ [] ∧ CR ∉ l ∧ LF ∉ l := by
  intro l hl
  simp only [reply_header_lines, List.mem_cons, List.mem_singleton, List.not_mem_nil,
    or_false] at hl
  rcases hl with hl | hl | hl | hl | hl | hl
  · rw [hl]
    have h1 := line_ok "HTTP/1.1 ".toList (fmt_d errcode) (by decide)
      ⟨by decide, by decide⟩ (fmt_d_no_crlf errcode)
    have h2 := line_ok _ " ".toList h1.1 h1.2 ⟨by decide, by decide⟩
    exact line_ok _ (cstr errname) h2.1 h2.2 hname
  · rw [hl]
    exact line_ok _ _ (by decide) ⟨by decide, by decide⟩ hdate
  · rw [hl]
    exact ⟨by decide, by decide, by decide⟩
  · rw [hl]
    exact ⟨by decide, by decide, by decide⟩
  · rw [hl]
    exact line_ok _ _ (by decide) ⟨by decide, by decide⟩ (fmt_d_no_crlf _)
  · rw [hl]
    exact ⟨by decide, by decide, by decide⟩

theorem ok_header_lines_ok (date : List Char) (reply_length : Nat) (mimetype lastmod : List Char)
    (hdate : CR ∉ cstr date ∧ LF ∉ cstr date)
    (hmime : CR ∉ cstr mimetype ∧ LF ∉ cstr mimetype)
    (hlast : CR ∉ cstr lastmod ∧ LF ∉ cstr lastmod) :
    ∀ l ∈ ok_header_lines date reply_length mimetype lastmod, l ≠ [] ∧ CR ∉ l ∧ LF ∉ l := by
  intro l hl
  simp only [ok_header_lines, List.mem_cons, List.mem_singleton, List.not_mem_nil,
    or_false] at hl
  rcases hl with hl | hl | hl | hl | hl | hl | hl
  · rw [hl]
    exact ⟨by decide, by decide, by decide⟩
  · rw [hl]
    exact line_ok _ _ (by decide) ⟨by decide, by decide⟩ hdate
  · rw [hl]
    exact ⟨by decide, by decide, by decide⟩
  · rw [hl]
    exact ⟨by decide, by decide, by decide⟩
  · rw [hl]
    exact line_ok _ _ (by decide) ⟨by decide, by decide⟩ (fmt_d_no_crlf _)
  · rw [hl]
    exact line_ok _ _ (by decide) ⟨by decide, by decide⟩ hmime
  · rw [hl]
    exact line_ok _ _ (by decide) ⟨by decide, by decide⟩ hlast

/-- The media type `uri_content_type` returns is the default one or one of
the map. -/
theorem uri_content_type_mem (mime_map : List mime_mapping) (uri : List Char) :
    uri_content_type mime_map uri = default_mimetype ∨
    ∃ m ∈ mime_map, uri_content_type mime_map uri = m.mimetype := by
  induction mime_map with
  | nil => exact Or.inl rfl
  | cons m rest ih =>
    unfold uri_content_type
    dsimp only
    split
    · exact Or.inr ⟨m, List.mem_cons_self _ _, rfl⟩
    · rcases ih with ih | ⟨m2, hm2, ih⟩
      · exact Or.inl ih
      · exact Or.inr ⟨m2, List.mem_cons_of_mem _ hm2, ih⟩

/-- A block of well-formed lines of less than 2^31 bytes, stored with its
length, is a well-formed header. -/
theorem well_formed_of_block (c : connection) (hdr l : List Char) (ls : List (List Char))
    (hh : c.header = some hdr) (hb : hdr = header_block (l :: ls))
    (hlines : ∀ x ∈ l :: ls, x ≠ [] ∧ CR ∉ x ∧ LF ∉ x)
    (hlen : c.header_length = hdr.length % 2 ^ 32) (hsize : hdr.length < 2 ^ 31) :
    well_formed_header c := by
  refine ⟨hdr, l :: ls, hh, hb, hlines, ?_, ?_, ?_⟩
  · rw [hb]
    exact header_block_ends l ls
  · intro pre post h
    rw [hb] at h
    exact header_block_unique (l :: ls) (fun x hx => ⟨(hlines x hx).1, (hlines x hx).2.1⟩)
      pre post h
  · rw [hlen]
    exact Nat.mod_eq_of_lt (by omega)

/-- C20: the header block built by `default_reply`, and the one built by the
200 branch of `process_get`, is a sequence of non-empty lines without CR or
LF, each terminated by CR LF, followed by an empty CR LF line; it ends in
CR LF CR LF and holds that sequence nowhere else; and `header_length` is its
byte length.  The dates, the media types and the status name hold no CR or
LF, and the block is shorter than 2^31 bytes (`vasprintf` fails beyond). -/
theorem header_blocks_well_formed (env : environment) (conn : connection) (errcode : Int)
    (errname reason : List Char) (conn2 : connection) (u p : List Char) (f : FILE)
    (filestat : file_stat)
    (hdate : ∀ t, CR ∉ cstr (env.rfc1123_date t) ∧ LF ∉ cstr (env.rfc1123_date t))
    (hmime : ∀ m ∈ env.mime_map, CR ∉ cstr m.mimetype ∧ LF ∉ cstr m.mimetype)
    (hname : CR ∉ cstr errname ∧ LF ∉ cstr errname)
    (hsize1 : ∀ hdr, (default_reply env conn errcode errname reason).header = some hdr →
      hdr.length < 2 ^ 31)
    (hu : conn2.uri = some u)
    (hacc : make_safe_uri (urldecode u ++ NUL :: env.behind_decoded_url) = some p)
    (hopen : env.fopen (get_target env p) = fopen_result.opened f)
    (hstat : env.fstat f = Except.ok filestat)
    (hims : parse_field conn2 "If-Modified-Since: ".toList ≠
      some (cstr (env.rfc1123_date filestat.st_mtime)))
    (hsize2 : ∀ hdr, (process_get env conn2).conn.header = some hdr → hdr.length < 2 ^ 31) :
    well_formed_header (default_reply env conn errcode errname reason) ∧
    (process_get env conn2).conn.http_code = 200 ∧
    well_formed_header (process_get env conn2).conn := by
  have hv := process_get_ok_value env conn2 u p f filestat hu hacc hopen hstat hims
  refine ⟨?_, ?_, ?_⟩
  · exact well_formed_of_block _ _ _ _ rfl (reply_header_block _ _ _ _)
      (reply_header_lines_ok _ _ _ _ (hdate env.time) hname) rfl (hsize1 _ rfl)
  · rw [hv]
  · have hm : CR ∉ cstr (get_mimetype env p) ∧ LF ∉ cstr (get_mimetype env p) := by
      have key : ∀ uri, CR ∉ cstr (uri_content_type env.mime_map uri) ∧
          LF ∉ cstr (uri_content_type env.mime_map uri) := by
        intro uri
        rcases uri_content_type_mem env.mime_map uri with h | ⟨m, hm, h⟩
        · rw [h]
          exact ⟨by decide, by decide⟩
        · rw [h]
          exact hmime m hm
      unfold get_mimetype
      split
      · exact key _
      · exact key _
    have hl : CR ∉ cstr (cstr (env.rfc1123_date filestat.st_mtime)) ∧
        LF ∉ cstr (cstr (env.rfc1123_date filestat.st_mtime)) := by
      rw [cstr_idem]
      exact hdate _
    have hs := hsize2
    rw [hv] at hs ⊢
    exact well_formed_of_block _ _ _ _ rfl (ok_header_block _ _ _ _)
      (ok_header_lines_ok _ _ _ _ (hdate env.time) hm hl) rfl (hs _ rfl)

/-- C20 in the sample environment: the header of the 404 reply and the header
of the 200 reply to `GET /` are well-formed. -/
theorem header_blocks_well_formed_witness :
    well_formed_header (default_reply scenario_env sample_accepted 404 "Not Found".toList
      "The URI you requested (/x) was not found.".toList) ∧
    (process_get scenario_env (get_connection [] "/".toList)).conn.http_code = 200 ∧
    well_formed_header (process_get scenario_env (get_connection [] "/".toList)).conn := by
  set_option maxRecDepth 8192 in
  exact header_blocks_well_formed scenario_env sample_accepted 404 "Not Found".toList
    "The URI you requested (/x) was not found.".toList (get_connection [] "/".toList)
    "/".toList "/".toList 3 ⟨3, 1046390528⟩
    (fun _ => (by decide : CR ∉ cstr scenario_date ∧ LF ∉ cstr scenario_date))
    (by decide) (by decide)
    (fun hdr h => by
      obtain rfl := Option.some.inj h
      decide)
    rfl (by decide) (by decide) (by decide) (by decide)
    (fun hdr h => by
      obtain rfl := Option.some.inj h
      decide)

/-! ## The claim about parse_mimetype_line -/

theorem spec_is_blank_iff (c : Char) : spec_is_blank c = true ↔ c = ' ' ∨ c = '\t' := by
  simp [spec_is_blank]

theorem spec_tokens_nil : spec_tokens [] = [] := by
  simp [spec_tokens]

theorem spec_tokens_blank (b : Char) (r : List Char) (hb : spec_is_blank b = true) :
    spec_tokens (b :: r) = spec_tokens r := by
  unfold spec_tokens
  rw [List.splitOnP_cons, if_pos hb]
  simp

theorem spec_tokens_dropWhile (r : List Char) :
    spec_tokens r = spec_tokens (r.dropWhile spec_is_blank) := by
  induction r with
  | nil => rfl
  | cons a r ih =>
    by_cases ha : spec_is_blank a = true
    · rw [spec_tokens_blank a r ha, List.dropWhile_cons, if_pos ha, ih]
    · rw [List.dropWhile_cons, if_neg ha]

/-- The tokens of a string that begins with a token. -/
theorem spec_tokens_token (c : Char) (r : List Char) (hc : spec_is_blank c = false) :
    spec_tokens (c :: r) =
      (c :: r).takeWhile (fun x => !spec_is_blank x) ::
        spec_tokens ((c :: r).dropWhile (fun x => !spec_is_blank x)) := by
  have hsplit := List.takeWhile_append_dropWhile (fun x => !spec_is_blank x) (c :: r)
  generalize htw : (c :: r).takeWhile (fun x => !spec_is_blank x) = tw at hsplit ⊢
  generalize hdw : (c :: r).dropWhile (fun x => !spec_is_blank x) = dw at hsplit ⊢
  have htw_ne : tw ≠ [] := by
    rw [← htw]
    simp [List.takeWhile, hc]
  have htw_all : ∀ x ∈ tw, ¬ (spec_is_blank x = true) := by
    intro x hx
    rw [← htw] at hx
    have := List.mem_takeWhile_imp hx
    simpa using this
  cases dw with
  | nil =>
    rw [List.append_nil] at hsplit
    rw [← hsplit]
    have h1 : tw.splitOnP spec_is_blank = [tw] := List.splitOnP_eq_single _ _ htw_all
    simp [spec_tokens, h1, htw_ne]
  | cons d dw =>
    have hd : spec_is_blank d = true := by
      have := dropWhile_head_false _ _ _ _ hdw
      simpa using this
    rw [← hsplit, spec_tokens_blank d dw hd]
    have h1 : (tw ++ d :: dw).splitOnP spec_is_blank = tw :: dw.splitOnP spec_is_blank :=
      List.splitOnP_first _ _ htw_all d hd dw
    simp [spec_tokens, h1, htw_ne]

theorem rd_append_lt (rest : List Char) {s : List Char} {k : Nat} {c : Char} {l : List Char}
    (h : s.drop k = c :: l) : rd (s ++ rest) k = c ∧ s.drop (k + 1) = l := by
  have hk : k ≤ s.length := by
    by_contra hn
    have : s.drop k = [] := List.drop_eq_nil_of_le (by omega)
    rw [this] at h
    exact absurd h (by simp)
  have hd : (s ++ rest).drop k = c :: (l ++ rest) := by
    rw [List.drop_append_of_le_length hk, h]
    rfl
  exact ⟨(rd_of_drop_cons hd).1, (rd_of_drop_cons h).2⟩

theorem rd_append_end (s rest : List Char) (k : Nat)
    (hrest : rest = [] ∨ ∃ tail, rest = NUL :: tail) (hk : k ≤ s.length)
    (h : s.drop k = []) : rd (s ++ rest) k = NUL := by
  have hd : (s ++ rest).drop k = rest := by
    rw [List.drop_append_of_le_length hk, h]
    rfl
  rcases hrest with hr | ⟨tail, hr⟩
  · subst hr
    exact rd_of_drop_nil hd
  · subst hr
    exact (rd_of_drop_cons hd).1

theorem drop_cons_length {s : List Char} {k : Nat} {c : Char} {l : List Char}
    (h : s.drop k = c :: l) : k < s.length ∧ (s.drop k).length = l.length + 1 := by
  have h2 : (s.drop k).length = l.length + 1 := by rw [h]; rfl
  have h3 := h2
  rw [List.length_drop] at h3
  exact ⟨by omega, h2⟩

theorem scan_token_cons (c : Char) (l : List Char) (hc : ¬ spec_is_blank c = true) :
    (c :: l).takeWhile (fun x => !spec_is_blank x) =
      c :: l.takeWhile (fun x => !spec_is_blank x) ∧
    (c :: l).dropWhile (fun x => !spec_is_blank x) =
      l.dropWhile (fun x => !spec_is_blank x) := by
  simp [List.takeWhile_cons, List.dropWhile_cons, hc]

theorem scan_token_blank (c : Char) (l : List Char) (hc : spec_is_blank c = true) :
    (c :: l).takeWhile (fun x => !spec_is_blank x) = [] ∧
    (c :: l).dropWhile (fun x => !spec_is_blank x) = c :: l := by
  simp [List.takeWhile_cons, List.dropWhile_cons, hc]

theorem skip_blanks_mem (s rest : List Char)
    (hrest : rest = [] ∨ ∃ tail, rest = NUL :: tail) (fuel k : Nat) (hk : k ≤ s.length)
    (hf : (s.drop k).length < fuel) :
    skip_blanks (s ++ rest) fuel k = k + ((s.drop k).takeWhile spec_is_blank).length := by
  induction fuel generalizing k with
  | zero => omega
  | succ fuel ih =>
    unfold skip_blanks
    cases hd : s.drop k with
    | nil =>
      rw [rd_append_end s rest k hrest hk hd, if_neg (by decide)]
      rfl
    | cons c l =>
      obtain ⟨h1, h2⟩ := rd_append_lt rest hd
      obtain ⟨h3, h4⟩ := drop_cons_length hd
      rw [h1]
      by_cases hc : spec_is_blank c = true
      · rw [if_pos ((spec_is_blank_iff c).mp hc), ih (k + 1) (by omega)
          (by rw [h2]; rw [h4] at hf; omega), h2, List.takeWhile_cons, if_pos hc]
        simp only [List.length_cons]
        omega
      · rw [if_neg (fun h => hc ((spec_is_blank_iff c).mpr h)), List.takeWhile_cons, if_neg hc]
        rfl

theorem extension_end_mem (s rest : List Char) (hs : NUL ∉ s)
    (hrest : rest = [] ∨ ∃ tail, rest = NUL :: tail) (fuel k : Nat) (hk : k ≤ s.length)
    (hf : (s.drop k).length < fuel) :
    extension_end (s ++ rest) fuel k =
      k + ((s.drop k).takeWhile (fun x => !spec_is_blank x)).length := by
  induction fuel generalizing k with
  | zero => omega
  | succ fuel ih =>
    unfold extension_end
    cases hd : s.drop k with
    | nil =>
      rw [rd_append_end s rest k hrest hk hd, if_neg (fun h => h.2.2 rfl)]
      rfl
    | cons c l =>
      obtain ⟨h1, h2⟩ := rd_append_lt rest hd
      obtain ⟨h3, h4⟩ := drop_cons_length hd
      have hcn : c ≠ NUL := by
        intro h
        apply hs
        rw [← h]
        exact List.mem_of_mem_drop (hd ▸ List.mem_cons_self c l)
      rw [h1]
      by_cases hc : spec_is_blank c = true
      · have hc2 := (spec_is_blank_iff c).mp hc
        rw [if_neg (fun h => by rcases hc2 with h5 | h5
                                · exact h.1 h5
                                · exact h.2.1 h5),
          (scan_token_blank c l hc).1]
        rfl
      · have hc2 : ¬ (c = ' ' ∨ c = '\t') := fun h => hc ((spec_is_blank_iff c).mpr h)
        rw [if_pos ⟨fun h => hc2 (Or.inl h), fun h => hc2 (Or.inr h), hcn⟩,
          ih (k + 1) (by omega) (by rw [h2]; rw [h4] at hf; omega), h2,
          (scan_token_cons c l hc).1]
        simp only [List.length_cons]
        omega

theorem mimetype_end_mem (s rest : List Char) (hs : NUL ∉ s)
    (hrest : rest = [] ∨ ∃ tail, rest = NUL :: tail) (fuel k : Nat) (hk : k ≤ s.length)
    (hf : (s.drop k).length < fuel) :
    mimetype_end (s ++ rest) fuel k =
      if (s.drop k).dropWhile (fun x => !spec_is_blank x) = [] then none
      else some (k + ((s.drop k).takeWhile (fun x => !spec_is_blank x)).length) := by
  induction fuel generalizing k with
  | zero => omega
  | succ fuel ih =>
    unfold mimetype_end
    cases hd : s.drop k with
    | nil =>
      rw [rd_append_end s rest k hrest hk hd, if_pos ⟨by decide, by decide⟩, if_pos rfl]
      rfl
    | cons c l =>
      obtain ⟨h1, h2⟩ := rd_append_lt rest hd
      obtain ⟨h3, h4⟩ := drop_cons_length hd
      have hcn : c ≠ NUL := by
        intro h
        apply hs
        rw [← h]
        exact List.mem_of_mem_drop (hd ▸ List.mem_cons_self c l)
      rw [h1]
      by_cases hc : spec_is_blank c = true
      · have hc2 := (spec_is_blank_iff c).mp hc
        rw [if_neg (fun h => by rcases hc2 with h5 | h5
                                · exact h.1 h5
                                · exact h.2 h5),
          (scan_token_blank c l hc).1, (scan_token_blank c l hc).2, if_neg (by simp)]
        rfl
      · have hc2 : ¬ (c = ' ' ∨ c = '\t') := fun h => hc ((spec_is_blank_iff c).mpr h)
        rw [if_pos ⟨fun h => hc2 (Or.inl h), fun h => hc2 (Or.inr h)⟩, if_neg hcn,
          ih (k + 1) (by omega) (by rw [h2]; rw [h4] at hf; omega), h2,
          (scan_token_cons c l hc).1, (scan_token_cons c l hc).2]
        simp only [List.length_cons]
        split
        · rfl
        · congr 1
          omega

/-- The string `split_string` copies out of the part of the memory that lies
before the terminator. -/
theorem split_string_mem (s rest : List Char) (hs : NUL ∉ s) (k n : Nat)
    (hk : k ≤ s.length) (hn : n ≤ (s.drop k).length) :
    split_string (s ++ rest) k (k + n) = (s.drop k).take n := by
  unfold split_string
  rw [Nat.add_sub_cancel_left, List.drop_append_of_le_length hk, List.take_append_of_le_length hn]
  apply cstr_of_not_mem
  intro h
  exact hs (List.mem_of_mem_drop (List.mem_of_mem_take h))

/-- The loop `for (;;)` adds one mapping for each token from `lbound` on. -/
theorem add_extensions_mem (s rest : List Char) (hs : NUL ∉ s)
    (hrest : rest = [] ∨ ∃ tail, rest = NUL :: tail) (pad bound1 : Nat)
    (htype : strlen (split_string (s ++ rest) pad bound1) > 0)
    (fuel k : Nat) (mime_map : List mime_mapping) (hk : k ≤ s.length)
    (hf : (s.drop k).length < fuel) :
    add_extensions (s ++ rest) pad bound1 fuel k mime_map =
      Except.ok (((spec_tokens (s.drop k)).map (fun extension =>
        ({ extension := extension,
           mimetype := split_string (s ++ rest) pad bound1 } : mime_mapping))).reverse ++
        mime_map) := by
  induction fuel generalizing k mime_map with
  | zero => omega
  | succ fuel ih =>
    unfold add_extensions
    dsimp only
    have hfuel : (s.drop k).length < (s ++ rest).length + 1 := by
      rw [List.length_drop, List.length_append]
      omega
    rw [skip_blanks_mem s rest hrest _ k hk hfuel]
    generalize hk1 : k + ((s.drop k).takeWhile spec_is_blank).length = k1
    have hdrop1 : s.drop k1 = (s.drop k).dropWhile spec_is_blank := by
      rw [← hk1, ← List.drop_drop, drop_length_takeWhile]
    have hlen1 : ((s.drop k).takeWhile spec_is_blank).length ≤ (s.drop k).length :=
      length_takeWhile_le _ _
    have hk1le : k1 ≤ s.length := by
      rw [List.length_drop] at hlen1
      omega
    rw [spec_tokens_dropWhile (s.drop k), ← hdrop1]
    cases hd : s.drop k1 with
    | nil =>
      rw [rd_append_end s rest k1 hrest hk1le hd, if_pos rfl, spec_tokens_nil]
      rfl
    | cons c l =>
      obtain ⟨h1, h2⟩ := rd_append_lt rest hd
      obtain ⟨h3, h4⟩ := drop_cons_length hd
      have hcn : c ≠ NUL := by
        intro h
        apply hs
        rw [← h]
        exact List.mem_of_mem_drop (hd ▸ List.mem_cons_self c l)
      have hcb : ¬ spec_is_blank c = true := by
        have := dropWhile_head_false spec_is_blank (s.drop k) c l (hdrop1.symm.trans hd)
        simp [this]
      have hfuel1 : (s.drop k1).length < (s ++ rest).length + 1 := by
        rw [List.length_drop, List.length_append]
        omega
      rw [h1, if_neg hcn, extension_end_mem s rest hs hrest _ k1 hk1le hfuel1, hd]
      have htok := spec_tokens_token c l (by simpa using hcb)
      generalize htw : (c :: l).takeWhile (fun x => !spec_is_blank x) = tw at htok ⊢
      have htwc : tw = c :: l.takeWhile (fun x => !spec_is_blank x) := by
        rw [← htw]
        exact (scan_token_cons c l hcb).1
      have htwlen : tw.length ≤ (s.drop k1).length := by
        rw [hd, ← htw]
        exact length_takeWhile_le _ _
      have hext : split_string (s ++ rest) k1 (k1 + tw.length) = tw := by
        rw [split_string_mem s rest hs k1 tw.length hk1le htwlen, hd, ← htw,
          take_length_takeWhile]
      have hdropr : s.drop (k1 + tw.length) = (c :: l).dropWhile (fun x => !spec_is_blank x) := by
        rw [← List.drop_drop, hd, ← htw, drop_length_takeWhile]
      have hrle : k1 + tw.length ≤ s.length := by
        rw [List.length_drop] at htwlen
        omega
      have hextlen : strlen tw > 0 := by
        rw [htwc]
        unfold strlen
        rw [cstr_cons_ne c _ hcn]
        simp
      rw [hext, if_neg (by omega), if_neg (by omega)]
      rw [htok]
      cases hdw : (c :: l).dropWhile (fun x => !spec_is_blank x) with
      | nil =>
        rw [hdw] at hdropr
        rw [rd_append_end s rest _ hrest hrle hdropr, if_pos rfl, spec_tokens_nil]
        rfl
      | cons d dw =>
        rw [hdw] at hdropr
        obtain ⟨g1, g2⟩ := rd_append_lt rest hdropr
        obtain ⟨g3, g4⟩ := drop_cons_length hdropr
        have hdn : d ≠ NUL := by
          intro h
          apply hs
          rw [← h]
          exact List.mem_of_mem_drop (hdropr ▸ List.mem_cons_self d dw)
        have hdb : spec_is_blank d = true := by
          have := dropWhile_head_false _ _ _ _ hdw
          simpa using this
        rw [g1, if_neg hdn, ih (k1 + tw.length + 1) _ (by omega)
          (by rw [g2]
              have : tw.length ≠ 0 := by rw [htwc]; simp
              rw [List.length_drop] at hf g4
              have : dw.length + 1 = s.length - (k1 + tw.length) := by omega
              omega),
          g2, spec_tokens_blank d dw hdb]
        simp

/-- The function `parse_mimetype_line` on a line stored as the string `s`:
it returns, with the mappings of the specification put in front of the list
one by one. -/
theorem parse_mimetype_line_eq (s rest : List Char) (hs : NUL ∉ s)
    (hrest : rest = [] ∨ ∃ tail, rest = NUL :: tail) (mime_map : List mime_mapping) :
    parse_mimetype_line mime_map (s ++ rest) =
      Except.ok ((spec_line_mappings s).reverse ++ mime_map) := by
  unfold parse_mimetype_line spec_line_mappings
  dsimp only
  have hfuel : ∀ k, (s.drop k).length < (s ++ rest).length + 1 := by
    intro k
    rw [List.length_drop, List.length_append]
    omega
  rw [skip_blanks_mem s rest hrest _ 0 (Nat.zero_le _) (hfuel 0), List.drop_zero, Nat.zero_add]
  generalize hpad : (s.takeWhile spec_is_blank).length = pad
  have hbody : s.drop pad = s.dropWhile spec_is_blank := by
    rw [← hpad, drop_length_takeWhile]
  have hpadle : pad ≤ s.length := by
    rw [← hpad]
    exact length_takeWhile_le _ _
  rw [← hbody]
  cases hd : s.drop pad with
  | nil =>
    rw [rd_append_end s rest pad hrest hpadle hd, if_pos (Or.inl rfl), if_pos (Or.inl rfl)]
    rfl
  | cons c l =>
    obtain ⟨h1, h2⟩ := rd_append_lt rest hd
    obtain ⟨h3, h4⟩ := drop_cons_length hd
    have hcn : c ≠ NUL := by
      intro h
      apply hs
      rw [← h]
      exact List.mem_of_mem_drop (hd ▸ List.mem_cons_self c l)
    have hcb : ¬ spec_is_blank c = true := by
      have := dropWhile_head_false spec_is_blank s c l (hbody.symm.trans hd)
      simp [this]
    rw [h1]
    by_cases hc : c = '#'
    · rw [if_pos (Or.inr hc), if_pos (Or.inr (by rw [hc]; rfl))]
      rfl
    · rw [if_neg (fun h => h.elim hcn hc),
        if_neg (fun h => h.elim (fun h5 => absurd h5 (by simp)) (fun h5 => hc (by simpa using h5))),
        mimetype_end_mem s rest hs hrest _ (pad + 1) (by omega) (hfuel _), h2,
        spec_tokens_dropWhile s, ← hbody, hd, spec_tokens_token c l (by simpa using hcb),
        (scan_token_cons c l hcb).1, (scan_token_cons c l hcb).2]
      cases hdw : l.dropWhile (fun x => !spec_is_blank x) with
      | nil =>
        rw [if_pos rfl, spec_tokens_nil]
        rfl
      | cons d dw =>
        rw [if_neg (by simp)]
        dsimp only
        generalize htl : l.takeWhile (fun x => !spec_is_blank x) = tl
        have htllen : tl.length ≤ l.length := by
          rw [← htl]
          exact length_takeWhile_le _ _
        have htype : split_string (s ++ rest) pad (pad + 1 + tl.length) = c :: tl := by
          rw [Nat.add_assoc, split_string_mem s rest hs pad (1 + tl.length) hpadle
            (by rw [h4]; omega), hd, Nat.add_comm 1, List.take_succ_cons, ← htl,
            take_length_takeWhile]
        have hdropb : s.drop (pad + 1 + tl.length) = d :: dw := by
          rw [← List.drop_drop, h2, ← htl, drop_length_takeWhile, hdw]
        have hble : pad + 1 + tl.length ≤ s.length := by
          rw [List.length_drop] at h4
          omega
        rw [add_extensions_mem s rest hs hrest pad _
          (by rw [htype]; unfold strlen; rw [cstr_cons_ne c _ hcn]; simp)
          _ _ mime_map hble (hfuel _), htype, hdropb]

/-- The function `parse_mimetype_line` returns, with the mappings of the
specification put in front of the list one by one. -/
theorem parse_mimetype_line_value (mime_map : List mime_mapping) (line : List Char) :
    parse_mimetype_line mime_map line =
      Except.ok ((spec_line_mappings (cstr line)).reverse ++ mime_map) := by
  obtain ⟨rest, h1, h2⟩ := mem_split line
  have h := parse_mimetype_line_eq (cstr line) rest (cstr_not_mem line) h2 mime_map
  rw [← h1] at h
  exact h

/-- C21: `parse_mimetype_line` returns for every line.  It adds no mapping
when the line, after its leading spaces and tabs, is empty or begins with
`#`; otherwise, with `T` the first token that spaces and tabs delimit, it
puts one mapping `(e, T)` in front of the list for each further token `e`,
in token order, and nothing else.  So `text/html  html htm` adds the two
mappings, `htm` then in front, and the line `text/html` alone adds
nothing. -/
theorem parse_mimetype_line_adds (mime_map : List mime_mapping) (line : List Char) :
    parse_mimetype_line mime_map line =
      Except.ok ((spec_line_mappings (cstr line)).reverse ++ mime_map) ∧
    spec_line_mappings " \t# text/html html".toList = [] ∧
    spec_line_mappings "text/html".toList = [] ∧
    spec_line_mappings "text/html  html\thtm ".toList =
      [⟨"html".toList, "text/html".toList⟩, ⟨"htm".toList, "text/html".toList⟩] ∧
    parse_mimetype_line [] "text/html  html\thtm ".toList =
      Except.ok [⟨"htm".toList, "text/html".toList⟩, ⟨"html".toList, "text/html".toList⟩] := by
  exact ⟨parse_mimetype_line_value mime_map line, by decide, by decide, by decide, by decide⟩

/-! ## The claim about parse_field -/

theorem takeWhile_until_cr (value rest : List Char) (hv : CR ∉ value) :
    (value ++ CR :: rest).takeWhile (fun c => decide (c ≠ CR)) = value := by
  induction value with
  | nil => simp
  | cons v value ih =>
    simp only [List.mem_cons, not_or] at hv
    rw [List.cons_append, List.takeWhile_cons, if_pos (by simpa using Ne.symm hv.1), ih hv.2]

theorem spec_field_value_at_start (field value rest : List Char) (hf : field ≠ [])
    (hv : CR ∉ value) :
    spec_field_value (field ++ value ++ CR :: rest) field = some value := by
  cases field with
  | nil => exact absurd rfl hf
  | cons a field =>
    have hp : (a :: field).isPrefixOf (a :: (field ++ value ++ CR :: rest)) = true := by
      rw [List.isPrefixOf_iff_prefix]
      exact ⟨value ++ CR :: rest, by simp⟩
    show spec_field_value (a :: (field ++ value ++ CR :: rest)) (a :: field) = some value
    unfold spec_field_value
    rw [if_pos hp]
    have hd : (a :: (field ++ value ++ CR :: rest)).drop (a :: field).length =
        value ++ CR :: rest := by
      simp
    rw [hd, takeWhile_until_cr value rest hv]

/-- C22 (the code breaks it): `parse_field` ends the value at the first CR or
at the end of the request, not at an LF.  For the request
`GET / HTTP/1.1\nReferer: a\nUser-Agent: b\n\r\n\r\n` the value of `Referer: `
is `a\nUser-Agent: b\n`; and whenever the request is the field literal, a
text without NUL and CR, and a CR followed by anything, the value is that
text, line feeds included. -/
theorem parse_field_keeps_line_feed :
    parse_field (connection_with_request
        "GET / HTTP/1.1\nReferer: a\nUser-Agent: b\n\r\n\r\n".toList) "Referer: ".toList =
      some "a\nUser-Agent: b\n".toList ∧
    LF ∈ "a\nUser-Agent: b\n".toList ∧
    ∀ (conn : connection) (value rest : List Char),
      conn.request = some ("Referer: ".toList ++ value ++ CR :: rest) →
      conn.request_length = ("Referer: ".toList ++ value ++ CR :: rest).length →
      NUL ∉ value → NUL ∉ rest → CR ∉ value →
      parse_field conn "Referer: ".toList = some value := by
  refine ⟨by decide, by decide, ?_⟩
  intro conn value rest hreq hlen hnv hnr hcr
  have hnul : NUL ∉ "Referer: ".toList ++ value ++ CR :: rest := by
    intro h
    rcases List.mem_append.mp h with h | h
    · rcases List.mem_append.mp h with h | h
      · exact absurd h (by decide)
      · exact hnv h
    · rcases List.mem_cons.mp h with h | h
      · exact absurd h (by decide)
      · exact hnr h
  rw [parse_field_eq conn _ _ hreq hlen hnul (by decide)]
  exact spec_field_value_at_start _ value rest (by decide) hcr

/-! ## The claims about the dispatcher -/

/-- The first walk stops in the assertion of `log_connection` at a connection
that is in `DONE` after its timeout check and whose `http_code` is 0. -/
theorem first_walk_assertion (conn : connection) (input : poll_input)
    (rest : List (connection × poll_input))
    (hs : (poll_check_timeout conn input.clock).state = conn_state.DONE)
    (hc : (poll_check_timeout conn input.clock).http_code = 0) :
    first_walk ((conn, input) :: rest) = Except.error fatal.assertion_failed := by
  unfold first_walk
  simp only [hs, log_connection, hc]
  rfl

theorem poll_check_timeout_done (conn : connection) (now : Nat)
    (hs : conn.state = conn_state.DONE) :
    (poll_check_timeout conn now).state = conn_state.DONE ∧
    (poll_check_timeout conn now).http_code = conn.http_code ∧
    (poll_check_timeout conn now).reply_file = conn.reply_file := by
  unfold poll_check_timeout
  split
  · exact ⟨rfl, rfl, rfl⟩
  · exact ⟨hs, rfl, rfl⟩

/-- C23 (the code breaks it): a connection whose peer closes before it has
sent a request, and one that stays idle for 60 seconds before a request is
complete, are moved to `DONE` with `http_code` 0, and the next first walk of
`httpd_poll` stops in the assertion of `log_connection`. -/
theorem done_without_http_code :
    httpd_poll [] ⟨1, some (1046390528, reply_kind.REPLY_GENERATED, 4, 2130706433,
      sample_input false none 0)⟩ = Except.ok ([sample_accepted], []) ∧
    httpd_poll [(sample_accepted, sample_input true (some []) 0)] ⟨1, none⟩ =
      Except.ok ([sample_closed], []) ∧
    reachable sample_closed ∧
    sample_closed.state = conn_state.DONE ∧ sample_closed.http_code = 0 ∧
    log_connection sample_closed = Except.error fatal.assertion_failed ∧
    (∀ (input : poll_input) (tick : tick_input),
      httpd_poll [(sample_closed, input)] tick = Except.error fatal.assertion_failed) ∧
    poll_check_timeout sample_accepted (1046390588) = sample_closed ∧
    (∀ (input : poll_input) (tick : tick_input),
      (input.clock : Int) - (sample_accepted.last_active : Int) ≥ IDLETIME →
      httpd_poll [(sample_accepted, input)] tick = Except.error fatal.assertion_failed) := by
  refine ⟨rfl, rfl, ?_, rfl, rfl, rfl, ?_, rfl, ?_⟩
  · exact reachable.step sample_accepted sample_closed
      (reachable.accept 1046390528 reply_kind.REPLY_GENERATED 4 2130706433 sample_accepted rfl)
      (poll_step.recv scenario_env sample_accepted (some []) sample_closed rfl rfl)
  · intro input tick
    unfold httpd_poll
    rw [first_walk_assertion sample_closed input []
      (poll_check_timeout_done sample_closed input.clock rfl).1
      (poll_check_timeout_done sample_closed input.clock rfl).2.1]
  · intro input tick hidle
    have h0 : poll_check_timeout sample_accepted input.clock = sample_closed := by
      unfold poll_check_timeout
      rw [if_pos hidle]
      rfl
    unfold httpd_poll
    rw [first_walk_assertion sample_accepted input [] (by rw [h0]; rfl) (by rw [h0]; rfl)]

theorem strlen_lt_of_mem (l : List Char) (h : NUL ∈ l) : strlen l < l.length := by
  induction l with
  | nil => simp at h
  | cons c l ih =>
    by_cases hc : c = NUL
    · subst hc
      simp [strlen, cstr]
    · unfold strlen
      rw [cstr_cons_ne c l hc]
      rcases List.mem_cons.mp h with h | h
      · exact absurd h.symm hc
      · have := ih h
        unfold strlen at this
        simp only [List.length_cons]
        omega

/-- C24 (the code breaks it): when the bytes received hold a NUL and the
buffer ends in CR LF CR LF, `poll_recv_request` hands it to `parse_request`
with `request_length` larger than the C-string length of the buffer, and
the assertion at the top of `parse_request` fails; so for the request
`GET /` NUL ` HTTP/1.1` received in one piece. -/
theorem poll_recv_request_nul_assertion :
    poll_recv_request scenario_env sample_accepted
        (some ("GET /".toList ++ NUL :: " HTTP/1.1\r\n\r\n".toList)) =
      Except.error fatal.assertion_failed ∧
    ∀ (env : environment) (conn : connection) (recvd : List Char),
      conn.request_length = (conn.request.getD []).length →
      conn.request_length + recvd.length < 2 ^ 32 →
      NUL ∈ recvd → CRLFCRLF <:+ conn.request.getD [] ++ recvd →
      poll_recv_request env conn (some recvd) = Except.error fatal.assertion_failed := by
  have key : ∀ (env : environment) (conn : connection) (recvd : List Char),
      conn.request_length = (conn.request.getD []).length →
      conn.request_length + recvd.length < 2 ^ 32 →
      NUL ∈ recvd → CRLFCRLF <:+ conn.request.getD [] ++ recvd →
      poll_recv_request env conn (some recvd) = Except.error fatal.assertion_failed := by
    intro env conn recvd hinv hroom hnul hend
    have hne : recvd ≠ [] := List.ne_nil_of_mem hnul
    have hlen : 4 < conn.request_length + recvd.length := by
      obtain ⟨pre, hpre⟩ := hend
      have h1 := congrArg List.length hpre
      have h2 : NUL ∈ pre := by
        have h3 : NUL ∈ pre ++ CRLFCRLF := by
          rw [hpre]
          exact List.mem_append_right _ hnul
        rcases List.mem_append.mp h3 with h3 | h3
        · exact h3
        · exact absurd h3 (by decide)
      have h4 : 0 < pre.length := List.length_pos_of_mem h2
      simp only [List.length_append, CRLFCRLF, List.length_cons, List.length_nil] at h1
      omega
    rw [poll_recv_request_eq env conn recvd hne hinv hroom, if_pos ⟨hlen, hend⟩]
    have hp : process_request env { conn with
        last_active := env.time,
        request := some (conn.request.getD [] ++ recvd),
        request_length := conn.request_length + recvd.length } =
        Except.error fatal.assertion_failed := by
      unfold process_request parse_request
      have hs := strlen_lt_of_mem (conn.request.getD [] ++ recvd)
        (List.mem_append_right _ hnul)
      simp only
      rw [if_pos (by
        show conn.request_length + recvd.length ≠ strlen (conn.request.getD [] ++ recvd)
        rw [List.length_append] at hs
        omega)]
    rw [hp]
  exact ⟨key scenario_env sample_accepted _ rfl (by decide) (by decide) (by decide), key⟩

/-- C25 (the code breaks it): for a file of length 0 the 200 reply has
`reply_length` 0; once its header is sent the connection is in `SEND_REPLY`,
and there `poll_send_reply` asks `fread` for one item of 0 bytes, gets none
and takes its fatal branch, whatever `send()` would do.  So after
`GET / HTTP/1.1` for an empty `index.html`. -/
theorem poll_send_reply_empty_file :
    reachable (sample_header_sent (scenario_env_size 0)) ∧
    (sample_header_sent (scenario_env_size 0)).state = conn_state.SEND_REPLY ∧
    (sample_header_sent (scenario_env_size 0)).http_code = 200 ∧
    (sample_header_sent (scenario_env_size 0)).reply_type = reply_kind.REPLY_FROMFILE ∧
    (sample_header_sent (scenario_env_size 0)).reply_length = 0 ∧
    (∀ (now : Nat) (fseek sent : Int), fseek ≠ -1 →
      poll_send_reply (sample_header_sent (scenario_env_size 0)) now fseek
        (fread_item [] (sample_header_sent (scenario_env_size 0))) sent =
        Except.error fatal.fread_failed) ∧
    ∀ (conn : connection) (f : FILE) (file : List Char) (now : Nat) (fseek sent : Int),
      conn.reply_type = reply_kind.REPLY_FROMFILE → conn.reply_file = some f →
      conn.reply_length = 0 → conn.reply_sent = 0 → fseek ≠ -1 →
      fread_item file conn = 0 ∧
      poll_send_reply conn now fseek (fread_item file conn) sent =
        Except.error fatal.fread_failed := by
  have key : ∀ (conn : connection) (f : FILE) (file : List Char) (now : Nat) (fseek sent : Int),
      conn.reply_type = reply_kind.REPLY_FROMFILE → conn.reply_file = some f →
      conn.reply_length = 0 → conn.reply_sent = 0 → fseek ≠ -1 →
      fread_item file conn = 0 ∧
      poll_send_reply conn now fseek (fread_item file conn) sent =
        Except.error fatal.fread_failed := by
    intro conn f file now fseek sent ht hf hl hs hseek
    have h0 : fread_item file conn = 0 := by
      unfold fread_item file_amount
      rw [hl, hs]
      rfl
    refine ⟨h0, ?_⟩
    rw [h0]
    unfold poll_send_reply
    rw [ht]
    simp only [hf]
    rw [if_neg hseek, if_pos (by decide)]
  have hfields : (sample_header_sent (scenario_env_size 0)).state = conn_state.SEND_REPLY ∧
      (sample_header_sent (scenario_env_size 0)).http_code = 200 ∧
      (sample_header_sent (scenario_env_size 0)).reply_type = reply_kind.REPLY_FROMFILE ∧
      (sample_header_sent (scenario_env_size 0)).reply_length = 0 ∧
      (sample_header_sent (scenario_env_size 0)).reply_file = some 3 ∧
      (sample_header_sent (scenario_env_size 0)).reply_sent = 0 := by
    set_option maxRecDepth 8192 in
    exact ⟨rfl, rfl, rfl, rfl, rfl, rfl⟩
  have hreach : reachable (sample_header_sent (scenario_env_size 0)) := by
    set_option maxRecDepth 8192 in
    exact reachable.step _ _ (sample_received_reachable (scenario_env_size 0) _ rfl)
      (sample_header_sent_step (scenario_env_size 0) _ rfl rfl (by decide) rfl)
  exact ⟨hreach, hfields.1, hfields.2.1, hfields.2.2.1, hfields.2.2.2.1,
    fun now fseek sent hseek =>
      (key _ 3 [] now fseek sent hfields.2.2.1 hfields.2.2.2.2.1 hfields.2.2.2.1
        hfields.2.2.2.2.2 hseek).2,
    key⟩

/-! ## The claim about the media type of a directory request -/

/-- C28 (the code breaks it): with the index name `i.html` and the mapping of
`html` to `text/html`, the request for the directory `/` and the request for
`/i.html` open the same file, `/var/www/i.html`; for the directory
`process_get` looks up `i.html`, which is too short for the test
`urilen >= extlen+3`, and chooses `application/octet-stream`, for the full
path it chooses `text/html`. -/
theorem directory_media_type_differs :
    (process_get scenario_env_short_index (get_connection [] "/".toList)).fopen_arg =
      some "/var/www/i.html".toList ∧
    (process_get scenario_env_short_index (get_connection [] "/i.html".toList)).fopen_arg =
      some "/var/www/i.html".toList ∧
    get_mimetype scenario_env_short_index "/".toList = "application/octet-stream".toList ∧
    get_mimetype scenario_env_short_index "/i.html".toList = "text/html".toList ∧
    (process_get scenario_env_short_index (get_connection [] "/".toList)).conn.header =
      some (ok_header scenario_date 3 "application/octet-stream".toList scenario_date) ∧
    (process_get scenario_env_short_index (get_connection [] "/i.html".toList)).conn.header =
      some (ok_header scenario_date 3 "text/html".toList scenario_date) := by
  set_option maxRecDepth 8192 in
  exact ⟨by decide, by decide, by decide, by decide, by rfl, by rfl⟩

/-! ## The claim about the reply file handle -/

/-- C30 (the code breaks it): `poll_send_reply` passes `reply_file` to
`fclose` when the reply is complete and leaves the field set, and
`free_connection` passes it to `fclose` again when the dispatcher removes the
connection.  So for the 3-byte file of the sample environment: the tick that
sends the 3 bytes closes the handle 3, and the next tick closes it again.  A
connection that ends early (`send()` returns less than 1) has its handle
closed once, by `free_connection`. -/
theorem reply_file_closed_twice :
    (sample_header_sent scenario_env).reply_file = some 3 ∧
    httpd_poll [(sample_header_sent scenario_env, sample_input true none 3)] ⟨1, none⟩ =
      Except.ok ([sample_reply_sent scenario_env], [3]) ∧
    (sample_reply_sent scenario_env).state = conn_state.DONE ∧
    (sample_reply_sent scenario_env).reply_sent = (sample_reply_sent scenario_env).reply_length ∧
    httpd_poll [(sample_reply_sent scenario_env, sample_input false none 0)] ⟨1, none⟩ =
      Except.ok ([], [3]) ∧
    (∀ (conn : connection) (f : FILE) (now : Nat) (sent : Int),
      conn.reply_file = some f → ¬ sent < 1 →
      (conn.reply_sent + sent.toNat) % 2 ^ 32 = conn.reply_length →
      poll_send_reply_fclose conn sent = [f] ∧
      (after_send conn now sent).state = conn_state.DONE ∧
      free_connection (after_send conn now sent) = [f]) ∧
    (∀ (conn : connection) (f : FILE) (now : Nat) (sent : Int),
      conn.reply_file = some f → sent < 1 →
      poll_send_reply_fclose conn sent = [] ∧
      (after_send conn now sent).state = conn_state.DONE ∧
      free_connection (after_send conn now sent) = [f]) := by
  refine ⟨?_, ?_, ?_, ?_, ?_, ?_, ?_⟩
  · set_option maxRecDepth 8192 in
    rfl
  · set_option maxRecDepth 8192 in
    rfl
  · set_option maxRecDepth 8192 in
    rfl
  · set_option maxRecDepth 8192 in
    rfl
  · set_option maxRecDepth 8192 in
    rfl
  · intro conn f now sent hf hpos hdone
    refine ⟨?_, ?_, ?_⟩
    · unfold poll_send_reply_fclose
      rw [if_neg hpos, if_pos hdone, hf]
    · unfold after_send
      dsimp only
      rw [if_neg hpos, if_pos hdone]
    · unfold after_send free_connection
      dsimp only
      rw [if_neg hpos, if_pos hdone]
      simp only [hf]
  · intro conn f now sent hf hneg
    refine ⟨?_, ?_, ?_⟩
    · unfold poll_send_reply_fclose
      rw [if_pos hneg]
    · unfold after_send
      dsimp only
      rw [if_pos hneg]
    · unfold after_send free_connection
      dsimp only
      rw [if_pos hneg]
      simp only [hf]

theorem parse_request_not_invalid (conn : connection) :
    parse_request conn ≠ Except.error fatal.invalid_state := by
  unfold parse_request
  cases conn.request with
  | none => simp
  | some request =>
    dsimp only
    split
    · simp
    · simp

theorem process_request_not_invalid (env : environment) (conn : connection) :
    process_request env conn ≠ Except.error fatal.invalid_state := by
  unfold process_request
  cases h : parse_request conn with
  | error e =>
    intro h2
    simp only [Except.error.injEq] at h2
    rw [h2] at h
    exact parse_request_not_invalid conn h
  | ok c => simp

theorem poll_recv_request_not_invalid (env : environment) (conn : connection)
    (recv : Option (List Char)) :
    poll_recv_request env conn recv ≠ Except.error fatal.invalid_state := by
  cases recv with
  | none => simp [poll_recv_request]
  | some l =>
    cases l with
    | nil => simp [poll_recv_request]
    | cons b buf =>
      unfold poll_recv_request
      dsimp only
      split
      · rename_i e he
        intro h2
        simp only [Except.error.injEq] at h2
        rw [h2] at he
        split at he
        · exact process_request_not_invalid env _ he
        · simp at he
      · split
        · simp
        · simp

theorem poll_send_header_not_invalid (conn : connection) (now : Nat) (sent : Int) :
    poll_send_header conn now sent ≠ Except.error fatal.invalid_state := by
  unfold poll_send_header
  cases conn.header with
  | none => simp
  | some header =>
    dsimp only
    split
    · simp
    · split
      · simp
      · split
        · simp
        · simp

theorem poll_send_reply_not_invalid (conn : connection) (now : Nat) (fseek : Int)
    (fread : Nat) (sent : Int) :
    poll_send_reply conn now fseek fread sent ≠ Except.error fatal.invalid_state := by
  unfold poll_send_reply
  split
  · split
    · simp
    · split
      · simp
      · simp
  · split
    · simp
    · split
      · simp
      · split
        · simp
        · simp

/-- The `switch` of the second walk takes its `default` branch for a
connection in `DONE` only. -/
theorem dispatch_not_invalid (conn : connection) (input : poll_input)
    (h : conn.state ≠ conn_state.DONE) :
    dispatch conn input ≠ Except.error fatal.invalid_state := by
  unfold dispatch
  cases hs : conn.state with
  | DONE => exact absurd hs h
  | RECV_REQUEST =>
    dsimp only
    split
    · have := poll_recv_request_not_invalid input.env conn input.recv
      split
      · rename_i e he
        intro h2
        simp only [Except.error.injEq] at h2
        rw [h2] at he
        exact this he
      · simp
    · simp
  | SEND_HEADER =>
    dsimp only
    split
    · have := poll_send_header_not_invalid conn input.now input.sent
      split
      · rename_i e he
        intro h2
        simp only [Except.error.injEq] at h2
        rw [h2] at he
        exact this he
      · simp
    · simp
  | SEND_REPLY =>
    dsimp only
    split
    · have := poll_send_reply_not_invalid conn input.now input.fseek input.fread input.sent
      split
      · rename_i e he
        intro h2
        simp only [Except.error.injEq] at h2
        rw [h2] at he
        exact this he
      · simp
    · simp

theorem second_walk_not_invalid (l : List (connection × poll_input))
    (h : ∀ p ∈ l, p.1.state ≠ conn_state.DONE) :
    second_walk l ≠ Except.error fatal.invalid_state := by
  induction l with
  | nil => simp [second_walk]
  | cons p l ih =>
    obtain ⟨conn, input⟩ := p
    have h1 := dispatch_not_invalid conn input (h (conn, input) (List.mem_cons_self _ _))
    have h2 := ih (fun q hq => h q (List.mem_cons_of_mem _ hq))
    unfold second_walk
    split
    · rename_i e he
      intro h3
      simp only [Except.error.injEq] at h3
      rw [h3] at he
      exact h1 he
    · split
      · rename_i e he
        intro h3
        simp only [Except.error.injEq] at h3
        rw [h3] at he
        exact h2 he
      · simp

/-- When every freed link reads as it was, the first walk leaves no
connection in `DONE` in the list; and it never stops with `invalid_state`. -/
theorem first_walk_kept (conns : List (connection × poll_input))
    (hlink : ∀ p ∈ conns, p.2.link = freed_link.intact) :
    first_walk conns ≠ Except.error fatal.invalid_state ∧
    ∀ kept closed bother, first_walk conns = Except.ok (kept, closed, bother) →
      ∀ p ∈ kept, p.1.state ≠ conn_state.DONE := by
  induction conns with
  | nil =>
    refine ⟨by simp [first_walk], ?_⟩
    intro kept closed bother h p hp
    simp only [first_walk, Except.ok.injEq, Prod.mk.injEq] at h
    rw [← h.1] at hp
    exact absurd hp (List.not_mem_nil p)
  | cons q conns ih =>
    obtain ⟨conn, input⟩ := q
    obtain ⟨ih1, ih2⟩ := ih (fun p hp => hlink p (List.mem_cons_of_mem _ hp))
    have hl2 : input.link = freed_link.intact := hlink (conn, input) (List.mem_cons_self _ _)
    unfold first_walk
    dsimp only
    cases hs : (poll_check_timeout conn input.clock).state with
    | DONE =>
      dsimp only
      cases hl : log_connection (poll_check_timeout conn input.clock) with
      | error e =>
        dsimp only
        refine ⟨?_, fun kept closed bother h => by simp at h⟩
        intro h2
        simp only [Except.error.injEq] at h2
        rw [h2] at hl
        unfold log_connection at hl
        split at hl
        · simp at hl
        · simp at hl
      | ok u =>
        dsimp only
        rw [hl2]
        dsimp only
        cases hw : first_walk conns with
        | error e =>
          dsimp only
          refine ⟨?_, fun kept closed bother h => by simp at h⟩
          intro h2
          simp only [Except.error.injEq] at h2
          rw [h2] at hw
          exact ih1 hw
        | ok r =>
          obtain ⟨kept0, closed0, bother0⟩ := r
          dsimp only
          refine ⟨by simp, ?_⟩
          intro kept closed bother h p hp
          simp only [Except.ok.injEq, Prod.mk.injEq] at h
          rw [← h.1] at hp
          exact ih2 kept0 closed0 bother0 hw p hp
    | RECV_REQUEST =>
      dsimp only
      cases hw : first_walk conns with
      | error e =>
        dsimp only
        refine ⟨?_, fun kept closed bother h => by simp at h⟩
        intro h2
        simp only [Except.error.injEq] at h2
        rw [h2] at hw
        exact ih1 hw
      | ok r =>
        obtain ⟨kept0, closed0, bother0⟩ := r
        dsimp only
        refine ⟨by simp, ?_⟩
        intro kept closed bother h p hp
        simp only [Except.ok.injEq, Prod.mk.injEq] at h
        rw [← h.1] at hp
        rcases List.mem_cons.mp hp with hp | hp
        · rw [hp]
          show (poll_check_timeout conn input.clock).state ≠ conn_state.DONE
          rw [hs]
          decide
        · exact ih2 kept0 closed0 bother0 hw p hp
    | SEND_HEADER =>
      dsimp only
      cases hw : first_walk conns with
      | error e =>
        dsimp only
        refine ⟨?_, fun kept closed bother h => by simp at h⟩
        intro h2
        simp only [Except.error.injEq] at h2
        rw [h2] at hw
        exact ih1 hw
      | ok r =>
        obtain ⟨kept0, closed0, bother0⟩ := r
        dsimp only
        refine ⟨by simp, ?_⟩
        intro kept closed bother h p hp
        simp only [Except.ok.injEq, Prod.mk.injEq] at h
        rw [← h.1] at hp
        rcases List.mem_cons.mp hp with hp | hp
        · rw [hp]
          show (poll_check_timeout conn input.clock).state ≠ conn_state.DONE
          rw [hs]
          decide
        · exact ih2 kept0 closed0 bother0 hw p hp
    | SEND_REPLY =>
      dsimp only
      cases hw : first_walk conns with
      | error e =>
        dsimp only
        refine ⟨?_, fun kept closed bother h => by simp at h⟩
        intro h2
        simp only [Except.error.injEq] at h2
        rw [h2] at hw
        exact ih1 hw
      | ok r =>
        obtain ⟨kept0, closed0, bother0⟩ := r
        dsimp only
        refine ⟨by simp, ?_⟩
        intro kept closed bother h p hp
        simp only [Except.ok.injEq, Prod.mk.injEq] at h
        rw [← h.1] at hp
        rcases List.mem_cons.mp hp with hp | hp
        · rw [hp]
          show (poll_check_timeout conn input.clock).state ≠ conn_state.DONE
          rw [hs]
          decide
        · exact ih2 kept0 closed0 bother0 hw p hp

theorem accept_connection_state (now : Nat) (reply_type : reply_kind) (socket : Int)
    (client : Nat) :
    accept_connection now reply_type socket client ≠ Except.error fatal.invalid_state ∧
    ∀ conn, accept_connection now reply_type socket client = Except.ok conn →
      conn.state = conn_state.RECV_REQUEST := by
  unfold accept_connection
  split
  · exact ⟨by simp, fun conn h => by simp at h⟩
  · refine ⟨by simp, fun conn h => ?_⟩
    simp only [Except.ok.injEq] at h
    rw [← h]

/-- When every freed link reads as it was, `httpd_poll` does not take the
`invalid state` branch. -/
theorem httpd_poll_not_invalid (conns : List (connection × poll_input)) (tick : tick_input)
    (hlink : ∀ p ∈ conns, p.2.link = freed_link.intact) :
    httpd_poll conns tick ≠ Except.error fatal.invalid_state := by
  obtain ⟨hw1, hw2⟩ := first_walk_kept conns hlink
  unfold httpd_poll
  cases hw : first_walk conns with
  | error e =>
    dsimp only
    intro h2
    simp only [Except.error.injEq] at h2
    rw [h2] at hw
    exact hw1 hw
  | ok r =>
    obtain ⟨kept, closed, bother⟩ := r
    have hk := hw2 kept closed bother hw
    dsimp only
    split
    · split
      · simp
      · simp
    · split
      · simp
      · cases ha : tick.accepted with
        | none =>
          dsimp only
          have h3 := second_walk_not_invalid kept hk
          split
          · rename_i e he
            intro h2
            simp only [Except.error.injEq] at h2
            rw [h2] at he
            exact h3 he
          · simp
        | some a =>
          obtain ⟨now, reply_type, socket, client, input⟩ := a
          dsimp only
          obtain ⟨ha1, ha2⟩ := accept_connection_state now reply_type socket client
          cases hacc : accept_connection now reply_type socket client with
          | error e =>
            dsimp only
            intro h2
            simp only [Except.error.injEq] at h2
            rw [h2] at hacc
            exact ha1 hacc
          | ok conn =>
            dsimp only
            have h3 := second_walk_not_invalid ((conn, input) :: kept) (by
              intro p hp
              rcases List.mem_cons.mp hp with hp | hp
              · rw [hp]
                show conn.state ≠ conn_state.DONE
                rw [ha2 conn hacc]
                decide
              · exact hk p hp)
            split
            · rename_i e he
              intro h2
              simp only [Except.error.injEq] at h2
              rw [h2] at he
              exact h3 he
            · simp

theorem sample_reply_sent_reachable : reachable (sample_reply_sent scenario_env) := by
  set_option maxRecDepth 8192 in
  exact reachable.step _ _
    (reachable.step _ _ (sample_received_reachable scenario_env _ rfl)
      (sample_header_sent_step scenario_env _ rfl rfl (by decide) rfl))
    (poll_step.send_reply (sample_header_sent scenario_env) 1046390528 0 1 3 _ rfl
      (by decide) rfl)

/-- C27 (the code breaks it): the first walk of `httpd_poll` frees a
connection it finds in `DONE` and then reads the link stored in it to go on.
When that read gives `NULL` the walk ends there, and a connection in `DONE`
that follows in the list stays in it; the second walk then finds it in
`DONE` and takes the fatal `invalid state` branch.  So for two connections
that have both sent their whole reply in the tick before.  When every such read gives the link
the connection had, the second walk finds no connection in `DONE`. -/
theorem second_walk_finds_done :
    reachable (sample_reply_sent scenario_env) ∧
    (sample_reply_sent scenario_env).state = conn_state.DONE ∧
    (sample_reply_sent scenario_env).http_code = 200 ∧
    sample_reply_sent_other.state = conn_state.DONE ∧
    sample_reply_sent_other.http_code = 200 ∧
    first_walk [(sample_reply_sent scenario_env, sample_input_null),
        (sample_reply_sent_other, sample_input false none 0)] =
      Except.ok ([(sample_reply_sent_other, sample_input false none 0)], [3], false) ∧
    httpd_poll [(sample_reply_sent scenario_env, sample_input_null),
        (sample_reply_sent_other, sample_input false none 0)] ⟨1, none⟩ =
      Except.error fatal.invalid_state ∧
    (∀ (conn : connection) (input : poll_input),
      dispatch conn input = Except.error fatal.invalid_state ↔
        conn.state = conn_state.DONE) ∧
    (∀ (conns : List (connection × poll_input)) (tick : tick_input),
      (∀ p ∈ conns, p.2.link = freed_link.intact) →
      httpd_poll conns tick ≠ Except.error fatal.invalid_state ∧
      ∀ kept closed bother, first_walk conns = Except.ok (kept, closed, bother) →
        ∀ p ∈ kept, p.1.state ≠ conn_state.DONE) := by
  refine ⟨sample_reply_sent_reachable, ?_, ?_, ?_, ?_, ?_, ?_, ?_, ?_⟩
  · set_option maxRecDepth 8192 in
    rfl
  · set_option maxRecDepth 8192 in
    rfl
  · set_option maxRecDepth 8192 in
    rfl
  · set_option maxRecDepth 8192 in
    rfl
  · set_option maxRecDepth 8192 in
    rfl
  · set_option maxRecDepth 8192 in
    rfl
  · intro conn input
    constructor
    · intro h
      by_contra hs
      exact dispatch_not_invalid conn input hs h
    · intro hs
      unfold dispatch
      rw [hs]
  · intro conns tick hlink
    exact ⟨httpd_poll_not_invalid conns tick hlink, (first_walk_kept conns hlink).2⟩

theorem count_takeWhile_slash (r : List Char) :
    ((r.takeWhile (fun c => decide (c = '/'))).filter (fun c => decide (c = '/'))).length =
      (r.takeWhile (fun c => decide (c = '/'))).length := by
  induction r with
  | nil => rfl
  | cons a r ih =>
    by_cases ha : a = '/'
    · simp [List.takeWhile_cons, ha, ih]
    · simp [List.takeWhile_cons, ha]

/-- The elements that the splitting loop yields on a rest that is empty or
begins with `/`: no more than the rest has slashes, and with one byte added
to each no longer than the rest. -/
theorem elements_of_rest_bounds (fuel : Nat) (r : List Char)
    (hr : r = [] ∨ r.head? = some '/') :
    (elements_of_rest fuel r).length ≤ (r.filter (fun c => decide (c = '/'))).length ∧
    elements_size (elements_of_rest fuel r) ≤ r.length := by
  induction fuel generalizing r with
  | zero => exact ⟨Nat.zero_le _, Nat.zero_le _⟩
  | succ fuel ih =>
    unfold elements_of_rest
    by_cases hnil : r = []
    · rw [if_pos hnil]
      exact ⟨Nat.zero_le _, Nat.zero_le _⟩
    · rw [if_neg hnil]
      have hhead : r.head? = some '/' := hr.resolve_left hnil
      have hsplit := List.takeWhile_append_dropWhile (fun c => decide (c = '/')) r
      have hk : 1 ≤ (r.takeWhile (fun c => decide (c = '/'))).length := by
        cases r with
        | nil => exact absurd rfl hnil
        | cons a r =>
          simp only [List.head?_cons, Option.some.injEq] at hhead
          simp [List.takeWhile_cons, hhead]
      have hcount : (r.filter (fun c => decide (c = '/'))).length =
          (r.takeWhile (fun c => decide (c = '/'))).length +
            ((r.dropWhile (fun c => decide (c = '/'))).filter
              (fun c => decide (c = '/'))).length := by
        conv_lhs => rw [← hsplit]
        rw [List.filter_append, List.length_append, count_takeWhile_slash]
      have hlen : r.length = (r.takeWhile (fun c => decide (c = '/'))).length +
          (r.dropWhile (fun c => decide (c = '/'))).length := by
        conv_lhs => rw [← hsplit]
        rw [List.length_append]
      cases hd : r.dropWhile (fun c => decide (c = '/')) with
      | nil =>
        dsimp only
        rw [hd] at hcount
        exact ⟨by simp only [List.length_singleton]; omega,
          by simp only [elements_size, List.length_nil]; omega⟩
      | cons c r1 =>
        dsimp only
        rw [hd] at hcount hlen
        have hc1 : c ≠ '/' := by
          have := dropWhile_head_false _ _ _ _ hd
          simpa using this
        have hsplit2 := List.takeWhile_append_dropWhile (fun c => decide (c ≠ '/')) (c :: r1)
        have hrest : (c :: r1).dropWhile (fun c => decide (c ≠ '/')) = [] ∨
            ((c :: r1).dropWhile (fun c => decide (c ≠ '/'))).head? = some '/' := by
          cases hd2 : (c :: r1).dropWhile (fun c => decide (c ≠ '/')) with
          | nil => exact Or.inl rfl
          | cons d r2 =>
            have := dropWhile_head_false _ _ _ _ hd2
            right
            simpa using this
        obtain ⟨ih1, ih2⟩ := ih _ hrest
        have hcount2 : ((c :: r1).filter (fun c => decide (c = '/'))).length =
            (((c :: r1).takeWhile (fun c => decide (c ≠ '/'))).filter
              (fun c => decide (c = '/'))).length +
            (((c :: r1).dropWhile (fun c => decide (c ≠ '/'))).filter
              (fun c => decide (c = '/'))).length := by
          conv_lhs => rw [← hsplit2]
          rw [List.filter_append, List.length_append]
        have hlen2 : (c :: r1).length =
            ((c :: r1).takeWhile (fun c => decide (c ≠ '/'))).length +
            ((c :: r1).dropWhile (fun c => decide (c ≠ '/'))).length := by
          conv_lhs => rw [← hsplit2]
          rw [List.length_append]
        refine ⟨?_, ?_⟩
        · simp only [List.length_cons]
          omega
        · simp only [elements_size]
          omega

theorem split_elements_rest (m : List Char) :
    split_elements m (strlen m) (strlen m + 1) 0 = elements_of_rest (strlen m + 1) (cstr m) := by
  obtain ⟨rest, h1, h2⟩ := mem_split m
  have h := split_elements_eq (cstr m) rest (cstr_not_mem m) h2 (strlen m + 1) 0 (Nat.zero_le _)
  rw [← h1] at h
  unfold strlen at h ⊢
  rw [h, List.drop_zero]

theorem elements_size_append (a b : List (List Char)) :
    elements_size (a ++ b) = elements_size a + elements_size b := by
  induction a with
  | nil => simp [elements_size]
  | cons e a ih =>
    rw [List.cons_append]
    simp only [elements_size]
    rw [ih]
    omega

theorem elements_size_dropLast (st : List (List Char)) :
    elements_size st.dropLast ≤ elements_size st := by
  induction st with
  | nil => exact Nat.le_refl _
  | cons e st ih =>
    cases st with
    | nil => simp [elements_size]
    | cons e2 st =>
      simp only [List.dropLast_cons₂, elements_size] at ih ⊢
      omega

/-- The reassembly array never holds more entries than the elements met so
far allow, and its entries, with one `/` each, never need more bytes. -/
theorem process_elements_bounds (es st out : List (List Char))
    (h : process_elements es st = some out) :
    out.length ≤ st.length + es.length ∧
    elements_size out ≤ elements_size st + elements_size es := by
  induction es generalizing st with
  | nil =>
    simp only [process_elements, Option.some.injEq] at h
    subst h
    exact ⟨Nat.le_add_right _ _, Nat.le_add_right _ _⟩
  | cons e es ih =>
    simp only [process_elements] at h
    simp only [List.length_cons, elements_size]
    split at h
    · obtain ⟨h1, h2⟩ := ih _ h
      exact ⟨by omega, by omega⟩
    · split at h
      · split at h
        · exact absurd h (by simp)
        · obtain ⟨h1, h2⟩ := ih _ h
          have h3 := elements_size_dropLast st
          have h4 : st.dropLast.length ≤ st.length := by simp
          exact ⟨by omega, by omega⟩
      · obtain ⟨h1, h2⟩ := ih _ h
        rw [elements_size_append] at h2
        simp only [List.length_append, List.length_singleton, elements_size] at h1 h2
        exact ⟨by omega, by omega⟩

theorem reassemble_length (st : List (List Char)) :
    (reassemble st).length = elements_size st := by
  rw [reassemble_eq]
  induction st with
  | nil => rfl
  | cons e st ih =>
    simp only [List.map_cons, List.flatten_cons, List.length_append, List.length_cons,
      elements_size, ih]

/-- The parts of the bounds that hold, for every memory that begins with
`/`: the elements split out are no more than the slashes counted, the
reassembly array never holds more entries than that, and the output is no
longer than the input. -/
theorem make_safe_uri_sizes (uri : List Char) (h0 : rd uri 0 = '/') :
    (split_elements uri (strlen uri) (strlen uri + 1) 0).length ≤ count_slashes uri ∧
    (∀ k reassembly,
      process_elements ((split_elements uri (strlen uri) (strlen uri + 1) 0).take k) [] =
        some reassembly →
      reassembly.length ≤ count_slashes uri) ∧
    ∀ out, make_safe_uri uri = some out → out.length ≤ strlen uri := by
  have hhead : cstr uri = [] ∨ (cstr uri).head? = some '/' := by
    right
    by_contra hcon
    exact (rd_zero_slash uri).2 hcon h0
  obtain ⟨hb1, hb2⟩ := elements_of_rest_bounds (strlen uri + 1) (cstr uri) hhead
  rw [← split_elements_rest] at hb1 hb2
  refine ⟨hb1, ?_, ?_⟩
  · intro k reassembly hp
    have := (process_elements_bounds _ _ _ hp).1
    simp only [List.length_nil, List.length_take] at this
    unfold count_slashes
    omega
  · intro out hout
    unfold make_safe_uri at hout
    rw [if_neg (by simpa using h0)] at hout
    dsimp only at hout
    cases hp : process_elements (split_elements uri (strlen uri) (strlen uri + 1) 0) [] with
    | none => rw [hp] at hout; exact absurd hout (by simp)
    | some reassembly =>
      rw [hp] at hout
      simp only [Option.some.injEq] at hout
      rw [← hout, reassemble_length]
      have := (process_elements_bounds _ _ _ hp).2
      simp only [elements_size] at this
      unfold strlen
      omega

/-! ## The claim about the reads of make_safe_uri -/

theorem dropWhile_ne_nil_of_getLast (l : List Char) (h : l.getLast? = some '/') :
    l.dropWhile (fun c => decide (c ≠ '/')) ≠ [] := by
  intro hn
  rw [List.dropWhile_eq_nil_iff] at hn
  have := hn '/' (List.mem_of_getLast?_eq_some h)
  simp at this

/-- For a string that ends in `/`, the splitting loop of `make_safe_uri`
reads the byte behind the terminator. -/
theorem split_reads_behind (s rest : List Char) (hs : NUL ∉ s)
    (hrest : rest = [] ∨ ∃ tail, rest = NUL :: tail) (hend : s.getLast? = some '/')
    (fuel i : Nat) (hi : i < s.length) (hf : s.length - i < fuel + 1) :
    s.length + 1 ∈ split_reads (s ++ rest) s.length fuel i := by
  obtain ⟨hr1, hr2, hr3⟩ := rest_facts rest hrest
  induction fuel generalizing i with
  | zero => omega
  | succ fuel ih =>
    unfold split_reads
    rw [if_pos hi]
    dsimp only
    have hile : i ≤ s.length := Nat.le_of_lt hi
    have hdrop : (s ++ rest).drop i = s.drop i ++ rest := List.drop_append_of_le_length hile
    have hi1 : skip_slashes (s ++ rest) ((s ++ rest).length + 1) i =
        i + ((s.drop i).takeWhile (fun c => decide (c = '/'))).length := by
      rw [skip_slashes_eq _ _ _ (by simp; omega), hdrop, takeWhile_append_stop _ _ _ hr1]
    rw [hi1]
    generalize hk : ((s.drop i).takeWhile (fun c => decide (c = '/'))).length = k
    have hdw : s.drop (i + k) = (s.drop i).dropWhile (fun c => decide (c = '/')) := by
      rw [← hk, ← drop_length_takeWhile, List.drop_drop]
    have hik : i + k ≤ s.length := by
      have := length_takeWhile_le (fun c => decide (c = '/')) (s.drop i)
      rw [hk] at this
      simp at this
      omega
    have hdrop1 : (s ++ rest).drop (i + k) =
        (s.drop i).dropWhile (fun c => decide (c = '/')) ++ rest := by
      rw [List.drop_append_of_le_length hik, hdw]
    cases hcase : (s.drop i).dropWhile (fun c => decide (c = '/')) with
    | nil =>
      rw [hcase] at hdw
      have hlen : s.length ≤ i + k := by
        have : (s.drop (i + k)).length = 0 := by rw [hdw]; rfl
        simp at this
        omega
      have hj : i + k + 1 ≤
          next_slash (s ++ rest) ((s ++ rest).length + 1) (i + k + 1) := by
        rw [next_slash_eq _ _ _ (by simp; omega)]
        omega
      apply List.mem_append_left
      rw [List.mem_range'_1]
      omega
    | cons c r1 =>
      rw [hcase] at hdrop1 hdw
      have hc1 : c ≠ '/' := by
        have := dropWhile_head_false _ _ _ _ hcase
        simpa using this
      have hmem : ∀ x ∈ c :: r1, x ∈ s := by
        intro x hx
        rw [← hdw] at hx
        exact List.mem_of_mem_drop hx
      have hdrop2 : (s ++ rest).drop (i + k + 1) = r1 ++ rest := by
        have := (rd_of_drop_cons (by rw [hdrop1]; rfl : (s ++ rest).drop (i + k) =
          c :: (r1 ++ rest))).2
        exact this
      have htw : (r1 ++ rest).takeWhile (fun c => decide (c ≠ '/' ∧ c ≠ NUL)) =
          r1.takeWhile (fun c => decide (c ≠ '/')) := by
        rw [takeWhile_append_stop _ _ _ hr2]
        apply takeWhile_congr_mem
        intro x hx
        have hx2 : x ≠ NUL := fun h => hs (h ▸ hmem x (List.mem_cons_of_mem c hx))
        simp [hx2]
      have hj : next_slash (s ++ rest) ((s ++ rest).length + 1) (i + k + 1) =
          i + k + 1 + (r1.takeWhile (fun c => decide (c ≠ '/'))).length := by
        rw [next_slash_eq _ _ _ (by simp; omega), hdrop2, htw]
      rw [hj]
      generalize ht : (r1.takeWhile (fun c => decide (c ≠ '/'))).length = t
      have hlen2 : (s.drop (i + k)).length = r1.length + 1 := by rw [hdw]; rfl
      have hiklt : i + k < s.length := by
        simp at hlen2
        omega
      have hdj : s.drop (i + k + 1 + t) =
          (c :: r1).dropWhile (fun c => decide (c ≠ '/')) := by
        rw [List.dropWhile_cons_of_pos (by simpa using hc1), ← drop_length_takeWhile, ht]
        have : s.drop (i + k + 1) = r1 := (rd_of_drop_cons hdw).2
        rw [← this, List.drop_drop]
      have hlast : (c :: r1).getLast? = some '/' := by
        rw [← hdw, List.getLast?_drop, if_neg (by omega)]
        exact hend
      have hne := dropWhile_ne_nil_of_getLast (c :: r1) hlast
      rw [← hdj] at hne
      have hjlt : i + k + 1 + t < s.length := by
        by_contra hcon
        exact hne (List.drop_eq_nil_of_le (by omega))
      apply List.mem_append_right
      exact ih (i + k + 1 + t) hjlt (by omega)

/-- C26 (the code breaks it): for an input that ends in `/` the splitting
loop of `make_safe_uri` stops its first inner loop at the terminator, index
`urilen`, and starts the second at `urilen + 1`: it reads the byte behind the
terminator, and goes on behind it until it meets a `/` or a NUL.  So for the
input `/`, of length 1, where index 2 is read, and for `/a/`, of length 3,
where index 4 is read, whatever lies behind the terminator.  The other two
bounds hold for every memory that begins with `/`: the elements split out are
no more than the slashes counted, the reassembly array never holds more
entries than that, and the output is no longer than the input. -/
theorem make_safe_uri_reads_behind_terminator :
    (∀ behind : List Char,
      strlen ('/' :: NUL :: behind) = 1 ∧
      2 ∈ split_reads ('/' :: NUL :: behind) 1 2 0) ∧
    (∀ behind : List Char,
      strlen ("/a/".toList ++ NUL :: behind) = 3 ∧
      4 ∈ split_reads ("/a/".toList ++ NUL :: behind) 3 4 0) ∧
    split_reads ("/".toList ++ NUL :: "x/".toList) 1 2 0 = [0, 1, 2, 3] ∧
    (∀ (s behind : List Char), NUL ∉ s → s.head? = some '/' → s.getLast? = some '/' →
      strlen (s ++ NUL :: behind) = s.length ∧
      s.length + 1 ∈
        split_reads (s ++ NUL :: behind) (strlen (s ++ NUL :: behind))
          (strlen (s ++ NUL :: behind) + 1) 0) ∧
    ∀ uri : List Char, rd uri 0 = '/' →
      (split_elements uri (strlen uri) (strlen uri + 1) 0).length ≤ count_slashes uri ∧
      (∀ k reassembly,
        process_elements ((split_elements uri (strlen uri) (strlen uri + 1) 0).take k) [] =
          some reassembly →
        reassembly.length ≤ count_slashes uri) ∧
      ∀ out, make_safe_uri uri = some out → out.length ≤ strlen uri := by
  have key : ∀ (s behind : List Char), NUL ∉ s → s.head? = some '/' →
      s.getLast? = some '/' →
      strlen (s ++ NUL :: behind) = s.length ∧
      s.length + 1 ∈
        split_reads (s ++ NUL :: behind) (strlen (s ++ NUL :: behind))
          (strlen (s ++ NUL :: behind) + 1) 0 := by
    intro s behind hs hhead hlast
    have hlen : strlen (s ++ NUL :: behind) = s.length := by
      unfold strlen
      rw [cstr_append_nul s behind hs]
    have hpos : 0 < s.length := by
      cases s with
      | nil => simp at hhead
      | cons a s => simp
    rw [hlen]
    exact ⟨rfl, split_reads_behind s (NUL :: behind) hs (Or.inr ⟨behind, rfl⟩) hlast _ 0 hpos
      (by omega)⟩
  refine ⟨fun behind => ?_, fun behind => ?_, by decide, key, make_safe_uri_sizes⟩
  · have := key "/".toList behind (by decide) (by decide) (by decide)
    exact this
  · have := key "/a/".toList behind (by decide) (by decide) (by decide)
    exact this

/-! ## The claim about the order of the media type list -/

theorem parse_lines_value (mime_map : List mime_mapping) (lines : List (List Char)) :
    parse_lines mime_map lines =
      Except.ok ((spec_lines_mappings lines).reverse ++ mime_map) := by
  induction lines generalizing mime_map with
  | nil => rfl
  | cons line lines ih =>
    unfold parse_lines
    rw [parse_mimetype_line_value]
    dsimp only
    rw [ih]
    simp [spec_lines_mappings]

theorem parse_commandline_value (mime_map : List mime_mapping)
    (files : List (List (List Char))) :
    ∃ added, parse_commandline mime_map files = Except.ok (added ++ mime_map) := by
  induction files generalizing mime_map with
  | nil => exact ⟨[], rfl⟩
  | cons file files ih =>
    unfold parse_commandline parse_extension_map_file
    rw [parse_lines_value]
    dsimp only
    obtain ⟨added, h⟩ := ih ((spec_lines_mappings file).reverse ++ mime_map)
    exact ⟨added ++ (spec_lines_mappings file).reverse, by rw [h, List.append_assoc]⟩

/-- The lookup is the first-match search of the specification. -/
theorem uri_content_type_eq_spec (mime_map : List mime_mapping) (uri : List Char) :
    uri_content_type mime_map uri = spec_content_type mime_map (cstr uri) := by
  induction mime_map with
  | nil => rfl
  | cons mapping rest ih =>
    unfold uri_content_type spec_content_type
    simp only [List.find?_cons]
    by_cases h : spec_ext_matches (cstr uri) (cstr mapping.extension) = true
    · rw [if_pos ((ext_test_iff uri mapping.extension).2 h), h]
    · rw [if_neg (fun h2 => h ((ext_test_iff uri mapping.extension).1 h2))]
      have h3 : spec_ext_matches (cstr uri) (cstr mapping.extension) = false := by
        simpa using h
      rw [h3, ih]
      rfl

/-- The lookup in a list whose front part holds a matching entry gives the
media type of an entry of the front part, the one the front part alone would
give. -/
theorem uri_content_type_front (front back : List mime_mapping) (uri : List Char)
    (d : mime_mapping) (hd : d ∈ front)
    (hm : spec_ext_matches (cstr uri) (cstr d.extension) = true) :
    uri_content_type (front ++ back) uri = uri_content_type front uri ∧
    ∃ e ∈ front, spec_ext_matches (cstr uri) (cstr e.extension) = true ∧
      uri_content_type (front ++ back) uri = e.mimetype := by
  rw [uri_content_type_eq_spec, uri_content_type_eq_spec]
  unfold spec_content_type
  rw [List.find?_append]
  cases hf : front.find? (fun mapping => spec_ext_matches (cstr uri) (cstr mapping.extension)) with
  | none =>
    rw [List.find?_eq_none] at hf
    exact absurd hm (hf d hd)
  | some e =>
    have hp := List.find?_some hf
    exact ⟨rfl, e, List.mem_of_find?_eq_some hf, hp, rfl⟩

theorem spec_line_mappings_type (s : List Char) (a b : mime_mapping)
    (ha : a ∈ spec_line_mappings s) (hb : b ∈ spec_line_mappings s) :
    a.mimetype = b.mimetype := by
  unfold spec_line_mappings at ha hb
  split at ha
  · exact absurd ha (List.not_mem_nil a)
  · rename_i hc
    rw [if_neg hc] at hb
    split at ha
    · exact absurd ha (List.not_mem_nil a)
    · rename_i type extensions htok
      rw [htok] at hb
      rw [List.mem_map] at ha hb
      obtain ⟨x, -, rfl⟩ := ha
      obtain ⟨y, -, rfl⟩ := hb
      rfl

/-- C29: each mapping a line adds is put in front of the list that
`uri_content_type` walks from its head, so when a line parsed later maps an
extension that the URI has, the lookup gives the media type of that line,
whatever an earlier line maps the extension to.  `main` parses the
`--mimetypes` files in `parse_commandline` and the compiled-in defaults after
it, so for a URI with an extension of the defaults the lookup gives what the
defaults alone give, whatever the files hold; a file entry counts for the
extensions the defaults do not have. -/
theorem later_line_takes_precedence :
    (∀ (mime_map : List mime_mapping) (earlier later uri : List Char) (e : mime_mapping),
      e ∈ spec_line_mappings (cstr later) →
      spec_ext_matches (cstr uri) (cstr e.extension) = true →
      ∃ m1 m2, parse_mimetype_line mime_map earlier = Except.ok m1 ∧
        parse_mimetype_line m1 later = Except.ok m2 ∧
        uri_content_type m2 uri = e.mimetype) ∧
    (∀ (files : List (List (List Char))) (uri : List Char) (d : mime_mapping),
      d ∈ spec_lines_mappings default_extension_map →
      spec_ext_matches (cstr uri) (cstr d.extension) = true →
      ∃ m, main_mime_map files = Except.ok m ∧
        uri_content_type m uri =
          uri_content_type (spec_lines_mappings default_extension_map).reverse uri) ∧
    (∃ m1 m2, parse_mimetype_line [] "text/a x".toList = Except.ok m1 ∧
      parse_mimetype_line m1 "text/b x".toList = Except.ok m2 ∧
      uri_content_type m2 "/f.x".toList = "text/b".toList) ∧
    (∃ m, main_mime_map [["text/x-web html web".toList]] = Except.ok m ∧
      uri_content_type m "/a.html".toList = "text/html".toList ∧
      uri_content_type m "/a.web".toList = "text/x-web".toList) := by
  refine ⟨?_, ?_, ?_, ?_⟩
  · intro mime_map earlier later uri e he hm
    refine ⟨_, _, parse_mimetype_line_value mime_map earlier,
      parse_mimetype_line_value _ later, ?_⟩
    obtain ⟨-, e2, he2, -, h2⟩ := uri_content_type_front
      (spec_line_mappings (cstr later)).reverse
      ((spec_line_mappings (cstr earlier)).reverse ++ mime_map) uri e
      (List.mem_reverse.mpr he) hm
    rw [h2]
    exact spec_line_mappings_type (cstr later) e2 e (List.mem_reverse.mp he2) he
  · intro files uri d hd hm
    obtain ⟨added, hadded⟩ := parse_commandline_value [] files
    refine ⟨(spec_lines_mappings default_extension_map).reverse ++ (added ++ []), ?_, ?_⟩
    · unfold main_mime_map parse_default_extension_map
      rw [hadded]
      dsimp only
      rw [parse_lines_value]
    · exact (uri_content_type_front _ _ uri d (List.mem_reverse.mpr hd) hm).1
  · exact ⟨_, _, parse_mimetype_line_value _ _, parse_mimetype_line_value _ _, by decide⟩
  · set_option maxRecDepth 8192 in
    exact ⟨_, rfl, by decide, by decide⟩

/-- C6 (the code breaks it): a complete request that holds a NUL byte gets
no reply from `process_request`: `request_length` counts the bytes received,
the C-string length stops at the NUL, and the assertion at the top of
`parse_request` fails; so for `POST /` NUL ` HTTP/1.1`, which gets no 501 and
does not reach `SEND_HEADER`, and for every request whose `request_length`
differs from its C-string length.  On every other request `process_request`
answers from the uppercased method alone: `GET` and `HEAD` are handled by
`process_get` (`HEAD` also setting `header_only`), `OPTIONS`, `POST`, `PUT`,
`DELETE`, `TRACE`, `CONNECT` get status 501, every other method gets status
400, and the connection is left in `SEND_HEADER`; so `post / HTTP/1.1` gets
status 501. -/
theorem process_request_nul_no_reply :
    (∀ env : environment,
      process_request env
          (connection_with_request ("POST /".toList ++ NUL :: " HTTP/1.1\r\n\r\n".toList)) =
        Except.error fatal.assertion_failed) ∧
    (∀ (env : environment) (conn : connection) (request : List Char),
      conn.request = some request → conn.request_length = request.length → NUL ∈ request →
      process_request env conn = Except.error fatal.assertion_failed) ∧
    (∀ (env : environment) (conn : connection) (request : List Char),
      conn.request = some request → conn.request_length ≠ strlen request →
      process_request env conn = Except.error fatal.assertion_failed) ∧
    (∀ (env : environment) (conn : connection) (request : List Char),
      conn.request = some request → conn.request_length = strlen request →
      ∃ parsed c, parse_request conn = Except.ok parsed ∧
        parsed.method = some ((split_string request 0
          (method_end request conn.request_length conn.request_length 0)).map toupper) ∧
        process_request env conn = Except.ok c ∧
        c.state = conn_state.SEND_HEADER ∧
        (parsed.method = some "GET".toList →
          c = { (process_get env parsed).conn with
                state := conn_state.SEND_HEADER, request := none }) ∧
        (parsed.method = some "HEAD".toList →
          c = { (process_get env parsed).conn with
                header_only := 1, state := conn_state.SEND_HEADER, request := none }) ∧
        (∀ m, parsed.method = some m →
          m ∈ ["OPTIONS".toList, "POST".toList, "PUT".toList, "DELETE".toList,
            "TRACE".toList, "CONNECT".toList] → c.http_code = 501) ∧
        (∀ m, parsed.method = some m → m ≠ "GET".toList → m ≠ "HEAD".toList →
          m ∉ ["OPTIONS".toList, "POST".toList, "PUT".toList, "DELETE".toList,
            "TRACE".toList, "CONNECT".toList] → c.http_code = 400)) ∧
    ∃ parsed c, parse_request (connection_with_request "post / HTTP/1.1\r\n\r\n".toList) =
        Except.ok parsed ∧ parsed.method = some "POST".toList ∧
      process_request scenario_env
        (connection_with_request "post / HTTP/1.1\r\n\r\n".toList) = Except.ok c ∧
      c.http_code = 501 ∧ c.state = conn_state.SEND_HEADER := by
  have key : ∀ (env : environment) (conn : connection) (request : List Char),
      conn.request = some request → conn.request_length ≠ strlen request →
      process_request env conn = Except.error fatal.assertion_failed := by
    intro env conn request hreq hlen
    unfold process_request parse_request
    simp only [hreq]
    rw [if_pos hlen]
  have key2 : ∀ (env : environment) (conn : connection) (request : List Char),
      conn.request = some request → conn.request_length = request.length → NUL ∈ request →
      process_request env conn = Except.error fatal.assertion_failed := by
    intro env conn request hreq hlen hnul
    have hs := strlen_lt_of_mem request hnul
    exact key env conn request hreq (by omega)
  refine ⟨fun env => key2 env _ _ rfl rfl (by decide), key2, key,
    fun env conn request hreq hlen => process_request_chain env conn request hreq hlen, ?_⟩
  obtain ⟨parsed, c, hp, hm, hc, hs, -, -, h501, -⟩ :=
    process_request_chain scenario_env
      (connection_with_request "post / HTTP/1.1\r\n\r\n".toList) _ rfl (by decide)
  have hm2 : parsed.method = some "POST".toList := by rw [hm]; decide
  exact ⟨parsed, c, hp, hm2, hc, h501 _ hm2 (by decide), hs⟩

/-- C8 (the code breaks it): when the accumulated buffer exceeds 4000 bytes,
ends in CR LF CR LF and holds a NUL byte, `poll_recv_request` hands it to
`process_request` before it tests the length, the assertion at the top of
`parse_request` fails and no 413 reply is built; so for a NUL, 3999 bytes `a`
and a received CR LF CR LF, and for every buffer that holds a NUL and ends in
CR LF CR LF.  For every other buffer the step returns, and the connection is
left with the 413 reply in `SEND_HEADER` exactly when the accumulated length
exceeds 4000, whether or not the buffer ends in CR LF CR LF, while up to 4000
bytes with no CR LF CR LF at the end leave it in `RECV_REQUEST` with no reply
built; so 3999 bytes `a` and a received `b` (4000 bytes) stay in
`RECV_REQUEST`, 4000 bytes `a` and a received `b` (4001 bytes) get 413, and
so do a NUL, 3999 bytes `a` and a received `b`. -/
theorem poll_recv_request_nul_no_413 :
    (∀ env : environment,
      poll_recv_request env (connection_with_request (NUL :: List.replicate 3999 'a'))
          (some CRLFCRLF) = Except.error fatal.assertion_failed) ∧
    (∀ (env : environment) (conn : connection) (recvd : List Char),
      recvd ≠ [] →
      conn.request_length = (conn.request.getD []).length →
      conn.request_length + recvd.length < 2 ^ 32 →
      NUL ∈ conn.request.getD [] ++ recvd →
      CRLFCRLF <:+ conn.request.getD [] ++ recvd →
      poll_recv_request env conn (some recvd) = Except.error fatal.assertion_failed) ∧
    (∀ (env : environment) (conn : connection) (recvd : List Char),
      recvd ≠ [] →
      conn.state = conn_state.RECV_REQUEST →
      conn.request_length = (conn.request.getD []).length →
      conn.request_length + recvd.length < 2 ^ 32 →
      (CRLFCRLF <:+ conn.request.getD [] ++ recvd → NUL ∉ conn.request.getD [] ++ recvd) →
      ∃ c, poll_recv_request env conn (some recvd) = Except.ok c ∧
        ((c.http_code = 413 ∧ c.state = conn_state.SEND_HEADER) ↔
          MAX_REQUEST_LENGTH < conn.request_length + recvd.length) ∧
        (MAX_REQUEST_LENGTH < conn.request_length + recvd.length →
          c.reply_type = reply_kind.REPLY_GENERATED ∧
          c.reply = some (reply_body (env.rfc1123_date env.time) 413
            "Request Entity Too Large".toList
            "Your request was dropped because it was too long.".toList) ∧
          ∃ header, c.header = some header ∧
            header = reply_header (env.rfc1123_date env.time) 413
              "Request Entity Too Large".toList c.reply_length) ∧
        (conn.request_length + recvd.length ≤ MAX_REQUEST_LENGTH →
          ¬ CRLFCRLF <:+ conn.request.getD [] ++ recvd →
          c.state = conn_state.RECV_REQUEST ∧ c.http_code = conn.http_code ∧
          c.header = conn.header ∧ c.reply = conn.reply)) ∧
    (∃ c, poll_recv_request scenario_env
        (connection_with_request (List.replicate 3999 'a')) (some ['b']) = Except.ok c ∧
      c.state = conn_state.RECV_REQUEST ∧ c.http_code = 0 ∧ c.reply = none) ∧
    (∃ c, poll_recv_request scenario_env
        (connection_with_request (List.replicate 4000 'a')) (some ['b']) = Except.ok c ∧
      c.http_code = 413 ∧ c.state = conn_state.SEND_HEADER) ∧
    ∃ c, poll_recv_request scenario_env
        (connection_with_request (NUL :: List.replicate 3999 'a')) (some ['b']) = Except.ok c ∧
      c.http_code = 413 ∧ c.state = conn_state.SEND_HEADER := by
  have key : ∀ (env : environment) (conn : connection) (recvd : List Char),
      recvd ≠ [] →
      conn.request_length = (conn.request.getD []).length →
      conn.request_length + recvd.length < 2 ^ 32 →
      NUL ∈ conn.request.getD [] ++ recvd →
      CRLFCRLF <:+ conn.request.getD [] ++ recvd →
      poll_recv_request env conn (some recvd) = Except.error fatal.assertion_failed := by
    intro env conn recvd hne hinv hroom hnul hend
    have hs := strlen_lt_of_mem (conn.request.getD [] ++ recvd) hnul
    rw [List.length_append] at hs
    have hlen : 4 < conn.request_length + recvd.length := by
      obtain ⟨pre, hpre⟩ := hend
      have h1 := congrArg List.length hpre
      have h2 : NUL ∈ pre := by
        have h3 : NUL ∈ pre ++ CRLFCRLF := by
          rw [hpre]
          exact hnul
        rcases List.mem_append.mp h3 with h3 | h3
        · exact h3
        · exact absurd h3 (by decide)
      have h4 : 0 < pre.length := List.length_pos_of_mem h2
      simp only [List.length_append, CRLFCRLF, List.length_cons, List.length_nil] at h1
      omega
    rw [poll_recv_request_eq env conn recvd hne hinv hroom, if_pos ⟨hlen, hend⟩]
    have hp : process_request env { conn with
        last_active := env.time,
        request := some (conn.request.getD [] ++ recvd),
        request_length := conn.request_length + recvd.length } =
        Except.error fatal.assertion_failed := by
      unfold process_request parse_request
      simp only
      rw [if_pos (by
        show conn.request_length + recvd.length ≠ strlen (conn.request.getD [] ++ recvd)
        omega)]
    rw [hp]
  have hlen : ∀ (s r : List Char), (connection_with_request s).request_length + r.length =
      s.length + r.length := fun s r => rfl
  have hend : ∀ s : List Char,
      ¬ CRLFCRLF <:+ (connection_with_request s).request.getD [] ++ ['b'] := by
    rintro s ⟨t, ht⟩
    have h6 := congrArg List.getLast? ht
    have h7 : LF ≠ 'b' := by decide
    simp [connection_with_request, CRLFCRLF, h7] at h6
  refine ⟨fun env => ?_, key, poll_recv_request_length_test, ?_, ?_, ?_⟩
  · refine key env _ CRLFCRLF (by decide) rfl ?_ ?_ ⟨NUL :: List.replicate 3999 'a', rfl⟩
    · rw [hlen]
      simp only [List.length_cons, List.length_replicate, CRLFCRLF, List.length_nil]
      norm_num
    · exact List.mem_append_left _ (List.mem_cons_self _ _)
  · obtain ⟨c, h1, -, -, h4⟩ := poll_recv_request_length_test scenario_env
      (connection_with_request (List.replicate 3999 'a')) ['b'] (List.cons_ne_nil _ _) rfl rfl
      (by rw [hlen, List.length_replicate]; norm_num) (fun h => absurd h (hend _))
    have h5 := h4 (by rw [hlen, List.length_replicate]; decide) (hend _)
    exact ⟨c, h1, h5.1, h5.2.1, h5.2.2.2⟩
  · obtain ⟨c, h1, h2, -, -⟩ := poll_recv_request_length_test scenario_env
      (connection_with_request (List.replicate 4000 'a')) ['b'] (List.cons_ne_nil _ _) rfl rfl
      (by rw [hlen, List.length_replicate]; norm_num) (fun h => absurd h (hend _))
    have h5 := h2.2 (by rw [hlen, List.length_replicate]; decide)
    exact ⟨c, h1, h5.1, h5.2⟩
  · obtain ⟨c, h1, h2, -, -⟩ := poll_recv_request_length_test scenario_env
      (connection_with_request (NUL :: List.replicate 3999 'a')) ['b'] (List.cons_ne_nil _ _)
      rfl rfl
      (by rw [hlen, List.length_cons, List.length_replicate]; norm_num)
      (fun h => absurd h (hend _))
    have h5 := h2.2 (by rw [hlen, List.length_cons, List.length_replicate]; decide)
    exact ⟨c, h1, h5.1, h5.2⟩

end Darkhttpd
